import Mathlib

/-!
# HTTPClient.cpp: a shallow embedding

Bytes (`char`) are natural numbers, C strings are the lists of their characters
(terminator excluded), `size_t` is a natural number reduced modulo `2 ^ 32`
wherever the source can wrap, and every function that the C standard leaves
undefined on some input (a read past the working buffer, a null pointer
subtraction, a `sscanf` conversion that does not fit its object) returns the
explicit outcome `undefined` there.
-/

namespace HTTPClient

/-! ## Result codes and outcomes -/

/-- Result codes of `core/fwk.h` used by `HTTPClient.cpp`. The header is not part of
the sources; the codes are taken as pairwise distinct, with `OK` the only one that
is zero (the source tests `if(ret)`). -/
inductive NetErr where
  | OK
  | NET_INVALID
  | NET_TOOSMALL
  | NET_CONN
  | NET_PROTOCOL
  | NET_CLOSED
  deriving DecidableEq, Repr

/-- Outcome of a C function that either yields a value, returns an error code, or
runs into behaviour the C standard leaves undefined. -/
inductive Outcome (α : Type) where
  | ok (a : α)
  | err (e : NetErr)
  | undefined
  deriving DecidableEq, Repr

/-- Sequencing of outcomes: the first error or undefined step ends the run. -/
def Outcome.bind {α β : Type} : Outcome α → (α → Outcome β) → Outcome β
  | .ok a, f => f a
  | .err e, _ => .err e
  | .undefined, _ => .undefined

instance : Monad Outcome where
  pure := Outcome.ok
  bind := Outcome.bind

/-- Width of `size_t` on the 32-bit target: arithmetic on sizes wraps modulo this. -/
def SIZE_MOD : Nat := 2 ^ 32

/-- Size of the working buffer, `#define CHUNK_SIZE 256`. -/
def CHUNK_SIZE : Nat := 256

/-- Default port, `#define HTTP_PORT 80` (the source writes the literal 80). -/
def HTTP_PORT : Nat := 80

/-! ## C string primitives -/

/-- Tests whether `pat` occurs at the start of `s`. -/
def startsWith : List Nat → List Nat → Bool
  | _, [] => true
  | [], _ :: _ => false
  | c :: s, p :: ps => decide (c = p) && startsWith s ps

/-- The call `strstr(s, needle)`: offset of the first occurrence, `none` for `NULL`. -/
def strstr : List Nat → List Nat → Option Nat
  | [], needle => if startsWith [] needle then some 0 else none
  | c :: cs, needle =>
    if startsWith (c :: cs) needle then some 0 else (strstr cs needle).map (· + 1)

/-- The call `strchr(s, ch)` for a non-zero `ch`: offset of the first occurrence. -/
def strchr : List Nat → Nat → Option Nat
  | [], _ => none
  | c :: cs, ch => if c = ch then some 0 else (strchr cs ch).map (· + 1)

/-- The test `isspace` of the C locale. -/
def isspace (c : Nat) : Bool := decide (c = 32) || (decide (9 ≤ c) && decide (c ≤ 13))

/-- The test `isdigit`. -/
def isdigit (c : Nat) : Bool := decide (48 ≤ c) && decide (c ≤ 57)

/-- The test `isxdigit`. -/
def isxdigit (c : Nat) : Bool :=
  isdigit c || (decide (65 ≤ c) && decide (c ≤ 70)) || (decide (97 ≤ c) && decide (c ≤ 102))

/-- Value of a hexadecimal digit character. -/
def xdigitVal (c : Nat) : Nat :=
  if isdigit c then c - 48 else if 97 ≤ c then c - 87 else c - 55

/-- Value of a string of decimal digits. -/
def decVal (ds : List Nat) : Nat := ds.foldl (fun acc c => 10 * acc + (c - 48)) 0

/-- Value of a string of hexadecimal digits. -/
def hexVal (ds : List Nat) : Nat := ds.foldl (fun acc c => 16 * acc + xdigitVal c) 0

/-- Result of one `sscanf` conversion: no match, a value together with the unread
rest of the input, or a value that does not fit the receiving object (undefined
by the C standard). -/
inductive Conv where
  | noMatch
  | value (v : Int) (rest : List Nat)
  | overflow
  deriving DecidableEq, Repr

/-- Splits an optional sign off the input of a numeric conversion. -/
def scanSign : List Nat → Bool × List Nat
  | [] => (false, [])
  | c :: t => if c = 45 then (true, t) else if c = 43 then (false, t) else (false, c :: t)

/-- A numeric `sscanf` conversion in base 10 whose object holds the integers from
`lo` to `hi`: leading white space is skipped, a sign is optional, at least one
digit is required. -/
def scanDecimal (lo hi : Int) (s : List Nat) : Conv :=
  let (neg, s2) := scanSign (s.dropWhile isspace)
  let ds := s2.takeWhile isdigit
  if ds = [] then .noMatch
  else
    let v : Int := if neg then - (decVal ds : Int) else (decVal ds : Int)
    if lo ≤ v ∧ v ≤ hi then .value v (s2.dropWhile isdigit) else .overflow

/-- The conversion `%hu` into a `uint16_t`. -/
def scan_hu (s : List Nat) : Conv := scanDecimal 0 65535 s

/-- The conversion `%d` into an `int`. -/
def scan_d (s : List Nat) : Conv := scanDecimal (-(2 ^ 31)) (2 ^ 31 - 1) s

/-- The conversion `%*d`: the value is discarded, so every digit string matches;
the result is the unread rest of the input. -/
def skip_d (s : List Nat) : Option (List Nat) :=
  let (_, s2) := scanSign (s.dropWhile isspace)
  if s2.takeWhile isdigit = [] then none else some (s2.dropWhile isdigit)

/-- Drops the optional `0x` or `0X` that may precede the digits of a `%x` conversion;
the marker counts only when a hexadecimal digit follows it. -/
def scanHexMarker : List Nat → List Nat
  | a :: b :: c :: t =>
    if a = 48 ∧ (b = 120 ∨ b = 88) ∧ isxdigit c = true then c :: t else a :: b :: c :: t
  | s => s

/-- The conversion `%x` into an unsigned 32-bit object. -/
def scan_x (s : List Nat) : Conv :=
  let (neg, s2) := scanSign (s.dropWhile isspace)
  let s3 := scanHexMarker s2
  let ds := s3.takeWhile isxdigit
  if ds = [] then .noMatch
  else if neg ∧ hexVal ds ≠ 0 then .overflow
  else if hexVal ds < SIZE_MOD then .value (hexVal ds) (s3.dropWhile isxdigit) else .overflow

/-! ## `HTTPClient::parseURL` -/

/-- The four outputs of `parseURL`. -/
structure ParsedURL where
  scheme : List Nat
  host : List Nat
  port : Nat
  path : List Nat
  deriving DecidableEq, Repr

/-- `HTTPClient::parseURL` (lines 519-590). `url` is the C string, the three
capacities are `maxSchemeLen`, `maxHostLen` and `maxPathLen`. Offsets are taken
from `hostPtr` (the character after `://`). -/
def parseURL (url : List Nat) (maxSchemeLen maxHostLen maxPathLen : Nat) :
    Outcome ParsedURL := do
  -- char* hostPtr = strstr(url, "://");
  let some schemeLen := strstr url [58, 47, 47] | .err .NET_INVALID
  if maxSchemeLen < schemeLen + 1 then .err .NET_TOOSMALL
  let scheme := url.take schemeLen
  -- hostPtr += 3;
  let hostStr := url.drop (schemeLen + 3)
  -- char* portPtr = strchr(hostPtr, ':');
  let (hostLen0, port) ← (match strchr hostStr 58 with
    | some portOff =>
      match scan_hu (hostStr.drop (portOff + 1)) with
      | .value p _ => .ok (portOff, p.toNat)
      | .noMatch => .err .NET_INVALID
      | .overflow => .undefined
    | none => .ok (0, 0) : Outcome (Nat × Nat))
  -- char* pathPtr = strchr(hostPtr, '/');
  let pathPtr := strchr hostStr 47
  -- if( hostLen == 0 ) hostLen = pathPtr - hostPtr;  (undefined for a null pathPtr)
  let hostLen ← (if hostLen0 = 0 then
      match pathPtr with
      | some pathOff => .ok pathOff
      | none => .undefined
    else .ok hostLen0 : Outcome Nat)
  if maxHostLen < hostLen + 1 then .err .NET_TOOSMALL
  let host := hostStr.take hostLen
  -- fragmentPtr - pathPtr and strlen(pathPtr) are undefined for a null pathPtr
  let some pathOff := pathPtr | .undefined
  let pathLen := match strchr hostStr 35 with
    | some fragOff => (fragOff + SIZE_MOD - pathOff) % SIZE_MOD
    | none => hostStr.length - pathOff
  if maxPathLen < (pathLen + 1) % SIZE_MOD then .err .NET_TOOSMALL
  -- memcpy(path, pathPtr, pathLen) must stay inside the string and its terminator
  if hostStr.length + 1 < pathOff + pathLen then .undefined
  let path := (hostStr.drop pathOff).take pathLen
  return { scheme := scheme, host := host, port := port, path := path }

/-! ## The URL grammar of the specification -/

/-- The optional `:port` of a URL, from the digits of the port. -/
def portText : Option (List Nat) → List Nat
  | some digits => 58 :: digits
  | none => []

/-- The optional `#fragment` of a URL. -/
def fragText : Option (List Nat) → List Nat
  | some frag => 35 :: frag
  | none => []

/-- The URL `scheme://host[:port]path[#frag]` written out from its components, the
form of a well-formed URL in the specification. -/
def mkURL (scheme host : List Nat) (port : Option (List Nat)) (path : List Nat)
    (frag : Option (List Nat)) : List Nat :=
  scheme ++ [58, 47, 47] ++ (host ++ (portText port ++ (path ++ fragText frag)))

/-- The port number a URL states: the value of its digits, 0 when it has none. -/
def portValue : Option (List Nat) → Nat
  | some digits => decVal digits
  | none => 0

/-- Well-formedness of the components of `scheme://host[:port]path[#frag]`: the
scheme does not contain `://`, the host is non-empty and free of `:`, `/` and `#`,
the port is a number from 1 to 65535 in decimal digits, the path starts with `/` and
is free of `#`, and its length is a `size_t`. -/
structure WellFormed (scheme host : List Nat) (port : Option (List Nat)) (path : List Nat) :
    Prop where
  scheme_sep : ¬ [58, 47, 47] <:+: scheme
  host_ne : host ≠ []
  host_colon : 58 ∉ host
  host_slash : 47 ∉ host
  host_hash : 35 ∉ host
  port_ne : ∀ d, port = some d → d ≠ []
  port_digits : ∀ d, port = some d → ∀ c ∈ d, isdigit c = true
  port_range : ∀ d, port = some d → 1 ≤ decVal d ∧ decVal d ≤ 65535
  path_slash : path.head? = some 47
  path_hash : 35 ∉ path
  path_size : path.length + 1 < SIZE_MOD

/-! ## Printing (`snprintf`) -/

/-- Digits of `n` in base `b`, most significant first, each rendered by `digit`;
`fuel` bounds the number of digits. -/
def toBase (b : Nat) (digit : Nat → Nat) : Nat → Nat → List Nat → List Nat
  | 0, _, acc => acc
  | fuel + 1, n, acc =>
    if n / b = 0 then digit (n % b) :: acc
    else toBase b digit fuel (n / b) (digit (n % b) :: acc)

/-- The conversion `%X` of an unsigned value. -/
def printHex (n : Nat) : List Nat :=
  toBase 16 (fun d => if d < 10 then 48 + d else 55 + d) (n + 1) n []

/-- Decimal digits of a natural number. -/
def printNat (n : Nat) : List Nat := toBase 10 (fun d => 48 + d) (n + 1) n []

/-- The conversion `%d` applied to a `size_t` argument: the 32 bits are read as a
signed `int`. -/
def printInt (n : Nat) : List Nat :=
  let m := n % SIZE_MOD
  if m < 2 ^ 31 then printNat m else 45 :: printNat (SIZE_MOD - m)

/-! ## Collaborators: transport, data source, data sink -/

/-- What one `m_sock.receive` call gives back: the bytes it stored (their count is
the return value, zero for an orderly close) or a negative return. -/
inductive RecvRet where
  | data (bs : List Nat)
  | error
  deriving DecidableEq, Repr

/-- The socket `m_sock`, with its state made explicit. `connect` and `send` give the
integer the C call returns. -/
structure Transport (σ : Type) where
  connect : σ → List Nat → Nat → Int × σ
  send : σ → List Nat → Nat → Int × σ
  receive : σ → Nat → Nat → RecvRet × σ
  close : σ → σ

/-- The outbound data source `IHTTPDataOut`, with the state of its reader explicit.
`dataType` is the string `getDataType` stores when it returns `OK`. `dataLen` is
what `getDataLen()` returns: the interface is declared in a header that is not
among the sources, and the value is taken to be a `size_t`, the type of the
`writtenLen` it is compared with at line 214. -/
structure DataOut (δ : Type) where
  isChunked : Bool
  dataLen : Nat
  dataType : Option (List Nat)
  read : δ → Nat → List Nat × δ

/-- The two request methods of `HTTP_METH`. -/
inductive HTTP_METH where
  | HTTP_GET
  | HTTP_POST
  deriving DecidableEq, Repr

/-- Calls made on the collaborators, in the order they happen. The data sink
`IHTTPDataIn` is represented by the calls it receives. -/
inductive Event where
  | sockConnect (host : List Nat) (port : Nat)
  | sockSend (data : List Nat) (timeout : Nat)
  | sockReceive (len : Nat) (timeout : Nat)
  | sockClose
  | srcRead (len : Nat)
  | setDataLen (n : Nat)
  | setIsChunked (b : Bool)
  | setDataType (s : List Nat)
  | write (data : List Nat)
  deriving DecidableEq, Repr

/-- State of one `connect` call: socket, source reader, the working buffer `buf`,
the members `m_httpResponseCode` and `m_timeout`, and the calls made so far
(most recent first). -/
structure State (σ δ : Type) where
  sock : σ
  src : δ
  buf : List Nat
  code : Int
  timeout : Nat
  trace : List Event

/-- Result of running a piece of `connect`: it goes on with a value, `connect` has
returned a code, it hit undefined behaviour, or the iteration budget ran out. -/
inductive Res (S α : Type) where
  | cont (a : α) (s : S)
  | ret (e : NetErr) (s : S)
  | undefined
  | outOfFuel
  deriving DecidableEq, Repr

/-- Computations over the state of a `connect` call. -/
def M (σ δ α : Type) : Type := State σ δ → Res (State σ δ) α

/-- Sequencing in `M`. -/
def M.bind {σ δ α β : Type} (m : M σ δ α) (f : α → M σ δ β) : M σ δ β :=
  fun s => match m s with
    | .cont a s1 => f a s1
    | .ret e s1 => .ret e s1
    | .undefined => .undefined
    | .outOfFuel => .outOfFuel

instance {σ δ : Type} : Monad (M σ δ) where
  pure a := fun s => .cont a s
  bind := M.bind

section Engine

variable {σ δ : Type}

/-- A `return e;` of `connect`. -/
def retM {α : Type} (e : NetErr) : M σ δ α := fun s => .ret e s

/-- Undefined behaviour. -/
def undefinedM {α : Type} : M σ δ α := fun _ => .undefined

/-- The iteration budget of a loop is used up. -/
def outOfFuelM {α : Type} : M σ δ α := fun _ => .outOfFuel

/-- Reads the working buffer. -/
def getBuf : M σ δ (List Nat) := fun s => .cont s.buf s

/-- Reads the member `m_timeout`. -/
def getTimeout : M σ δ Nat := fun s => .cont s.timeout s

/-- Appends a call to the trace. -/
def emit (e : Event) : M σ δ Unit := fun s => .cont () { s with trace := e :: s.trace }

/-- Stores `bs` at offset `off` of the working buffer; a store that does not fit
into the `CHUNK_SIZE` bytes is undefined. -/
def storeBuf (off : Nat) (bs : List Nat) : M σ δ Unit := fun s =>
  if off + bs.length ≤ CHUNK_SIZE then
    .cont () { s with buf := s.buf.take off ++ bs ++ s.buf.drop (off + bs.length) }
  else .undefined

/-- The call `memmove(buf + dst, buf + src, n)`; undefined when either range leaves
the buffer. -/
def memmove (dst src n : Nat) : M σ δ Unit := fun s =>
  if src + n ≤ CHUNK_SIZE ∧ dst + n ≤ CHUNK_SIZE then
    .cont () { s with
      buf := s.buf.take dst ++ (s.buf.drop src).take n ++ s.buf.drop (dst + n) }
  else .undefined

/-- The bytes `buf[0..n)`, as handed to a callee; undefined past the buffer. -/
def readBuf (n : Nat) : M σ δ (List Nat) := fun s =>
  if n ≤ CHUNK_SIZE then .cont (s.buf.take n) s else .undefined

/-- The C string that starts at `buf`: the bytes before the first zero. Every use
follows a store of the terminator inside the buffer. -/
def cstr (buf : List Nat) : List Nat := buf.takeWhile (fun c => decide (c ≠ 0))

/-- `m_sock.connect(host, port)`. -/
def sockConnect (T : Transport σ) (host : List Nat) (port : Nat) : M σ δ Int := fun s =>
  let r := T.connect s.sock host port
  .cont r.1 { s with sock := r.2, trace := .sockConnect host port :: s.trace }

/-- `m_sock.send(data, len, timeout)`. -/
def sockSend (T : Transport σ) (data : List Nat) (timeout : Nat) : M σ δ Int := fun s =>
  let r := T.send s.sock data timeout
  .cont r.1 { s with sock := r.2, trace := .sockSend data timeout :: s.trace }

/-- `m_sock.receive(ptr, len, timeout)`; the caller stores the bytes. -/
def sockReceive (T : Transport σ) (len timeout : Nat) : M σ δ RecvRet := fun s =>
  let r := T.receive s.sock len timeout
  .cont r.1 { s with sock := r.2, trace := .sockReceive len timeout :: s.trace }

/-- `m_sock.close()`. -/
def sockClose (T : Transport σ) : M σ δ Unit := fun s =>
  .cont () { s with sock := T.close s.sock, trace := .sockClose :: s.trace }

/-- `pDataOut->read(buf, len, &trfLen)`: the bytes land at the start of `buf`. -/
def srcRead (D : DataOut δ) (len : Nat) : M σ δ Nat := fun s =>
  let r := D.read s.src len
  if r.1.length ≤ CHUNK_SIZE then
    .cont r.1.length { s with
      src := r.2
      buf := r.1 ++ s.buf.drop r.1.length
      trace := .srcRead len :: s.trace }
  else .undefined

/-- The macro `PRTCL_ERR()`. -/
def PRTCL_ERR {α : Type} (T : Transport σ) : M σ δ α := do
  sockClose T
  retM .NET_PROTOCOL

/-- The macro `CHECK_CONN_ERR(ret)`. -/
def CHECK_CONN_ERR (T : Transport σ) (ret : NetErr) : M σ δ Unit :=
  if ret ≠ .OK then do
    sockClose T
    retM .NET_CONN
  else pure ()

/-! ## `HTTPClient::recv` and `HTTPClient::send` -/

/-- The loop of `HTTPClient::recv` (lines 454-480) on the buffer position `off`.
Every round that goes on adds at least one byte to `readLen`, so `maxLen` rounds
are all the loop can make; after them `readLen < maxLen` is false. -/
def recvLoop (T : Transport σ) (off minLen maxLen : Nat) :
    Nat → Nat → M σ δ (NetErr × Nat)
  | 0, readLen => pure (.OK, readLen)
  | fuel + 1, readLen =>
    if readLen < maxLen then do
      let timeout ← getTimeout
      let len := if readLen < minLen then minLen - readLen else maxLen - readLen
      let tmo := if readLen < minLen then timeout else 0
      let r ← sockReceive T len tmo
      match r with
      | .data bs =>
        if len < bs.length then undefinedM
        else if bs = [] then pure (.OK, readLen)
        else do
          storeBuf (off + readLen) bs
          recvLoop T off minLen maxLen fuel (readLen + bs.length)
      | .error => pure (.NET_CONN, readLen)
    else pure (.OK, readLen)

/-- `HTTPClient::recv(buf + off, minLen, maxLen, &readLen)`: the result code and the
count stored through `pReadLen`. -/
def recv (T : Transport σ) (off minLen maxLen : Nat) : M σ δ (NetErr × Nat) :=
  recvLoop T off minLen maxLen maxLen 0

/-- The do-while loop of `HTTPClient::send` (lines 496-513). Every round that goes
on adds at least one byte to `writtenLen`, so the loop makes at most `len` rounds
(one when `len` is zero). -/
def sendLoop (T : Transport σ) (data : List Nat) : Nat → Nat → M σ δ NetErr
  | 0, _ => pure .OK
  | fuel + 1, writtenLen => do
    let timeout ← getTimeout
    let ret ← sockSend T (data.drop writtenLen) timeout
    if 0 < ret then
      if writtenLen + ret.toNat < data.length then
        sendLoop T data fuel (writtenLen + ret.toNat)
      else pure .OK
    else if ret = 0 then pure .NET_CLOSED
    else pure .NET_CONN

/-- `HTTPClient::send(buf, len)` on the `len` bytes `data`. -/
def send (T : Transport σ) (data : List Nat) : M σ δ NetErr :=
  sendLoop T data (data.length + 1) 0

/-- The call `send(buf)` after a `snprintf(buf, sizeof(buf), ...)` of the text `text`: the
output is cut to `CHUNK_SIZE - 1` characters and terminated, and `send` takes its
length with `strlen`. -/
def sendText (T : Transport σ) (text : List Nat) : M σ δ NetErr := do
  storeBuf 0 (text.take (CHUNK_SIZE - 1) ++ [0])
  let buf ← getBuf
  send T (cstr buf)

end Engine

/-! ## Text constants -/

/-- The text `"\r\n"`. -/
def CRLF : List Nat := [13, 10]

/-- The text `" HTTP/1.1\r\nHost: "`. -/
def txtHttpHost : List Nat :=
  [32, 72, 84, 84, 80, 47, 49, 46, 49, 13, 10, 72, 111, 115, 116, 58, 32]

/-- The text `"Transfer-Encoding: chunked\r\n"`. -/
def txtChunkedLine : List Nat :=
  [84, 114, 97, 110, 115, 102, 101, 114, 45, 69, 110, 99, 111, 100, 105, 110, 103, 58, 32,
   99, 104, 117, 110, 107, 101, 100, 13, 10]

/-- The text `"Content-Length: "`. -/
def txtContentLengthColon : List Nat :=
  [67, 111, 110, 116, 101, 110, 116, 45, 76, 101, 110, 103, 116, 104, 58, 32]

/-- The text `"Content-Type: "`. -/
def txtContentTypeColon : List Nat :=
  [67, 111, 110, 116, 101, 110, 116, 45, 84, 121, 112, 101, 58, 32]

/-- The header key `"Content-Length"`. -/
def keyContentLength : List Nat :=
  [67, 111, 110, 116, 101, 110, 116, 45, 76, 101, 110, 103, 116, 104]

/-- The header key `"Transfer-Encoding"`. -/
def keyTransferEncoding : List Nat :=
  [84, 114, 97, 110, 115, 102, 101, 114, 45, 69, 110, 99, 111, 100, 105, 110, 103]

/-- The header key `"Content-Type"`. -/
def keyContentType : List Nat := [67, 111, 110, 116, 101, 110, 116, 45, 84, 121, 112, 101]

/-- The value `"Chunked"`. -/
def valChunkedUpper : List Nat := [67, 104, 117, 110, 107, 101, 100]

/-- The value `"chunked"`. -/
def valChunkedLower : List Nat := [99, 104, 117, 110, 107, 101, 100]

/-- The method name printed by `%s`: `"GET"` or `"POST"` (line 137). -/
def methText : HTTP_METH → List Nat
  | .HTTP_GET => [71, 69, 84]
  | .HTTP_POST => [80, 79, 83, 84]

/-! ## `sscanf` formats of the response engine -/

/-- The format `"HTTP/%*d.%*d %d %*[^\r\n]"` (line 245): the literal text, two
discarded integers around a dot, white space, and the status code. The result is
that of the only storing conversion, so `sscanf` returns 1 exactly on `value`. -/
def scanStatusLine (s : List Nat) : Conv :=
  if startsWith s [72, 84, 84, 80, 47] then
    match skip_d (s.drop 5) with
    | some (c :: s2) =>
      if c = 46 then
        match skip_d s2 with
        | some s3 => scan_d (s3.dropWhile isspace)
        | none => .noMatch
      else .noMatch
    | _ => .noMatch
  else .noMatch

/-- A conversion `%31[^...]`: the longest run of at most 31 characters accepted by
`p`, which must not be empty, and the unread rest. -/
def scanSet31 (p : Nat → Bool) (s : List Nat) : Option (List Nat × List Nat) :=
  let m := (s.takeWhile p).take 31
  if m = [] then none else some (m, s.drop m.length)

/-- The format `"%31[^:]: %31[^\r\n]"` (line 306): `some (key, value)` when `sscanf`
returns 2. -/
def scanHeader (s : List Nat) : Option (List Nat × List Nat) :=
  match scanSet31 (fun c => decide (c ≠ 58)) s with
  | some (key, c :: r) =>
    if c = 58 then
      match scanSet31 (fun c => decide (c ≠ 13) && decide (c ≠ 10)) (r.dropWhile isspace) with
      | some (value, _) => some (key, value)
      | none => none
    else none
  | _ => none

/-- Subtraction of two `size_t` values. -/
def szSub (a b : Nat) : Nat := (a % SIZE_MOD + SIZE_MOD - b % SIZE_MOD) % SIZE_MOD

/-- The `for` loop of lines 350-356 at position `pos`, where `rest` holds the bytes
of `buf` from `pos` to the end of the buffer: the position where the loop stops,
or `none` when it reads past the end of `buf`. A round reads `buf[pos]` and, after
a carriage return, `buf[pos + 1]`. -/
def chunkScan (bound : Nat) : List Nat → Nat → Option Nat
  | [], pos => if pos < bound then none else some pos
  | c :: rest, pos =>
    if pos < bound then
      if c = 13 then
        match rest with
        | [] => none
        | d :: _ => if d = 10 then some pos else chunkScan bound rest (pos + 1)
      else chunkScan bound rest (pos + 1)
    else some pos

/-! ## `HTTPClient::connect` -/

section Engine

variable {σ δ : Type}

/-- Lines 151-171: the headers that describe the body of a POST. -/
def sendBodyHeaders (T : Transport σ) (D : DataOut δ) : M σ δ Unit := do
  let ret ← (if D.isChunked then send T txtChunkedLine
    else sendText T (txtContentLengthColon ++ printInt D.dataLen ++ CRLF) : M σ δ NetErr)
  CHECK_CONN_ERR T ret
  match D.dataType with
  | some type =>
    -- char type[48] holds the string and its terminator
    if 48 ≤ type.length then undefinedM
    else do
      let ret ← sendText T (txtContentTypeColon ++ type ++ CRLF)
      CHECK_CONN_ERR T ret
  | none => pure ()

/-- Lines 184-224: the loop that sends the body of a POST. `writtenLen` is declared
inside the loop body, so it is zero at the start of every round. -/
def postLoop (T : Transport σ) (D : DataOut δ) : Nat → M σ δ Unit
  | 0 => outOfFuelM
  | fuel + 1 => do
    let writtenLen := 0
    let trfLen ← srcRead D CHUNK_SIZE
    if D.isChunked then do
      -- chunk header, chunk data, chunk-terminating CRLF
      let ret ← send T (printHex trfLen ++ CRLF)
      CHECK_CONN_ERR T ret
      (if trfLen ≠ 0 then do
          let data ← readBuf trfLen
          let ret ← send T data
          CHECK_CONN_ERR T ret
        else pure () : M σ δ Unit)
      let ret ← send T CRLF
      CHECK_CONN_ERR T ret
      if trfLen = 0 then pure () else postLoop T D fuel
    else if trfLen = 0 then pure ()
    else do
      let data ← readBuf trfLen
      let ret ← send T data
      CHECK_CONN_ERR T ret
      let writtenLen := writtenLen + trfLen
      if D.dataLen ≤ writtenLen then pure () else postLoop T D fuel

/-- Lines 134-226: the request line, the headers and the body. -/
def sendRequest (T : Transport σ) (D : Option (DataOut δ)) (method : HTTP_METH)
    (host path : List Nat) (fuel : Nat) : M σ δ Unit := do
  let ret ← sendText T (methText method ++ [32] ++ path ++ txtHttpHost ++ host ++ CRLF)
  if ret ≠ .OK then do
    sockClose T
    retM .NET_CONN
  else do
    (match method, D with
      | .HTTP_POST, some D => sendBodyHeaders T D
      | _, _ => pure () : M σ δ Unit)
    let ret ← send T CRLF
    CHECK_CONN_ERR T ret
    match method, D with
    | .HTTP_POST, some D => postLoop T D fuel
    | _, _ => pure ()

/-- Lines 235-262: the status line in the buffer is found, parsed and dropped; the
result is `trfLen`. -/
def parseStatusLine (T : Transport σ) (trfLen : Nat) : M σ δ Nat := do
  let buf ← getBuf
  match strstr (cstr buf) CRLF with
  | none => PRTCL_ERR T
  | some crlfPos =>
    storeBuf crlfPos [0]
    let buf ← getBuf
    match scanStatusLine (cstr buf) with
    | .noMatch => PRTCL_ERR T
    | .overflow => undefinedM
    | .value code _ =>
      fun s => (
        if code ≠ 200 then PRTCL_ERR T
        else do
          memmove 0 (crlfPos + 2) (szSub trfLen (crlfPos + 2) + 1)
          pure (szSub trfLen (crlfPos + 2)) : M σ δ Nat) { s with code := code }

/-- Lines 230-262: the first read and the status line; the result is `trfLen`. -/
def statusLine (T : Transport σ) : M σ δ Nat := do
  let (ret, trfLen) ← recv T 0 (CHUNK_SIZE - 1) (CHUNK_SIZE - 1)
  CHECK_CONN_ERR T ret
  storeBuf trfLen [0]
  parseStatusLine T trfLen

/-- Lines 310-326: what a parsed header line does; the result is the new pair of
`recvContentLength` and `recvChunked`. -/
def applyHeader (key value : List Nat) (recvContentLength : Nat) (recvChunked : Bool) :
    M σ δ (Nat × Bool) :=
  if key = keyContentLength then
    -- sscanf(value, "%d", &recvContentLength): the int lands in a size_t
    match scan_d value with
    | .value v _ => do
      let len := (v % (SIZE_MOD : Int)).toNat
      emit (.setDataLen len)
      pure (len, recvChunked)
    | .noMatch => do
      emit (.setDataLen recvContentLength)
      pure (recvContentLength, recvChunked)
    | .overflow => undefinedM
  else if key = keyTransferEncoding then
    if value = valChunkedUpper ∨ value = valChunkedLower then do
      emit (.setIsChunked true)
      pure (recvContentLength, true)
    else pure (recvContentLength, recvChunked)
  else if key = keyContentType then do
    emit (.setDataType value)
    pure (recvContentLength, recvChunked)
  else pure (recvContentLength, recvChunked)

/-- Lines 267-338: the header loop; the result is `trfLen`, `recvContentLength` and
`recvChunked` at the `break` of line 295. -/
def headerLoop (T : Transport σ) : Nat → Nat → Nat → Bool → M σ δ (Nat × Nat × Bool)
  | 0, _, _, _ => outOfFuelM
  | fuel + 1, trfLen, recvContentLength, recvChunked => do
    let buf ← getBuf
    match strstr (cstr buf) CRLF with
    | none =>
      if trfLen < CHUNK_SIZE - 1 then do
        let (ret, newTrfLen) ← recv T trfLen 1 (CHUNK_SIZE - trfLen - 1)
        let trfLen := trfLen + newTrfLen
        storeBuf trfLen [0]
        CHECK_CONN_ERR T ret
        headerLoop T fuel trfLen recvContentLength recvChunked
      else PRTCL_ERR T
    | some crlfPos =>
      if crlfPos = 0 then do
        memmove 0 2 (szSub trfLen 2 + 1)
        pure (szSub trfLen 2, recvContentLength, recvChunked)
      else do
        storeBuf crlfPos [0]
        let buf ← getBuf
        match scanHeader (cstr buf) with
        | some (key, value) =>
          let (len, chunked) ← applyHeader key value recvContentLength recvChunked
          memmove 0 (crlfPos + 2) (szSub trfLen (crlfPos + 2) + 1)
          headerLoop T fuel (szSub trfLen (crlfPos + 2)) len chunked
        | none => PRTCL_ERR T

/-- How a round of the header loop ends when `connect` goes on: at the `continue` of
line 280 or at the end of the loop body (line 338), with the loop variables the next
round starts from, or at the `break` of line 295. -/
inductive Round where
  | next (trfLen recvContentLength : Nat) (recvChunked : Bool)
  | done (trfLen recvContentLength : Nat) (recvChunked : Bool)
  deriving DecidableEq, Repr

/-- Lines 269-337: one round of the header loop, the body of `while( true )`. -/
def headerRound (T : Transport σ) (trfLen recvContentLength : Nat) (recvChunked : Bool) :
    M σ δ Round := do
  let buf ← getBuf
  match strstr (cstr buf) CRLF with
  | none =>
    if trfLen < CHUNK_SIZE - 1 then do
      let (ret, newTrfLen) ← recv T trfLen 1 (CHUNK_SIZE - trfLen - 1)
      let trfLen := trfLen + newTrfLen
      storeBuf trfLen [0]
      CHECK_CONN_ERR T ret
      pure (.next trfLen recvContentLength recvChunked)
    else PRTCL_ERR T
  | some crlfPos =>
    if crlfPos = 0 then do
      memmove 0 2 (szSub trfLen 2 + 1)
      pure (.done (szSub trfLen 2) recvContentLength recvChunked)
    else do
      storeBuf crlfPos [0]
      let buf ← getBuf
      match scanHeader (cstr buf) with
      | some (key, value) =>
        let (len, chunked) ← applyHeader key value recvContentLength recvChunked
        memmove 0 (crlfPos + 2) (szSub trfLen (crlfPos + 2) + 1)
        pure (.next (szSub trfLen (crlfPos + 2)) len chunked)
      | none => PRTCL_ERR T

/-- The first `n` rounds of the header loop, or the rounds up to its `break` when
that comes first. -/
def headerRounds (T : Transport σ) : Nat → Nat → Nat → Bool → M σ δ Round
  | 0, trfLen, recvContentLength, recvChunked =>
    pure (.next trfLen recvContentLength recvChunked)
  | n + 1, trfLen, recvContentLength, recvChunked => do
    let r ← headerRound T trfLen recvContentLength recvChunked
    match r with
    | .next trfLen recvContentLength recvChunked =>
      headerRounds T n trfLen recvContentLength recvChunked
    | .done trfLen recvContentLength recvChunked =>
      pure (.done trfLen recvContentLength recvChunked)

/-- What is left of the header loop after a round: the loop again from the variables
of a round that went on, nothing after the `break`. -/
def headerRest (T : Transport σ) (fuel : Nat) : Round → M σ δ (Nat × Nat × Bool)
  | .next trfLen recvContentLength recvChunked =>
    headerLoop T fuel trfLen recvContentLength recvChunked
  | .done trfLen recvContentLength recvChunked =>
    pure (trfLen, recvContentLength, recvChunked)

/-- Lines 396-415: the do-while loop that hands `readLen` bytes to the sink; the
result is `trfLen` when the loop is left. -/
def drainLoop (T : Transport σ) : Nat → Nat → Nat → M σ δ Nat
  | 0, _, _ => outOfFuelM
  | fuel + 1, readLen, trfLen => do
    let data ← readBuf (min trfLen readLen)
    emit (.write data)
    if readLen < trfLen then do
      memmove 0 readLen (trfLen - readLen)
      pure (trfLen - readLen)
    else if readLen - trfLen ≠ 0 then do
      let (ret, newLen) ← recv T 0 1 (szSub (szSub CHUNK_SIZE trfLen) 1)
      CHECK_CONN_ERR T ret
      drainLoop T fuel (readLen - trfLen) newLen
    else pure trfLen

/-- Lines 417-434: the CRLF that ends the data of a chunk; the result is `trfLen`. -/
def chunkEnd (T : Transport σ) (trfLen : Nat) : M σ δ Nat := do
  let trfLen ← (if trfLen < 2 then do
      let (ret, newTrfLen) ← recv T 0 (2 - trfLen) CHUNK_SIZE
      CHECK_CONN_ERR T ret
      pure (trfLen + newTrfLen)
    else pure trfLen : M σ δ Nat)
  let buf ← getBuf
  if buf[0]? ≠ some 13 ∨ buf[1]? ≠ some 10 then PRTCL_ERR T
  else do
    memmove 0 2 (szSub trfLen 2)
    pure (szSub trfLen 2)

/-- Lines 342-440: the loop that receives the body. `n` is the iteration budget
handed to each inner drain loop. -/
def bodyLoop (T : Transport σ) (recvChunked : Bool) (recvContentLength n : Nat) :
    Nat → Nat → M σ δ Unit
  | 0, _ => outOfFuelM
  | fuel + 1, trfLen =>
    if recvChunked then do
      -- read the chunk header
      let buf ← getBuf
      match chunkScan (szSub trfLen 2) (buf.drop 1) 1 with
      | none => undefinedM
      | some crlfPos =>
        if szSub trfLen 2 ≤ crlfPos then
          -- try to read more
          if trfLen < CHUNK_SIZE then do
            let (ret, newTrfLen) ← recv T trfLen 0 (CHUNK_SIZE - trfLen - 1)
            CHECK_CONN_ERR T ret
            bodyLoop T recvChunked recvContentLength n fuel (trfLen + newTrfLen)
          else PRTCL_ERR T
        else do
          storeBuf crlfPos [0]
          let buf ← getBuf
          match scan_x (cstr buf) with
          | .noMatch => PRTCL_ERR T
          | .overflow => undefinedM
          | .value v _ =>
            let readLen := v.toNat
            memmove 0 (crlfPos + 2) (szSub trfLen (crlfPos + 2))
            let trfLen := szSub trfLen (crlfPos + 2)
            if readLen = 0 then pure ()
            else do
              let trfLen ← drainLoop T n readLen trfLen
              let trfLen ← chunkEnd T trfLen
              bodyLoop T recvChunked recvContentLength n fuel trfLen
    else do
      let _ ← drainLoop T n recvContentLength trfLen
      pure ()

/-- Lines 228-445: the response engine, from the first read to the final `close`. -/
def receiveResponse (T : Transport σ) (fuel : Nat) : M σ δ Unit := do
  let trfLen ← statusLine T
  let (trfLen, recvContentLength, recvChunked) ← headerLoop T fuel trfLen 0 false
  bodyLoop T recvChunked recvContentLength fuel fuel trfLen
  sockClose T
  retM .OK

/-- Lines 97-226 of `HTTPClient::connect`: the members are reset, the URL is parsed,
the socket is connected and the request is sent. The state handed in carries the
socket, the source reader, the stack contents that `buf` starts with (fitted to
`CHUNK_SIZE` bytes when `buf` comes to life), and the members left by the previous
call. -/
def connectRequest (T : Transport σ) (D : Option (DataOut δ)) (fuel : Nat) (url : List Nat)
    (method : HTTP_METH) (timeout : Nat) : M σ δ Unit := fun s =>
  let s := { s with code := 0, timeout := timeout }
  match parseURL url 8 32 64 with
  | .err e => .ret e s
  | .undefined => .undefined
  | .ok u =>
    let s := { s with buf := (s.buf ++ List.replicate CHUNK_SIZE 0).take CHUNK_SIZE }
    (do
      let port := if u.port = 0 then 80 else u.port
      let ret ← sockConnect T u.host port
      if ret < 0 then do
        sockClose T
        retM .NET_CONN
      else sendRequest T D method u.host u.path fuel : M σ δ Unit) s

/-- `HTTPClient::connect` (lines 97-446): the request, then the response. `fuel`
bounds the rounds of each of the loops that the source does not bound itself. -/
def connect (T : Transport σ) (D : Option (DataOut δ)) (fuel : Nat) (url : List Nat)
    (method : HTTP_METH) (timeout : Nat) : M σ δ Unit := do
  connectRequest T D fuel url method timeout
  receiveResponse T fuel

/-- `HTTPClient::getHTTPResponseCode` (lines 76-79). -/
def getHTTPResponseCode (s : State σ δ) : Int := s.code

end Engine

/-! ## Observations on a finished call -/

/-- The code `connect` returned, if it returned. -/
def Res.code? {S α : Type} : Res S α → Option NetErr
  | .ret e _ => some e
  | _ => none

/-- Whether a piece of `connect` ran to its end without making `connect` return. -/
def Res.isCont {S α : Type} : Res S α → Bool
  | .cont _ _ => true
  | _ => false

/-- The state in which `connect` returned, if it returned. -/
def Res.state? {S α : Type} : Res S α → Option S
  | .ret _ s => some s
  | _ => none

/-- Whether a run used up its iteration budget before `connect` returned. -/
def Res.isOutOfFuel {S α : Type} : Res S α → Bool
  | .outOfFuel => true
  | _ => false

/-! ## A transport that delivers a byte stream in fragments -/

/-- A peer that accepts every connection and every write, and whose response
arrives in the given fragments: a `receive` gives the next fragment, or the part
of it that fits, and zero once all fragments are delivered. -/
def streamTransport : Transport (List (List Nat)) where
  connect := fun s _ _ => (0, s)
  send := fun s data _ => (data.length, s)
  receive := fun s len _ =>
    match s with
    | [] => (.data [], [])
    | f :: fs => if f.length ≤ len then (.data f, fs) else (.data (f.take len), f.drop len :: fs)
  close := fun s => s

/-- The writes made on the sink, oldest first, from a trace (most recent first). -/
def sinkWrites : List Event → List (List Nat)
  | [] => []
  | .write d :: t => sinkWrites t ++ [d]
  | _ :: t => sinkWrites t

/-- The body bytes the sink has received. -/
def sinkBody (t : List Event) : List Nat := (sinkWrites t).flatten


/-! ## Vocabulary of the properties -/

section Vocabulary

variable {σ δ : Type}

/-- The trace grew by calls none of which is a `close`. -/
def Ext (s s' : State σ δ) : Prop :=
  ∃ es, s'.trace = es ++ s.trace ∧ Event.sockClose ∉ es

/-- The trace grew by calls the last of which is the only `close`. -/
def ClosedLast (s s' : State σ δ) : Prop :=
  ∃ es, s'.trace = Event.sockClose :: (es ++ s.trace) ∧ Event.sockClose ∉ es

/-- A piece of `connect` that never closes the socket while it goes on, and that
closes it exactly once, as its last call, when it makes `connect` return; the
code returned is then `OK`, `NET_CONN` or `NET_PROTOCOL`. -/
structure Safe {α : Type} (m : M σ δ α) : Prop where
  out : ∀ s, match m s with
    | .cont _ s' => Ext s s'
    | .ret e s' => ClosedLast s s' ∧ (e = .OK ∨ e = .NET_CONN ∨ e = .NET_PROTOCOL)
    | _ => True

/-- Calls on the data sink. -/
def isSinkEvent : Event → Bool
  | .setDataLen _ => true
  | .setIsChunked _ => true
  | .setDataType _ => true
  | .write _ => true
  | _ => false

/-- The trace grew by calls none of which goes to the sink. -/
def Quiet (s s' : State σ δ) : Prop :=
  ∃ es, s'.trace = es ++ s.trace ∧ ∀ e ∈ es, isSinkEvent e = false

/-- A state of the fragment transport in which every pending fragment holds data and
the working buffer has its size. -/
structure Good (s : State (List (List Nat)) δ) : Prop where
  frags : ∀ f ∈ s.sock, f ≠ []
  buf : s.buf.length = CHUNK_SIZE

/-- What a `recv` over the fragment transport does: it takes the next `k` bytes of the
stream, whatever the fragments, and stores them at `pos`. -/
structure RecvPost (s s' : State (List (List Nat)) δ) (pos k : Nat) : Prop where
  good : Good s'
  sock : s'.sock.flatten = s.sock.flatten.drop k
  buf : s'.buf = s.buf.take pos ++ s.sock.flatten.take k ++ s.buf.drop (pos + k)
  code : s'.code = s.code
  timeout : s'.timeout = s.timeout
  quiet : Quiet s s'

/-- What the request phase leaves as it was over the fragment transport: the pending
fragments, the two members, the size of the buffer, and the sink. -/
structure Frame (s s' : State (List (List Nat)) δ) : Prop where
  sock : s'.sock = s.sock
  code : s'.code = s.code
  timeout : s'.timeout = s.timeout
  buf : s.buf.length = CHUNK_SIZE → s'.buf.length = CHUNK_SIZE
  quiet : Quiet s s'

/-- A piece of `connect` that keeps the frame whenever it goes on. -/
structure Framed {α : Type} (m : M (List (List Nat)) δ α) : Prop where
  out : ∀ s a s', m s = .cont a s' → Frame s s'

/-- The working buffer starts with the bytes `W` followed by a terminator. -/
def Holds (s : State σ δ) (W : List Nat) : Prop := ∃ junk, s.buf = W ++ 0 :: junk

/-- The working buffer starts with the bytes `W`. -/
def Has (s : State σ δ) (W : List Nat) : Prop := ∃ junk, s.buf = W ++ junk

/-- Two states that differ in the working buffer only. -/
structure BufOnly (s s' : State σ δ) : Prop where
  sock : s'.sock = s.sock
  code : s'.code = s.code
  timeout : s'.timeout = s.timeout
  trace : s'.trace = s.trace
  len : s.buf.length = CHUNK_SIZE → s'.buf.length = CHUNK_SIZE

/-- What a top-up of the header loop does when the buffer holds `W`. -/
structure RefillPost (s s' : State (List (List Nat)) δ) (W : List Nat) : Prop where
  good : Good s'
  holds : Holds s' (W ++ s.sock.flatten.take (255 - W.length))
  sock : s'.sock.flatten = s.sock.flatten.drop (255 - W.length)
  code : s'.code = s.code
  timeout : s'.timeout = s.timeout
  quiet : Quiet s s'

/-- The trace grew by calls none of which is a `write` on the sink. -/
def Silent (s s' : State σ δ) : Prop :=
  ∃ es, s'.trace = es ++ s.trace ∧ ∀ e ∈ es, ∀ d, e ≠ Event.write d

/-- What a round of the header loop leaves when it drops a line and `W'` stays. -/
structure LinePost (s s' : State σ δ) (W' : List Nat) : Prop where
  len : s'.buf.length = CHUNK_SIZE
  holds : Holds s' W'
  sock : s'.sock = s.sock
  code : s'.code = s.code
  timeout : s'.timeout = s.timeout
  silent : Silent s s'

/-- The response engine at a point where the buffer holds `W` and `X` is all that is
still to be consumed: the buffered bytes and the bytes pending on the socket. -/
structure Window (s : State (List (List Nat)) δ) (W X : List Nat) : Prop where
  good : Good s
  holds : Holds s W
  stream : W ++ s.sock.flatten = X

end Vocabulary

/-- The body framing (`recvContentLength`, `recvChunked`) that a header with the given
key and value leaves, from the framing before it. -/
def framing (key value : List Nat) (cl : Nat) (ch : Bool) : Nat × Bool :=
  if key = keyContentLength then
    match scan_d value with
    | .value v _ => ((v % (SIZE_MOD : Int)).toNat, ch)
    | _ => (cl, ch)
  else if key = keyTransferEncoding then
    if value = valChunkedUpper ∨ value = valChunkedLower then (cl, true) else (cl, ch)
  else (cl, ch)

/-- The framing a header line leaves. -/
def lineFraming (line : List Nat) (f : Nat × Bool) : Nat × Bool :=
  match scanHeader line with
  | some (key, value) => framing key value f.1 f.2
  | none => f

/-- A header line the engine accepts: not empty, free of NUL and of CRLF, short enough
to sit in the buffer with its CRLF, matching the format of line 306, and with a
`Content-Length` value that fits an `int`. -/
structure Conforming (line : List Nat) : Prop where
  ne : line ≠ []
  no_nul : (0 : Nat) ∉ line
  no_crlf : ¬ CRLF <:+: line
  fits : line.length + 2 ≤ 255
  scans : ∃ key value, scanHeader line = some (key, value) ∧
    (key = keyContentLength → scan_d value ≠ .overflow)

/-- A header line that does not touch the body framing: its key is not
`Content-Length`, and when its key is `Transfer-Encoding` its value is neither
`Chunked` nor `chunked`. -/
def Neutral (line : List Nat) : Prop :=
  ∀ key value, scanHeader line = some (key, value) →
    key ≠ keyContentLength ∧
    (key = keyTransferEncoding → value ≠ valChunkedUpper ∧ value ≠ valChunkedLower)

/-- The status line `HTTP/<major>.<minor> <code><tail>`. -/
def statusText (major minor code tail : List Nat) : List Nat :=
  [72, 84, 84, 80, 47] ++ major ++ [46] ++ minor ++ [32] ++ code ++ tail

/-- The framing a header block leaves. -/
def blockFraming (lines : List (List Nat)) (f : Nat × Bool) : Nat × Bool :=
  lines.foldl (fun f line => lineFraming line f) f

/-- The header lines of a block, each with its CRLF. -/
def block (lines : List (List Nat)) : List Nat := (lines.map (· ++ CRLF)).flatten

/-- The data offered to the transport by the writes of a trace, oldest first. -/
def sentData : List Event → List (List Nat)
  | [] => []
  | .sockSend d _ :: t => sentData t ++ [d]
  | _ :: t => sentData t

/-- The bytes sent when the transport accepts every write in full. -/
def sentBytes (t : List Event) : List Nat := (sentData t).flatten

/-- The number of `read` calls made on the data source. -/
def srcReads : List Event → Nat
  | [] => 0
  | .srcRead _ :: t => srcReads t + 1
  | _ :: t => srcReads t

/-- The headers that describe the body of a POST, as the specification words them:
`Content-Length: <n>` with the declared length in decimal, or
`Transfer-Encoding: chunked` for a chunked source, then `Content-Type: <type>` when
the source supplies a type. -/
def bodyHeaderText {δ : Type} (D : DataOut δ) : List Nat :=
  (if D.isChunked then txtChunkedLine else txtContentLengthColon ++ printNat D.dataLen ++ CRLF)
    ++ (match D.dataType with
      | some type => txtContentTypeColon ++ type ++ CRLF
      | none => [])

/-- The headers of the request that describe the body: those of a POST with a data
source, none otherwise. -/
def postHeaderText {δ : Type} (method : HTTP_METH) (D : Option (DataOut δ)) : List Nat :=
  match method, D with
  | .HTTP_POST, some d => bodyHeaderText d
  | _, _ => []

/-- The request up to and including the blank line, as the specification words it:
`<METHOD> <path> HTTP/1.1`, `Host: <host>`, the body headers of a POST with a data
source, and the blank line. -/
def requestHead {δ : Type} (method : HTTP_METH) (path host : List Nat)
    (D : Option (DataOut δ)) : List Nat :=
  methText method ++ [32] ++ path ++ txtHttpHost ++ host ++ CRLF
    ++ (match method, D with
      | .HTTP_POST, some D => bodyHeaderText D
      | _, _ => [])
    ++ CRLF

/-- What remains of the request once its head is sent (lines 181-226): the loop that
sends the body, for a POST with a data source. -/
def sendBody {σ δ : Type} (T : Transport σ) (D : Option (DataOut δ)) (method : HTTP_METH)
    (fuel : Nat) : M σ δ Unit :=
  match method, D with
  | .HTTP_POST, some d => postLoop T d fuel
  | _, _ => pure ()

/-! ## Vocabulary of `send` and `recv` -/

/-- The total of the positive returns of a sequence of writes. -/
def posSum (rets : List Int) : Nat := (rets.map Int.toNat).sum

/-- The writes of one `send` of `data`, from `written` bytes on: each write offers the
unsent suffix to the transport, `rets` are the values the transport returns, in
order, and the socket goes from the first state to the last. -/
def SendRun {σ : Type} (T : Transport σ) (timeout : Nat) (data : List Nat) :
    Nat → σ → List Int → σ → Prop
  | _, s0, [], s1 => s1 = s0
  | written, s0, r :: rs, s1 =>
    (T.send s0 (data.drop written) timeout).1 = r ∧
    SendRun T timeout data (written + r.toNat) (T.send s0 (data.drop written) timeout).2 rs s1

/-- The calls of the writes of one `send`, oldest first: each offers the unsent
suffix. -/
def sendCalls (timeout : Nat) (data : List Nat) : Nat → List Int → List Event
  | _, [] => []
  | written, r :: rs =>
    .sockSend (data.drop written) timeout :: sendCalls timeout data (written + r.toNat) rs

/-- The bytes the transport has accepted over the writes of one `send`: of each
offer, as many bytes as the write returned. -/
def accepted (data : List Nat) : Nat → List Int → List Nat
  | _, [] => []
  | written, r :: rs =>
    (data.drop written).take r.toNat ++ accepted data (written + r.toNat) rs

/-- The bytes one `receive` stored. -/
def RecvRet.bytes : RecvRet → List Nat
  | .data bs => bs
  | .error => []

/-- The count `recv` asks of the transport when `readLen` bytes are read. -/
def recvAsk (minLen maxLen readLen : Nat) : Nat :=
  if readLen < minLen then minLen - readLen else maxLen - readLen

/-- The timeout `recv` hands to the transport when `readLen` bytes are read. -/
def recvWait (timeout minLen readLen : Nat) : Nat :=
  if readLen < minLen then timeout else 0

/-- The reads of one `recv`, from `readLen` bytes on: `rets` are what the transport
returns, in order, and the socket goes from the first state to the last. -/
def RecvRun {σ : Type} (T : Transport σ) (timeout minLen maxLen : Nat) :
    Nat → σ → List RecvRet → σ → Prop
  | _, s0, [], s1 => s1 = s0
  | readLen, s0, r :: rs, s1 =>
    (T.receive s0 (recvAsk minLen maxLen readLen) (recvWait timeout minLen readLen)).1 = r ∧
    RecvRun T timeout minLen maxLen (readLen + r.bytes.length)
      (T.receive s0 (recvAsk minLen maxLen readLen) (recvWait timeout minLen readLen)).2 rs s1

/-- The calls of the reads of one `recv`, oldest first. -/
def recvCalls (timeout minLen maxLen : Nat) : Nat → List RecvRet → List Event
  | _, [] => []
  | readLen, r :: rs =>
    .sockReceive (recvAsk minLen maxLen readLen) (recvWait timeout minLen readLen)
      :: recvCalls timeout minLen maxLen (readLen + r.bytes.length) rs

/-- The bytes received over the reads of one `recv`, in arrival order. -/
def received (rets : List RecvRet) : List Nat := (rets.map RecvRet.bytes).flatten

/-! ## Vocabulary of the request -/

/-- A transport that accepts every write in full. -/
def AcceptsAll {σ : Type} (T : Transport σ) : Prop :=
  ∀ s0 d t, (T.send s0 d t).1 = d.length

/-- A transport on which every `connect` succeeds. -/
def Connects {σ : Type} (T : Transport σ) : Prop :=
  ∀ s0 host port, 0 ≤ (T.connect s0 host port).1

/-- The data source, read with the capacity of the working buffer from the first
state on, hands out the given chunks one after the other and is then in the last
state. -/
def Produces {δ : Type} (D : DataOut δ) : δ → List (List Nat) → δ → Prop
  | d0, [], d1 => d1 = d0
  | d0, c :: cs, d1 =>
    (D.read d0 CHUNK_SIZE).1 = c ∧ Produces D (D.read d0 CHUNK_SIZE).2 cs d1

/-- The body of a chunked POST, as the specification words it: each chunk preceded by
its length in hexadecimal and CRLF and followed by CRLF, then `0` CRLF CRLF. -/
def chunkedBody (chunks : List (List Nat)) : List Nat :=
  (chunks.map (fun d => printHex d.length ++ CRLF ++ d ++ CRLF)).flatten
    ++ [48, 13, 10, 13, 10]

/-! ## Vocabulary of the sink calls -/

/-- The strings handed to `setDataType` of the sink, oldest first, from a trace (most
recent first). -/
def sinkTypes : List Event → List (List Nat)
  | [] => []
  | .setDataType v :: t => sinkTypes t ++ [v]
  | _ :: t => sinkTypes t

/-- The string a header line hands to `setDataType`, if it is a `Content-Type` line that
matches the format. -/
def lineTypes (line : List Nat) : List (List Nat) :=
  match scanHeader line with
  | some (key, value) => if key = keyContentType then [value] else []
  | none => []

/-- The strings the lines of a header block hand to `setDataType`, in order. -/
def blockTypes (lines : List (List Nat)) : List (List Nat) :=
  (lines.map lineTypes).flatten

/-- Calls that the body phase makes: reads of the socket, its close, and writes to
the sink. -/
def isBodyEvent : Event → Bool
  | .sockReceive _ _ => true
  | .sockClose => true
  | .write _ => true
  | _ => false

/-- The trace grew by calls of the body phase only. -/
def BodyGrew {σ δ : Type} (s s' : State σ δ) : Prop :=
  ∃ es, s'.trace = es ++ s.trace ∧ ∀ e ∈ es, isBodyEvent e = true

/-- A piece of `connect` that makes calls of the body phase only. -/
structure BodyOnly {σ δ α : Type} (m : M σ δ α) : Prop where
  out : ∀ s, match m s with
    | .cont _ s' => BodyGrew s s'
    | .ret _ s' => BodyGrew s s'
    | _ => True

/-- Lines 340-445: the body loop, the final `close` and the return of `OK`. -/
def bodyPhase {σ δ : Type} (T : Transport σ) (recvChunked : Bool)
    (recvContentLength fuel trfLen : Nat) : M σ δ Unit := do
  bodyLoop T recvChunked recvContentLength fuel fuel trfLen
  sockClose T
  retM .OK

/-- The start of `connect`, lines 97-338 with the header loop cut after `n` rounds:
the request, the first read and the status line, and the first `n` rounds of the
header loop. -/
def connectRounds {σ δ : Type} (T : Transport σ) (D : Option (DataOut δ)) (fuel : Nat)
    (url : List Nat) (method : HTTP_METH) (timeout n : Nat) : M σ δ Round := do
  connectRequest T D fuel url method timeout
  let trfLen ← statusLine T
  headerRounds T n trfLen 0 false

/-- What `connect` does from the end of a round of the header loop on: the rest of
the header loop, with `k` rounds of budget, and the body phase. -/
def afterRounds {σ δ : Type} (T : Transport σ) (fuel k : Nat) (r : Round) : M σ δ Unit := do
  let (trfLen, recvContentLength, recvChunked) ← headerRest T k r
  bodyPhase T recvChunked recvContentLength fuel trfLen

/-! ## Example inputs -/

/-- The URL `h://h/`. -/
def exURL : List Nat := [104, 58, 47, 47, 104, 47]

/-- A client that left the status code 7 behind, on a socket whose peer answers with
the given fragments; there is no data source. -/
def exState (frags : List (List Nat)) : State (List (List Nat)) Unit :=
  { sock := frags, src := (), buf := [], code := 7, timeout := 0, trace := [] }

/-- The response `HTTP/1.1 404 Not Found` with an empty header block, in two
fragments. -/
def exNotFound : List (List Nat) :=
  [[72, 84, 84, 80, 47, 49, 46, 49, 32, 52], [48, 52, 32, 78, 111, 116, 32, 70, 111, 117, 110,
    100, 13, 10, 13, 10]]

/-- The response `HTP/1.1 200 OK` with an empty header block. -/
def exBadStart : List (List Nat) :=
  [[72, 84, 80, 47, 49, 46, 49, 32, 50, 48, 48, 32, 79, 75, 13, 10, 13, 10]]

/-- The response of the specification, `HTTP/1.1 200 OK`, `Content-Length: 5` and the
body `hello`, in the two fragments `HTTP/1.1 200 OK\r\nConte` and
`nt-Length: 5\r\n\r\nhello`. -/
def exHello : List (List Nat) :=
  [[
    72, 84, 84, 80, 47, 49, 46, 49, 32, 50, 48, 48, 32, 79, 75, 13, 10, 67, 111, 110, 116, 101],
   [
    110, 116, 45, 76, 101, 110, 103, 116, 104, 58, 32, 53, 13, 10, 13, 10, 104, 101, 108, 108,
    111]]

/-- A 200 response with the headers `Content-Length: 5` and
`Access-Control-Allow-Credentials: true` (a key of 32 characters) and the body
`hello`. -/
def exLongKey : List (List Nat) :=
  [[
    72, 84, 84, 80, 47, 49, 46, 49, 32, 50, 48, 48, 32, 79, 75, 13, 10, 67, 111, 110, 116,
    101, 110, 116, 45, 76, 101, 110, 103, 116, 104, 58, 32, 53, 13, 10, 65, 99, 99, 101, 115,
    115, 45, 67, 111, 110, 116, 114, 111, 108, 45, 65, 108, 108, 111, 119, 45, 67, 114, 101,
    100, 101, 110, 116, 105, 97, 108, 115, 58, 32, 116, 114, 117, 101, 13, 10, 13, 10, 104,
    101, 108, 108, 111]]

/-- A response that ends after its header line: `HTTP/1.1 200 OK`, `Content-Length: 5`,
and then the end of the stream, with no blank line. -/
def exNoBlankLine : List (List Nat) :=
  [[
    72, 84, 84, 80, 47, 49, 46, 49, 32, 50, 48, 48, 32, 79, 75, 13, 10, 67, 111, 110, 116,
    101, 110, 116, 45, 76, 101, 110, 103, 116, 104, 58, 32, 53, 13, 10]]

/-- A response that ends inside its body: `HTTP/1.1 200 OK`, `Content-Length: 5`, the
blank line, the three bytes `hel`, and then the end of the stream. -/
def exShortBody : List (List Nat) :=
  [[
    72, 84, 84, 80, 47, 49, 46, 49, 32, 50, 48, 48, 32, 79, 75, 13, 10, 67, 111, 110, 116,
    101, 110, 116, 45, 76, 101, 110, 103, 116, 104, 58, 32, 53, 13, 10, 13, 10, 104, 101, 108]]

/-- A chunked 200 response in one fragment: `HTTP/1.1 200 OK`,
`Transfer-Encoding: chunked`, the blank line, one chunk `CC` of 204 bytes `x`, and the
terminating chunk `0`. Status line, headers and the chunk header take 51 bytes, so
that the data of the chunk ends where the first read of 255 bytes ends. -/
def exChunk204 : List (List Nat) :=
  [[72, 84, 84, 80, 47, 49, 46, 49, 32, 50, 48, 48, 32, 79, 75, 13, 10, 84, 114, 97, 110, 115,
    102, 101, 114, 45, 69, 110, 99, 111, 100, 105, 110, 103, 58, 32, 99, 104, 117, 110, 107,
    101, 100, 13, 10, 13, 10, 67, 67, 13, 10] ++ List.replicate 204 120
    ++ [13, 10, 48, 13, 10, 13, 10]]

/-- A chunked 200 response in two fragments: `HTTP/1.1 200 OK`,
`Transfer-Encoding: chunked`, the blank line, one chunk `CA` of 202 bytes `x` with its
CRLF, which together take 255 bytes, and then the terminating chunk `0`. -/
def exChunk202 : List (List Nat) :=
  [[72, 84, 84, 80, 47, 49, 46, 49, 32, 50, 48, 48, 32, 79, 75, 13, 10, 84, 114, 97, 110, 115,
    102, 101, 114, 45, 69, 110, 99, 111, 100, 105, 110, 103, 58, 32, 99, 104, 117, 110, 107,
    101, 100, 13, 10, 13, 10, 67, 65, 13, 10] ++ List.replicate 202 120 ++ [13, 10],
   [48, 13, 10, 13, 10]]

/-- A chunked 200 response whose chunk-size line never ends: `HTTP/1.1 200 OK`,
`Transfer-Encoding: chunked`, the blank line, and 300 times the digit `1`. -/
def exLongChunkLine : List (List Nat) :=
  [[72, 84, 84, 80, 47, 49, 46, 49, 32, 50, 48, 48, 32, 79, 75, 13, 10, 84, 114, 97, 110, 115,
    102, 101, 114, 45, 69, 110, 99, 111, 100, 105, 110, 103, 58, 32, 99, 104, 117, 110, 107,
    101, 100, 13, 10, 13, 10] ++ List.replicate 300 49]

/-- A data source that hands out the given chunks, one per `read` (or the part of it
that fits), and zero bytes once they are used up; its state is the chunks still to
come. -/
def listSource (chunked : Bool) (len : Nat) (type : Option (List Nat)) :
    DataOut (List (List Nat)) where
  isChunked := chunked
  dataLen := len
  dataType := type
  read := fun st n =>
    match st with
    | [] => ([], [])
    | c :: cs => if c.length ≤ n then (c, cs) else (c.take n, c.drop n :: cs)

/-- A client on a socket whose peer answers with the given fragments, with a data
source that still has the given chunks to hand out. -/
def exPostState (frags chunks : List (List Nat)) :
    State (List (List Nat)) (List (List Nat)) :=
  { sock := frags, src := chunks, buf := [], code := 0, timeout := 0, trace := [] }

/-- A client whose buffer has its size, with the timeout 5, on a socket that still has
the fragments `[1, 2]` and `[3]` to deliver. -/
def exRecvState : State (List (List Nat)) Unit :=
  { sock := [[1, 2], [3]], src := (), buf := List.replicate CHUNK_SIZE 0, code := 0,
    timeout := 5, trace := [] }

/-- A 200 response with the headers `Content-Type: application/x-www-form-urlencoded`
(a value of 33 bytes) and `Content-Length: 5`, and the body `hello`. -/
def exFormType : List (List Nat) :=
  [[
    72, 84, 84, 80, 47, 49, 46, 49, 32, 50, 48, 48, 32, 79, 75, 13, 10, 67, 111, 110, 116,
    101, 110, 116, 45, 84, 121, 112, 101, 58, 32, 97, 112, 112, 108, 105, 99, 97, 116, 105,
    111, 110, 47, 120, 45, 119, 119, 119, 45, 102, 111, 114, 109, 45, 117, 114, 108, 101, 110,
    99, 111, 100, 101, 100, 13, 10, 67, 111, 110, 116, 101, 110, 116, 45, 76, 101, 110, 103,
    116, 104, 58, 32, 53, 13, 10, 13, 10, 104, 101, 108, 108, 111]]

/-- A 200 response with the headers `Content-Type: text/plain` and `Content-Length: 5`,
and the body `hello`, in the two fragments `HTTP/1.1 200 OK\r\nContent-Ty` and the rest. -/
def exPlainType : List (List Nat) :=
  [[
    72, 84, 84, 80, 47, 49, 46, 49, 32, 50, 48, 48, 32, 79, 75, 13, 10, 67, 111, 110, 116,
    101, 110, 116, 45, 84, 121],
   [
    112, 101, 58, 32, 116, 101, 120, 116, 47, 112, 108, 97, 105, 110, 13, 10, 67, 111, 110,
    116, 101, 110, 116, 45, 76, 101, 110, 103, 116, 104, 58, 32, 53, 13, 10, 13, 10, 104, 101,
    108, 108, 111]]
/-! ## Unfolding the sequencing of `M` -/

theorem bind_apply {σ δ α β : Type} (m : M σ δ α) (f : α → M σ δ β) (s : State σ δ) :
    (m >>= f) s = match m s with
      | .cont a s1 => f a s1
      | .ret e s1 => .ret e s1
      | .undefined => .undefined
      | .outOfFuel => .outOfFuel := rfl

theorem pure_apply {σ δ α : Type} (a : α) (s : State σ δ) :
    (pure a : M σ δ α) s = .cont a s := rfl

/-! ## Facts about the string primitives -/

theorem startsWith_iff (s p : List Nat) : startsWith s p = true ↔ p <+: s := by
  induction p generalizing s with
  | nil => simp [startsWith]
  | cons a p ih =>
    cases s with
    | nil => simp [startsWith]
    | cons c s =>
      simp only [startsWith, Bool.and_eq_true, decide_eq_true_eq, ih, List.cons_prefix_cons]
      constructor
      · rintro ⟨h, h2⟩; exact ⟨h.symm, h2⟩
      · rintro ⟨h, h2⟩; exact ⟨h.symm, h2⟩

theorem strstr_eq_none_iff (s p : List Nat) : strstr s p = none ↔ ¬ p <:+: s := by
  induction s with
  | nil =>
    simp only [strstr]
    split <;> rename_i h
    · rw [startsWith_iff] at h
      simp [List.prefix_nil.mp h]
    · simp only [true_iff]
      intro hi
      apply h
      rw [startsWith_iff]
      rw [List.infix_nil] at hi
      simp [hi]
  | cons c s ih =>
    simp only [strstr]
    split <;> rename_i h
    · rw [startsWith_iff] at h
      simp [h.isInfix]
    · rw [startsWith_iff] at h
      simp only [Option.map_eq_none', ih, List.infix_cons_iff, not_or]
      exact ⟨fun h2 => ⟨h, h2⟩, fun h2 => h2.2⟩

theorem strstr_append_of_not_earlier (a p b : List Nat)
    (h : ∀ j, j < a.length → ¬ p <+: (a ++ p ++ b).drop j) :
    strstr (a ++ p ++ b) p = some a.length := by
  induction a with
  | nil =>
    have : startsWith (p ++ b) p = true := by rw [startsWith_iff]; exact List.prefix_append _ _
    cases hp : p ++ b with
    | nil => simp [strstr, hp] at this ⊢; simpa [hp] using this
    | cons c t => simp [strstr, hp] at this ⊢; simpa [hp] using this
  | cons c a ih =>
    have h0 := h 0 (by simp)
    simp only [List.drop_zero] at h0
    rw [← startsWith_iff] at h0
    simp only [List.cons_append] at h0 ⊢
    simp only [strstr, h0]
    have := ih (fun j hj => by
      have := h (j + 1) (by simp; omega)
      simpa using this)
    simp only [List.append_assoc] at this
    simp [this]

theorem strchr_eq_none_iff (s : List Nat) (c : Nat) : strchr s c = none ↔ c ∉ s := by
  induction s with
  | nil => simp [strchr]
  | cons a s ih =>
    simp only [strchr]
    split <;> rename_i h
    · simp [h]
    · simp only [Option.map_eq_none', ih, List.mem_cons, not_or]
      exact ⟨fun h2 => ⟨fun h3 => h h3.symm, h2⟩, fun h2 => h2.2⟩

theorem strchr_append_of_not_mem (a b : List Nat) (c : Nat) (h : c ∉ a) :
    strchr (a ++ c :: b) c = some a.length := by
  induction a with
  | nil => simp [strchr]
  | cons x a ih =>
    simp only [List.mem_cons, not_or] at h
    have hx : ¬ x = c := fun e => h.1 e.symm
    simp [strchr, hx, ih h.2]

theorem strchr_append_left_none (a b : List Nat) (c : Nat) (h : c ∉ a) :
    strchr (a ++ b) c = (strchr b c).map (· + a.length) := by
  induction a with
  | nil => simp
  | cons x a ih =>
    simp only [List.mem_cons, not_or] at h
    have hx : ¬ x = c := fun e => h.1 e.symm
    have e := ih h.2
    rw [List.cons_append]
    simp only [strchr, hx, if_false, e, List.length_cons]
    cases strchr b c <;> simp [Nat.add_assoc]
theorem takeWhile_append_stop (p : Nat → Bool) (a b : List Nat) (ha : ∀ c ∈ a, p c = true)
    (hb : ∀ c, b.head? = some c → p c = false) : (a ++ b).takeWhile p = a := by
  induction a with
  | nil =>
    cases b with
    | nil => rfl
    | cons c b => simp [List.takeWhile, hb c rfl]
  | cons x a ih =>
    rw [List.cons_append, List.takeWhile_cons, if_pos (ha x (List.mem_cons_self _ _)),
      ih (fun c hc => ha c (List.mem_cons_of_mem _ hc))]

theorem dropWhile_append_stop (p : Nat → Bool) (a b : List Nat) (ha : ∀ c ∈ a, p c = true)
    (hb : ∀ c, b.head? = some c → p c = false) : (a ++ b).dropWhile p = b := by
  induction a with
  | nil =>
    cases b with
    | nil => rfl
    | cons c b => simp [List.dropWhile, hb c rfl]
  | cons x a ih =>
    rw [List.cons_append, List.dropWhile_cons, if_pos (ha x (List.mem_cons_self _ _)),
      ih (fun c hc => ha c (List.mem_cons_of_mem _ hc))]

theorem isdigit_not_space {c : Nat} (h : isdigit c = true) : isspace c = false := by
  simp only [isdigit, isspace, Bool.and_eq_true, decide_eq_true_eq, Bool.or_eq_false_iff,
    decide_eq_false_iff_not, Bool.and_eq_false_iff] at *
  omega

theorem scanSign_digit {c : Nat} (t : List Nat) (h : isdigit c = true) :
    scanSign (c :: t) = (false, c :: t) := by
  simp only [isdigit, Bool.and_eq_true, decide_eq_true_eq] at h
  have h1 : ¬ c = 45 := by omega
  have h2 : ¬ c = 43 := by omega
  simp [scanSign, h1, h2]

/-- A non-empty digit string followed by something that is not a digit converts to its value. -/
theorem scanDecimal_digits (lo hi : Int) (ds rest : List Nat) (hne : ds ≠ [])
    (hd : ∀ c ∈ ds, isdigit c = true) (hr : ∀ c, rest.head? = some c → isdigit c = false)
    (hlo : lo ≤ (decVal ds : Int)) (hhi : (decVal ds : Int) ≤ hi) :
    scanDecimal lo hi (ds ++ rest) = .value (decVal ds) rest := by
  obtain ⟨d, ds', rfl⟩ := List.exists_cons_of_ne_nil hne
  have hd0 : isdigit d = true := hd d (List.mem_cons_self _ _)
  have hsp : ((d :: ds') ++ rest).dropWhile isspace = (d :: ds') ++ rest := by
    simp [List.dropWhile, isdigit_not_space hd0]
  have hsg : scanSign ((d :: ds') ++ rest) = (false, (d :: ds') ++ rest) := scanSign_digit _ hd0
  have htw := takeWhile_append_stop isdigit (d :: ds') rest hd hr
  have hdw := dropWhile_append_stop isdigit (d :: ds') rest hd hr
  simp only [scanDecimal, hsp, hsg, htw, hdw]
  simp [hlo, hhi]

theorem skip_d_digits (ds rest : List Nat) (hne : ds ≠ [])
    (hd : ∀ c ∈ ds, isdigit c = true) (hr : ∀ c, rest.head? = some c → isdigit c = false) :
    skip_d (ds ++ rest) = some rest := by
  obtain ⟨d, ds', rfl⟩ := List.exists_cons_of_ne_nil hne
  have hd0 : isdigit d = true := hd d (List.mem_cons_self _ _)
  have hsp : ((d :: ds') ++ rest).dropWhile isspace = (d :: ds') ++ rest := by
    simp [List.dropWhile, isdigit_not_space hd0]
  have hsg : scanSign ((d :: ds') ++ rest) = (false, (d :: ds') ++ rest) := scanSign_digit _ hd0
  have htw := takeWhile_append_stop isdigit (d :: ds') rest hd hr
  have hdw := dropWhile_append_stop isdigit (d :: ds') rest hd hr
  simp only [skip_d, hsp, hsg, htw, hdw]
  simp
/-! ## `parseURL` on well-formed URLs -/

theorem sep_not_earlier (s b : List Nat) (h : ¬ [58, 47, 47] <:+: s) (j : Nat)
    (hj : j < s.length) : ¬ [58, 47, 47] <+: (s ++ [58, 47, 47] ++ b).drop j := by
  have e : (s ++ [58, 47, 47] ++ b).drop j = s.drop j ++ ([58, 47, 47] ++ b) := by
    rw [List.append_assoc, List.drop_append_of_le_length (le_of_lt hj)]
  rw [e]
  have hsuf : s.drop j <:+ s := List.drop_suffix _ _
  have hlen : 0 < (s.drop j).length := by simp; omega
  intro hp
  match hd : s.drop j, hlen, hp with
  | [c], _, hp =>
    simp [List.cons_prefix_cons] at hp
  | [c, d], _, hp =>
    simp [List.cons_prefix_cons] at hp
  | c :: d :: e :: t, _, hp =>
    simp only [List.cons_append, List.cons_prefix_cons] at hp
    obtain ⟨rfl, rfl, rfl, -⟩ := hp
    apply h
    rw [hd] at hsuf
    exact (List.prefix_append [58, 47, 47] t).isInfix.trans hsuf.isInfix

theorem strstr_mkURL (s h : List Nat) (pd : Option (List Nat)) (q : List Nat)
    (f : Option (List Nat)) (hs : ¬ [58, 47, 47] <:+: s) :
    strstr (mkURL s h pd q f) [58, 47, 47] = some s.length := by
  unfold mkURL
  exact strstr_append_of_not_earlier s _ _ (fun j hj => sep_not_earlier s _ hs j hj)

theorem not_mem_portText (c : Nat) (pd : Option (List Nat)) (hc : c ≠ 58)
    (hcd : isdigit c = false) (hd : ∀ d, pd = some d → ∀ x ∈ d, isdigit x = true) :
    c ∉ portText pd := by
  cases pd with
  | none => simp [portText]
  | some d =>
    simp only [portText, List.mem_cons, not_or]
    refine ⟨hc, fun hm => ?_⟩
    have := hd d rfl c hm
    rw [hcd] at this
    exact Bool.noConfusion this

theorem parseURL_mkURL (s h : List Nat) (pd : Option (List Nat)) (q : List Nat)
    (f : Option (List Nat)) (ms mh mp : Nat) (wf : WellFormed s h pd q)
    (hq : pd = none → 58 ∉ q) (hf : pd = none → ∀ x, f = some x → 58 ∉ x) :
    parseURL (mkURL s h pd q f) ms mh mp =
      if ms < s.length + 1 then .err .NET_TOOSMALL
      else if mh < h.length + 1 then .err .NET_TOOSMALL
      else if mp < q.length + 1 then .err .NET_TOOSMALL
      else .ok { scheme := s, host := h, port := portValue pd, path := q } := by
  obtain ⟨q', rfl⟩ : ∃ q', q = 47 :: q' := by
    have := wf.path_slash
    cases q with
    | nil => simp at this
    | cons c q' => simp at this; exact ⟨q', by rw [this]⟩
  have h1 := strstr_mkURL s h pd (47 :: q') f wf.scheme_sep
  have htake : (mkURL s h pd (47 :: q') f).take s.length = s := by
    simp [mkURL, List.take_append_of_le_length]
  have hdrop : (mkURL s h pd (47 :: q') f).drop (s.length + 3)
      = h ++ (portText pd ++ (47 :: q' ++ fragText f)) := by
    have : s.length + 3 = (s ++ [58, 47, 47]).length := by simp
    rw [mkURL, this, List.drop_left]
  -- the slash that starts the path
  have hslash : strchr (h ++ (portText pd ++ (47 :: q' ++ fragText f))) 47
      = some (h.length + (portText pd).length) := by
    have hn : 47 ∉ h ++ portText pd := by
      simp only [List.mem_append, not_or]
      exact ⟨wf.host_slash, not_mem_portText 47 pd (by decide) (by decide) wf.port_digits⟩
    have := strchr_append_of_not_mem (h ++ portText pd) (q' ++ fragText f) 47 hn
    simpa [List.append_assoc] using this
  -- the fragment marker
  have hhash : strchr (h ++ (portText pd ++ (47 :: q' ++ fragText f))) 35
      = f.map (fun _ => h.length + (portText pd).length + (47 :: q').length) := by
    have hn : 35 ∉ h ++ (portText pd ++ 47 :: q') := by
      simp only [List.mem_append, not_or]
      exact ⟨wf.host_hash, not_mem_portText 35 pd (by decide) (by decide) wf.port_digits,
        wf.path_hash⟩
    cases f with
    | none =>
      simp only [fragText, List.append_nil, Option.map_none']
      rw [strchr_eq_none_iff]
      simpa [List.append_assoc] using hn
    | some x =>
      have := strchr_append_of_not_mem (h ++ (portText pd ++ 47 :: q')) x 35 hn
      simp only [fragText, Option.map_some']
      simp only [List.append_assoc, List.length_append, List.cons_append] at this ⊢
      rw [this]
      simp [Nat.add_assoc]
  have hlen : (h ++ (portText pd ++ (47 :: q' ++ fragText f))).length
      = h.length + (portText pd).length + (47 :: q').length + (fragText f).length := by
    simp only [List.length_append]; omega
  have hsz := wf.path_size
  have hdt : (h ++ (portText pd ++ (47 :: q' ++ fragText f))).drop
      (h.length + (portText pd).length) = 47 :: q' ++ fragText f := by
    have : h.length + (portText pd).length = (h ++ portText pd).length := by simp
    rw [this, ← List.append_assoc, List.drop_left]
  have hht : (h ++ (portText pd ++ (47 :: q' ++ fragText f))).take h.length = h := by
    simp [List.take_append_of_le_length]
  have hpath : (47 :: q' ++ fragText f).take (47 :: q').length = 47 :: q' := by
    rw [List.take_left]
  have hpl : (match f.map (fun _ => h.length + (portText pd).length + (47 :: q').length) with
      | some fragOff => (fragOff + SIZE_MOD - (h.length + (portText pd).length)) % SIZE_MOD
      | none => (h.length + (portText pd).length + (47 :: q').length + (fragText f).length)
          - (h.length + (portText pd).length)) = (47 :: q').length := by
    cases f with
    | none => simp [fragText]
    | some x =>
      simp only [Option.map_some']
      have : h.length + (portText pd).length + (47 :: q').length + SIZE_MOD
          - (h.length + (portText pd).length) = (47 :: q').length + SIZE_MOD := by omega
      rw [this, Nat.add_mod_right, Nat.mod_eq_of_lt (by omega)]
  have hpl1 : ((47 :: q').length + 1) % SIZE_MOD = (47 :: q').length + 1 :=
    Nat.mod_eq_of_lt hsz
  have hne : h.length ≠ 0 := by
    have := wf.host_ne
    cases h with
    | nil => exact absurd rfl this
    | cons _ _ => simp
  unfold parseURL
  simp only [h1, htake, hdrop, hslash, hhash, hlen, hpl, hpl1, hdt, hht, hpath]
  cases pd with
  | some d =>
    have hcolon : strchr (h ++ (portText (some d) ++ (47 :: q' ++ fragText f))) 58
        = some h.length := by
      simp only [portText, List.cons_append]
      exact strchr_append_of_not_mem h _ 58 wf.host_colon
    have hport : scan_hu ((h ++ (portText (some d) ++ (47 :: q' ++ fragText f))).drop
        (h.length + 1)) = .value (decVal d) (47 :: q' ++ fragText f) := by
      have e : (h ++ (portText (some d) ++ (47 :: q' ++ fragText f))).drop (h.length + 1)
          = d ++ (47 :: q' ++ fragText f) := by
        have : h.length + 1 = (h ++ [58]).length := by simp
        rw [this]
        simp only [portText]
        have : h ++ (58 :: d ++ (47 :: q' ++ fragText f))
            = (h ++ [58]) ++ (d ++ (47 :: q' ++ fragText f)) := by simp
        rw [this, List.drop_left]
      rw [e]
      have hr := wf.port_range d rfl
      exact scanDecimal_digits 0 65535 d _ (wf.port_ne d rfl) (wf.port_digits d rfl)
        (by intro c hc; simp at hc; subst hc; decide) (by omega) (by omega)
    simp only [hcolon, hport]
    simp only [bind, Outcome.bind, hne, if_false, pure, portValue, Int.toNat_ofNat]
    split_ifs <;> first | rfl | (exfalso; omega) | simp only [List.take_left]
  | none =>
    have hcolon : strchr (h ++ (portText none ++ (47 :: q' ++ fragText f))) 58 = none := by
      rw [strchr_eq_none_iff]
      simp only [portText, List.nil_append, List.mem_append, not_or]
      refine ⟨wf.host_colon, hq rfl, ?_⟩
      cases f with
      | none => simp [fragText]
      | some x =>
        simp only [fragText, List.mem_cons, not_or]
        exact ⟨by decide, hf rfl x rfl⟩
    simp only [hcolon]
    simp only [bind, Outcome.bind, if_true, pure, portValue, portText, List.length_nil,
      Nat.add_zero]
    split_ifs <;> first | rfl | (exfalso; omega) | simp only [List.take_left]
theorem parseURL_no_sep (url : List Nat) (ms mh mp : Nat) (h : ¬ [58, 47, 47] <:+: url) :
    parseURL url ms mh mp = .err .NET_INVALID := by
  have h1 : strstr url [58, 47, 47] = none := (strstr_eq_none_iff _ _).mpr h
  unfold parseURL
  simp only [h1]


theorem connect_no_sep {σ δ : Type} (T : Transport σ) (D : Option (DataOut δ)) (fuel : Nat)
    (url : List Nat) (method : HTTP_METH) (timeout : Nat) (s : State σ δ)
    (h : ¬ [58, 47, 47] <:+: url) :
    connect T D fuel url method timeout s
      = .ret .NET_INVALID { s with code := 0, timeout := timeout } := by
  show (connectRequest T D fuel url method timeout >>= fun _ => receiveResponse T fuel) s = _
  rw [bind_apply]
  unfold connectRequest
  simp only [parseURL_no_sep url 8 32 64 h]

/-! ## The socket is closed exactly once, at the end -/

section Closing

variable {σ δ : Type}

theorem Ext.ext_refl (s : State σ δ) : Ext s s := ⟨[], by simp, by simp⟩

theorem Ext.ext_trans {s1 s2 s3 : State σ δ} (h1 : Ext s1 s2) (h2 : Ext s2 s3) : Ext s1 s3 := by
  obtain ⟨e1, h1, n1⟩ := h1
  obtain ⟨e2, h2, n2⟩ := h2
  exact ⟨e2 ++ e1, by rw [h2, h1, List.append_assoc], by simp [n1, n2]⟩

theorem Ext.closed {s1 s2 s3 : State σ δ} (h1 : Ext s1 s2) (h2 : ClosedLast s2 s3) :
    ClosedLast s1 s3 := by
  obtain ⟨e1, h1, n1⟩ := h1
  obtain ⟨e2, h2, n2⟩ := h2
  exact ⟨e2 ++ e1, by rw [h2, h1, List.append_assoc], by simp [n1, n2]⟩

theorem safe_bind {α β : Type} {m : M σ δ α} {f : α → M σ δ β} (hm : Safe m)
    (hf : ∀ a, Safe (f a)) : Safe (m >>= f) := by
  constructor
  intro s
  have h1 := hm.out s
  show match M.bind m f s with
    | .cont _ s' => Ext s s'
    | .ret e s' => ClosedLast s s' ∧ (e = .OK ∨ e = .NET_CONN ∨ e = .NET_PROTOCOL)
    | _ => True
  unfold M.bind
  cases hms : m s with
  | cont a s1 =>
    rw [hms] at h1
    have h2 := (hf a).out s1
    simp only
    cases hfs : f a s1 with
    | cont b s2 => rw [hfs] at h2; exact h1.ext_trans h2
    | ret e s2 => rw [hfs] at h2; exact ⟨h1.closed h2.1, h2.2⟩
    | undefined => trivial
    | outOfFuel => trivial
  | ret e s1 => rw [hms] at h1; exact h1
  | undefined => trivial
  | outOfFuel => trivial

theorem safe_pure {α : Type} (a : α) : Safe (pure a : M σ δ α) := ⟨fun s => Ext.ext_refl s⟩

theorem safe_undefined {α : Type} : Safe (undefinedM : M σ δ α) := ⟨fun _ => trivial⟩

theorem safe_outOfFuel {α : Type} : Safe (outOfFuelM : M σ δ α) := ⟨fun _ => trivial⟩

theorem safe_getBuf : Safe (getBuf : M σ δ (List Nat)) := ⟨fun s => Ext.ext_refl s⟩

theorem safe_getTimeout : Safe (getTimeout : M σ δ Nat) := ⟨fun s => Ext.ext_refl s⟩

theorem safe_emit (e : Event) (h : e ≠ .sockClose) : Safe (emit e : M σ δ Unit) :=
  ⟨fun _ => ⟨[e], rfl, by simpa using h.symm⟩⟩

theorem safe_storeBuf (off : Nat) (bs : List Nat) : Safe (storeBuf off bs : M σ δ Unit) := by
  constructor
  intro s
  unfold storeBuf
  by_cases h : off + bs.length ≤ CHUNK_SIZE
  · rw [if_pos h]; exact ⟨[], rfl, by simp⟩
  · rw [if_neg h]; trivial

theorem safe_memmove (dst src n : Nat) : Safe (memmove dst src n : M σ δ Unit) := by
  constructor
  intro s
  unfold memmove
  by_cases h : src + n ≤ CHUNK_SIZE ∧ dst + n ≤ CHUNK_SIZE
  · rw [if_pos h]; exact ⟨[], rfl, by simp⟩
  · rw [if_neg h]; trivial

theorem safe_readBuf (n : Nat) : Safe (readBuf n : M σ δ (List Nat)) := by
  constructor
  intro s
  unfold readBuf
  by_cases h : n ≤ CHUNK_SIZE
  · rw [if_pos h]; exact Ext.ext_refl s
  · rw [if_neg h]; trivial

theorem safe_sockConnect (T : Transport σ) (host : List Nat) (port : Nat) :
    Safe (sockConnect T host port : M σ δ Int) :=
  ⟨fun _ => ⟨[.sockConnect host port], rfl, by simp⟩⟩

theorem safe_sockSend (T : Transport σ) (data : List Nat) (timeout : Nat) :
    Safe (sockSend T data timeout : M σ δ Int) :=
  ⟨fun _ => ⟨[.sockSend data timeout], rfl, by simp⟩⟩

theorem safe_sockReceive (T : Transport σ) (len timeout : Nat) :
    Safe (sockReceive T len timeout : M σ δ RecvRet) :=
  ⟨fun _ => ⟨[.sockReceive len timeout], rfl, by simp⟩⟩

theorem safe_srcRead (D : DataOut δ) (len : Nat) : Safe (srcRead D len : M σ δ Nat) := by
  constructor
  intro s
  unfold srcRead
  by_cases h : (D.read s.src len).1.length ≤ CHUNK_SIZE
  · simp only [h, if_true]; exact ⟨[.srcRead len], rfl, by simp⟩
  · simp only [h, if_false]

/-- Closing the socket and returning at once is safe. -/
theorem safe_close_ret {α : Type} (T : Transport σ) (e : NetErr)
    (he : e = .OK ∨ e = .NET_CONN ∨ e = .NET_PROTOCOL) :
    Safe (do sockClose T; retM e : M σ δ α) :=
  ⟨fun _ => ⟨⟨[], rfl, by simp⟩, he⟩⟩

theorem safe_PRTCL_ERR {α : Type} (T : Transport σ) : Safe (PRTCL_ERR T : M σ δ α) :=
  safe_close_ret T _ (Or.inr (Or.inr rfl))

theorem safe_CHECK_CONN_ERR (T : Transport σ) (ret : NetErr) :
    Safe (CHECK_CONN_ERR T ret : M σ δ Unit) := by
  unfold CHECK_CONN_ERR
  split
  · exact safe_close_ret T _ (Or.inr (Or.inl rfl))
  · exact safe_pure ()

theorem safe_ite {α : Type} (c : Prop) [Decidable c] {a b : M σ δ α} (ha : Safe a)
    (hb : Safe b) : Safe (if c then a else b) := by
  split
  · exact ha
  · exact hb

theorem safe_recvLoop (T : Transport σ) (off minLen maxLen fuel readLen : Nat) :
    Safe (recvLoop T off minLen maxLen fuel readLen : M σ δ (NetErr × Nat)) := by
  induction fuel generalizing readLen with
  | zero => exact safe_pure _
  | succ fuel ih =>
    unfold recvLoop
    apply safe_ite
    · apply safe_bind safe_getTimeout
      intro tmo
      apply safe_bind (safe_sockReceive _ _ _)
      intro r
      split
      · apply safe_ite _ safe_undefined
        apply safe_ite _ (safe_pure _)
        exact safe_bind (safe_storeBuf _ _) (fun _ => ih _)
      · exact safe_pure _
    · exact safe_pure _

theorem safe_recv (T : Transport σ) (off minLen maxLen : Nat) :
    Safe (recv T off minLen maxLen : M σ δ (NetErr × Nat)) :=
  safe_recvLoop T off minLen maxLen maxLen 0

theorem safe_sendLoop (T : Transport σ) (data : List Nat) (fuel writtenLen : Nat) :
    Safe (sendLoop T data fuel writtenLen : M σ δ NetErr) := by
  induction fuel generalizing writtenLen with
  | zero => exact safe_pure _
  | succ fuel ih =>
    unfold sendLoop
    apply safe_bind safe_getTimeout
    intro tmo
    apply safe_bind (safe_sockSend _ _ _)
    intro r
    apply safe_ite
    · exact safe_ite _ (ih _) (safe_pure _)
    · exact safe_ite _ (safe_pure _) (safe_pure _)

theorem safe_send (T : Transport σ) (data : List Nat) : Safe (send T data : M σ δ NetErr) :=
  safe_sendLoop T data _ 0

theorem safe_sendText (T : Transport σ) (text : List Nat) :
    Safe (sendText T text : M σ δ NetErr) := by
  unfold sendText
  exact safe_bind (safe_storeBuf _ _) (fun _ => safe_bind safe_getBuf (fun _ => safe_send T _))

theorem safe_sendBodyHeaders (T : Transport σ) (D : DataOut δ) :
    Safe (sendBodyHeaders T D : M σ δ Unit) := by
  unfold sendBodyHeaders
  apply safe_bind (safe_ite _ (safe_send T _) (safe_sendText T _))
  intro ret
  apply safe_bind (safe_CHECK_CONN_ERR T _)
  · intro _
    split
    · apply safe_ite _ safe_undefined
      exact safe_bind (safe_sendText T _) (fun _ => safe_CHECK_CONN_ERR T _)
    · exact safe_pure _

theorem safe_postLoop (T : Transport σ) (D : DataOut δ) (fuel : Nat) :
    Safe (postLoop T D fuel : M σ δ Unit) := by
  induction fuel with
  | zero => exact safe_outOfFuel
  | succ fuel ih =>
    unfold postLoop
    apply safe_bind (safe_srcRead D _)
    intro trfLen
    apply safe_ite
    · apply safe_bind (safe_send T _)
      intro _
      apply safe_bind (safe_CHECK_CONN_ERR T _)
      intro _
      apply safe_bind
      · apply safe_ite
        · apply safe_bind (safe_readBuf _)
          intro _
          exact safe_bind (safe_send T _) (fun _ => safe_CHECK_CONN_ERR T _)
        · exact safe_pure _
      · intro _
        apply safe_bind (safe_send T _)
        intro _
        apply safe_bind (safe_CHECK_CONN_ERR T _)
        intro _
        exact safe_ite _ (safe_pure _) ih
    · apply safe_ite _ (safe_pure _)
      apply safe_bind (safe_readBuf _)
      intro _
      apply safe_bind (safe_send T _)
      intro _
      apply safe_bind (safe_CHECK_CONN_ERR T _)
      intro _
      exact safe_ite _ (safe_pure _) ih

theorem safe_sendRequest (T : Transport σ) (D : Option (DataOut δ)) (method : HTTP_METH)
    (host path : List Nat) (fuel : Nat) :
    Safe (sendRequest T D method host path fuel : M σ δ Unit) := by
  unfold sendRequest
  apply safe_bind (safe_sendText T _)
  intro ret
  apply safe_ite
  · exact safe_close_ret T _ (Or.inr (Or.inl rfl))
  · apply safe_bind
    · split
      · exact safe_sendBodyHeaders T _
      · exact safe_pure _
    · intro _
      apply safe_bind (safe_send T _)
      intro _
      apply safe_bind (safe_CHECK_CONN_ERR T _)
      intro _
      split
      · exact safe_postLoop T _ _
      · exact safe_pure _

/-- Setting `m_httpResponseCode` does not touch the trace. -/
theorem safe_setCode {α : Type} (code : Int) {m : M σ δ α} (hm : Safe m) :
    Safe (fun s => m { s with code := code }) := by
  constructor
  intro s
  have := hm.out { s with code := code }
  exact this

theorem safe_parseStatusLine (T : Transport σ) (trfLen : Nat) :
    Safe (parseStatusLine T trfLen : M σ δ Nat) := by
  unfold parseStatusLine
  apply safe_bind safe_getBuf
  intro buf
  split
  · exact safe_PRTCL_ERR T
  · apply safe_bind (safe_storeBuf _ _)
    intro _
    apply safe_bind safe_getBuf
    intro buf2
    split
    · exact safe_PRTCL_ERR T
    · exact safe_undefined
    · apply safe_setCode
      apply safe_ite _ (safe_PRTCL_ERR T)
      exact safe_bind (safe_memmove _ _ _) (fun _ => safe_pure _)

theorem safe_statusLine (T : Transport σ) : Safe (statusLine T : M σ δ Nat) := by
  unfold statusLine
  apply safe_bind (safe_recv T _ _ _)
  intro r
  apply safe_bind (safe_CHECK_CONN_ERR T _)
  intro _
  apply safe_bind (safe_storeBuf _ _)
  intro _
  exact safe_parseStatusLine T _

theorem safe_applyHeader (key value : List Nat) (len : Nat) (chunked : Bool) :
    Safe (applyHeader key value len chunked : M σ δ (Nat × Bool)) := by
  unfold applyHeader
  apply safe_ite
  · split
    · exact safe_bind (safe_emit _ (by simp)) (fun _ => safe_pure _)
    · exact safe_bind (safe_emit _ (by simp)) (fun _ => safe_pure _)
    · exact safe_undefined
  · apply safe_ite
    · apply safe_ite _ _ (safe_pure _)
      exact safe_bind (safe_emit _ (by simp)) (fun _ => safe_pure _)
    · apply safe_ite _ _ (safe_pure _)
      exact safe_bind (safe_emit _ (by simp)) (fun _ => safe_pure _)

theorem safe_headerLoop (T : Transport σ) (fuel trfLen len : Nat) (chunked : Bool) :
    Safe (headerLoop T fuel trfLen len chunked : M σ δ (Nat × Nat × Bool)) := by
  induction fuel generalizing trfLen len chunked with
  | zero => exact safe_outOfFuel
  | succ fuel ih =>
    unfold headerLoop
    apply safe_bind safe_getBuf
    intro buf
    split
    · apply safe_ite _ _ (safe_PRTCL_ERR T)
      apply safe_bind (safe_recv T _ _ _)
      intro r
      apply safe_bind (safe_storeBuf _ _)
      intro _
      exact safe_bind (safe_CHECK_CONN_ERR T _) (fun _ => ih _ _ _)
    · apply safe_ite
      · exact safe_bind (safe_memmove _ _ _) (fun _ => safe_pure _)
      · apply safe_bind (safe_storeBuf _ _)
        intro _
        apply safe_bind safe_getBuf
        intro buf2
        split
        · apply safe_bind (safe_applyHeader _ _ _ _)
          intro r
          exact safe_bind (safe_memmove _ _ _) (fun _ => ih _ _ _)
        · exact safe_PRTCL_ERR T

theorem safe_drainLoop (T : Transport σ) (fuel readLen trfLen : Nat) :
    Safe (drainLoop T fuel readLen trfLen : M σ δ Nat) := by
  induction fuel generalizing readLen trfLen with
  | zero => exact safe_outOfFuel
  | succ fuel ih =>
    unfold drainLoop
    apply safe_bind (safe_readBuf _)
    intro data
    apply safe_bind (safe_emit _ (by simp))
    intro _
    apply safe_ite
    · exact safe_bind (safe_memmove _ _ _) (fun _ => safe_pure _)
    · apply safe_ite _ _ (safe_pure _)
      apply safe_bind (safe_recv T _ _ _)
      intro r
      exact safe_bind (safe_CHECK_CONN_ERR T _) (fun _ => ih _ _)

theorem safe_chunkEnd (T : Transport σ) (trfLen : Nat) :
    Safe (chunkEnd T trfLen : M σ δ Nat) := by
  unfold chunkEnd
  apply safe_bind
  · apply safe_ite _ _ (safe_pure _)
    apply safe_bind (safe_recv T _ _ _)
    intro r
    exact safe_bind (safe_CHECK_CONN_ERR T _) (fun _ => safe_pure _)
  · intro n
    apply safe_bind safe_getBuf
    intro buf
    apply safe_ite _ (safe_PRTCL_ERR T)
    exact safe_bind (safe_memmove _ _ _) (fun _ => safe_pure _)

theorem safe_bodyLoop (T : Transport σ) (chunked : Bool) (len n fuel trfLen : Nat) :
    Safe (bodyLoop T chunked len n fuel trfLen : M σ δ Unit) := by
  induction fuel generalizing trfLen with
  | zero => exact safe_outOfFuel
  | succ fuel ih =>
    unfold bodyLoop
    apply safe_ite
    · apply safe_bind safe_getBuf
      intro buf
      split
      · exact safe_undefined
      · apply safe_ite
        · apply safe_ite _ _ (safe_PRTCL_ERR T)
          apply safe_bind (safe_recv T _ _ _)
          intro r
          exact safe_bind (safe_CHECK_CONN_ERR T _) (fun _ => ih _)
        · apply safe_bind (safe_storeBuf _ _)
          intro _
          apply safe_bind safe_getBuf
          intro buf2
          split
          · exact safe_PRTCL_ERR T
          · exact safe_undefined
          · apply safe_bind (safe_memmove _ _ _)
            intro _
            apply safe_ite _ (safe_pure _)
            apply safe_bind (safe_drainLoop T _ _ _)
            intro t
            exact safe_bind (safe_chunkEnd T _) (fun _ => ih _)
    · exact safe_bind (safe_drainLoop T _ _ _) (fun _ => safe_pure _)

theorem safe_receiveResponse (T : Transport σ) (fuel : Nat) :
    Safe (receiveResponse T fuel : M σ δ Unit) := by
  unfold receiveResponse
  apply safe_bind (safe_statusLine T)
  intro trfLen
  apply safe_bind (safe_headerLoop T _ _ _ _)
  intro r
  apply safe_bind (safe_bodyLoop T _ _ _ _ _)
  intro _
  exact safe_close_ret T _ (Or.inl rfl)

/-- Everything `connect` does before the response, once the URL is parsed. -/
theorem safe_afterParse (T : Transport σ) (D : Option (DataOut δ)) (fuel : Nat)
    (method : HTTP_METH) (u : ParsedURL) :
    Safe (do
      let port := if u.port = 0 then 80 else u.port
      let ret ← sockConnect T u.host port
      if ret < 0 then do
        sockClose T
        retM .NET_CONN
      else sendRequest T D method u.host u.path fuel : M σ δ Unit) := by
  apply safe_bind (safe_sockConnect T _ _)
  intro ret
  apply safe_ite
  · exact safe_close_ret T _ (Or.inr (Or.inl rfl))
  · exact safe_sendRequest T D method _ _ _

end Closing
/-! ## Running `connect` over the fragment transport -/

section Stream

variable {δ : Type}

theorem Quiet.quiet_refl {σ : Type} (s : State σ δ) : Quiet s s := ⟨[], rfl, by simp⟩

theorem Quiet.quiet_trans {σ : Type} {s1 s2 s3 : State σ δ} (h1 : Quiet s1 s2) (h2 : Quiet s2 s3) :
    Quiet s1 s3 := by
  obtain ⟨e1, h1, n1⟩ := h1
  obtain ⟨e2, h2, n2⟩ := h2
  refine ⟨e2 ++ e1, by rw [h2, h1, List.append_assoc], ?_⟩
  intro e he
  rcases List.mem_append.mp he with h | h
  · exact n2 e h
  · exact n1 e h

theorem sinkWrites_append (es t : List Event) :
    sinkWrites (es ++ t) = sinkWrites t ++ sinkWrites es := by
  induction es with
  | nil => simp [sinkWrites]
  | cons e es ih =>
    cases e <;> simp [sinkWrites, ih]

theorem sinkWrites_quiet_events (es : List Event) (h : ∀ e ∈ es, isSinkEvent e = false) :
    sinkWrites es = [] := by
  induction es with
  | nil => rfl
  | cons e es ih =>
    have he := h e (List.mem_cons_self _ _)
    have ih' := ih (fun x hx => h x (List.mem_cons_of_mem _ hx))
    cases e <;> simp_all [sinkWrites, isSinkEvent]

theorem Quiet.quiet_writes {σ : Type} {s s' : State σ δ} (h : Quiet s s') :
    sinkWrites s'.trace = sinkWrites s.trace := by
  obtain ⟨es, h1, h2⟩ := h
  rw [h1, sinkWrites_append, sinkWrites_quiet_events es h2, List.append_nil]

theorem receive_stream (frags : List (List Nat)) (len tmo : Nat) (hlen : 1 ≤ len)
    (hne : ∀ f ∈ frags, f ≠ []) :
    ∃ bs rest, streamTransport.receive frags len tmo = (.data bs, rest) ∧
      (∀ f ∈ rest, f ≠ []) ∧ bs ++ rest.flatten = frags.flatten ∧ bs.length ≤ len ∧
      (bs = [] → frags = []) := by
  cases frags with
  | nil => exact ⟨[], [], rfl, by simp, by simp, by simp, fun _ => rfl⟩
  | cons f fs =>
    have hfne : f ≠ [] := hne f (by simp)
    have hflen : 0 < f.length := List.length_pos.mpr hfne
    by_cases hfl : f.length ≤ len
    · refine ⟨f, fs, by simp [streamTransport, hfl], fun g hg => hne g (by simp [hg]),
        by simp, hfl, fun h => absurd h hfne⟩
    · refine ⟨f.take len, f.drop len :: fs, by simp [streamTransport, hfl], ?_, ?_, ?_, ?_⟩
      · intro g hg
        rcases List.mem_cons.mp hg with h | h
        · subst h
          intro h0
          have := congrArg List.length h0
          rw [List.length_drop, List.length_nil] at this
          omega
        · exact hne g (by simp [h])
      · simp [← List.append_assoc]
      · simp
      · intro h0
        have := congrArg List.length h0
        rw [List.length_take, List.length_nil] at this
        omega

theorem store_store (buf x y : List Nat) (p : Nat) (hp : p ≤ buf.length) :
    (buf.take p ++ x ++ buf.drop (p + x.length)).take (p + x.length) ++ y
        ++ (buf.take p ++ x ++ buf.drop (p + x.length)).drop (p + x.length + y.length)
      = buf.take p ++ (x ++ y) ++ buf.drop (p + (x ++ y).length) := by
  have h1 : (buf.take p ++ x).length = p + x.length := by simp [hp]
  have e1 : (buf.take p ++ x ++ buf.drop (p + x.length)).take (p + x.length)
      = buf.take p ++ x := by
    rw [← h1, List.take_left]
  have e2 : (buf.take p ++ x ++ buf.drop (p + x.length)).drop (p + x.length + y.length)
      = buf.drop (p + (x ++ y).length) := by
    rw [← h1, List.drop_append, List.drop_drop]
    simp only [List.length_append, List.length_take, Nat.min_eq_left hp]
    congr 1
    omega
  rw [e1, e2]
  simp

theorem recvLoop_stream (off minLen maxLen fuel readLen : Nat) (s : State (List (List Nat)) δ)
    (hg : Good s) (hmin : minLen ≤ maxLen ∨ maxLen = 0) (hoff : off + maxLen ≤ CHUNK_SIZE)
    (hr : readLen ≤ maxLen) (hf : maxLen ≤ fuel + readLen) :
    ∃ s', recvLoop streamTransport off minLen maxLen fuel readLen s
        = .cont (.OK, readLen + min (maxLen - readLen) s.sock.flatten.length) s' ∧
      RecvPost s s' (off + readLen) (min (maxLen - readLen) s.sock.flatten.length) := by
  induction fuel generalizing readLen s with
  | zero =>
    have : maxLen - readLen = 0 := by omega
    refine ⟨s, ?_, ?_⟩
    · simp [recvLoop, this, pure_apply]
    · rw [this]
      exact ⟨hg, by simp, by simp, rfl, rfl, Quiet.quiet_refl s⟩
  | succ fuel ih =>
    unfold recvLoop
    by_cases hlt : readLen < maxLen
    · have hmin' : minLen ≤ maxLen := by omega
      obtain ⟨len, hL, hl1, hl2⟩ : ∃ len,
          (if readLen < minLen then minLen - readLen else maxLen - readLen) = len ∧
          1 ≤ len ∧ len ≤ maxLen - readLen := by
        refine ⟨_, rfl, ?_, ?_⟩ <;> split <;> omega
      obtain ⟨bs, rest, hrecv, hrne, hcat, hbl, hb0⟩ :=
        receive_stream s.sock len (if readLen < minLen then s.timeout else 0) hl1 hg.frags
      simp only [hlt, if_true, bind_apply, hL, getTimeout, sockReceive, hrecv]
      have hnlt : ¬ len < bs.length := by omega
      simp only [hnlt, if_false]
      by_cases hbs : bs = []
      · have hsock := hb0 hbs
        subst hbs
        simp only [List.nil_append] at hcat
        refine ⟨{ s with
          sock := rest
          trace := (Event.sockReceive len (if readLen < minLen then s.timeout else 0))
            :: s.trace }, ?_, ?_⟩
        · simp [pure_apply, hsock]
        simp only [hsock, List.flatten_nil, List.length_nil, Nat.min_zero]
        refine ⟨⟨by simpa using hrne, hg.buf⟩, by simp [hcat], by simp, rfl, rfl, ?_⟩
        exact ⟨[_], rfl, by simp [isSinkEvent]⟩
      · have hbpos : 0 < bs.length := List.length_pos.mpr hbs
        have hstore : off + readLen + bs.length ≤ CHUNK_SIZE := by omega
        simp only [hbs, if_false, bind_apply, storeBuf, hstore, if_true]
        have hbuf := hg.buf
        obtain ⟨s', he, hp⟩ := ih (readLen + bs.length)
          { sock := rest, src := s.src,
            buf := s.buf.take (off + readLen) ++ bs ++ s.buf.drop (off + readLen + bs.length),
            code := s.code, timeout := s.timeout,
            trace := .sockReceive len (if readLen < minLen then s.timeout else 0) :: s.trace }
          ⟨hrne, by simp; omega⟩ (by omega) (by omega)
        have hRlen : s.sock.flatten.length = bs.length + rest.flatten.length := by
          rw [← hcat, List.length_append]
        simp only at he hp
        have hk : readLen + bs.length + min (maxLen - (readLen + bs.length)) rest.flatten.length
            = readLen + min (maxLen - readLen) s.sock.flatten.length := by
          rw [hRlen]; omega
        refine ⟨s', by rw [he, hk], ?_⟩
        have hk2 : min (maxLen - readLen) s.sock.flatten.length
            = bs.length + min (maxLen - (readLen + bs.length)) rest.flatten.length := by
          rw [hRlen]; omega
        rw [hk2]
        have hk2le : min (maxLen - (readLen + bs.length)) rest.flatten.length
            ≤ rest.flatten.length := Nat.min_le_right _ _
        generalize min (maxLen - (readLen + bs.length)) rest.flatten.length = k2 at hp hk2le
        refine ⟨hp.good, ?_, ?_, hp.code, hp.timeout, ?_⟩
        · rw [hp.sock, ← hcat]
          simp only
          rw [← List.drop_drop, List.drop_left]
        · rw [hp.buf]
          simp only
          have hy : (rest.flatten.take k2).length = k2 := by
            rw [List.length_take]; omega
          have := store_store s.buf bs (rest.flatten.take k2) (off + readLen) (by omega)
          rw [hy] at this
          have e3 : s.sock.flatten.take (bs.length + k2) = bs ++ rest.flatten.take k2 := by
            rw [← hcat, List.take_append]
          rw [e3]
          have e4 : off + (readLen + bs.length) = off + readLen + bs.length := by omega
          rw [e4, this, List.length_append, hy]
        · exact Quiet.quiet_trans ⟨[_], rfl, by simp [isSinkEvent]⟩ hp.quiet
    · have : maxLen - readLen = 0 := by omega
      refine ⟨s, ?_, ?_⟩
      · simp [hlt, this, pure_apply]
      · rw [this]
        exact ⟨hg, by simp, by simp, rfl, rfl, Quiet.quiet_refl s⟩


end Stream
/-! ## The request phase over the fragment transport -/

section Request

variable {δ : Type}

theorem Frame.frame_refl (s : State (List (List Nat)) δ) : Frame s s :=
  ⟨rfl, rfl, rfl, id, Quiet.quiet_refl s⟩

theorem Frame.frame_trans {s1 s2 s3 : State (List (List Nat)) δ} (h1 : Frame s1 s2)
    (h2 : Frame s2 s3) : Frame s1 s3 :=
  ⟨h2.sock.trans h1.sock, h2.code.trans h1.code, h2.timeout.trans h1.timeout,
    fun h => h2.buf (h1.buf h), h1.quiet.quiet_trans h2.quiet⟩

theorem bind_cont_inv {σ α β : Type} {m : M σ δ α} {f : α → M σ δ β} {s s2 : State σ δ}
    {b : β} (h : (m >>= f) s = .cont b s2) :
    ∃ a s1, m s = .cont a s1 ∧ f a s1 = .cont b s2 := by
  rw [bind_apply] at h
  cases hm : m s with
  | cont a s1 => rw [hm] at h; exact ⟨a, s1, rfl, h⟩
  | ret e s1 => rw [hm] at h; cases h
  | undefined => rw [hm] at h; cases h
  | outOfFuel => rw [hm] at h; cases h

theorem framed_bind {α β : Type} {m : M (List (List Nat)) δ α}
    {f : α → M (List (List Nat)) δ β} (hm : Framed m) (hf : ∀ a, Framed (f a)) :
    Framed (m >>= f) := by
  constructor
  intro s b s2 h
  obtain ⟨a, s1, h1, h2⟩ := bind_cont_inv h
  exact (hm.out s a s1 h1).frame_trans ((hf a).out s1 b s2 h2)

theorem framed_pure {α : Type} (a : α) : Framed (pure a : M (List (List Nat)) δ α) := by
  constructor
  intro s b s' h
  rw [pure_apply] at h
  cases h
  exact Frame.frame_refl s

theorem framed_undefined {α : Type} : Framed (undefinedM : M (List (List Nat)) δ α) :=
  ⟨fun _ _ _ h => by cases h⟩

theorem framed_outOfFuel {α : Type} : Framed (outOfFuelM : M (List (List Nat)) δ α) :=
  ⟨fun _ _ _ h => by cases h⟩

theorem framed_getBuf : Framed (getBuf : M (List (List Nat)) δ (List Nat)) :=
  ⟨fun s _ _ h => by cases h; exact Frame.frame_refl s⟩

theorem framed_getTimeout : Framed (getTimeout : M (List (List Nat)) δ Nat) :=
  ⟨fun s _ _ h => by cases h; exact Frame.frame_refl s⟩

theorem framed_storeBuf (off : Nat) (bs : List Nat) :
    Framed (storeBuf off bs : M (List (List Nat)) δ Unit) := by
  constructor
  intro s a s' h
  unfold storeBuf at h
  by_cases hc : off + bs.length ≤ CHUNK_SIZE
  · rw [if_pos hc] at h
    cases h
    refine ⟨rfl, rfl, rfl, ?_, Quiet.quiet_refl s⟩
    intro hb
    simp only [List.length_append, List.length_take, List.length_drop, hb]
    omega
  · rw [if_neg hc] at h
    cases h

theorem framed_readBuf (n : Nat) : Framed (readBuf n : M (List (List Nat)) δ (List Nat)) := by
  constructor
  intro s a s' h
  unfold readBuf at h
  by_cases hc : n ≤ CHUNK_SIZE
  · rw [if_pos hc] at h
    cases h
    exact Frame.frame_refl s
  · rw [if_neg hc] at h
    cases h

theorem framed_sockSend (data : List Nat) (timeout : Nat) :
    Framed (sockSend streamTransport data timeout : M (List (List Nat)) δ Int) := by
  constructor
  intro s a s' h
  cases h
  exact ⟨rfl, rfl, rfl, id, ⟨[_], rfl, by simp [isSinkEvent]⟩⟩

theorem framed_srcRead (D : DataOut δ) (len : Nat) :
    Framed (srcRead D len : M (List (List Nat)) δ Nat) := by
  constructor
  intro s a s' h
  unfold srcRead at h
  by_cases hc : (D.read s.src len).1.length ≤ CHUNK_SIZE
  · simp only [hc, if_true] at h
    cases h
    refine ⟨rfl, rfl, rfl, ?_, ⟨[_], rfl, by simp [isSinkEvent]⟩⟩
    intro hb
    simp only [List.length_append, List.length_drop, hb]
    omega
  · simp only [hc, if_false] at h
    cases h

/-- Closing the socket and returning does not go on. -/
theorem framed_close_ret {α : Type} (e : NetErr) :
    Framed (do sockClose streamTransport; retM e : M (List (List Nat)) δ α) :=
  ⟨fun _ _ _ h => by cases h⟩

theorem framed_CHECK_CONN_ERR (ret : NetErr) :
    Framed (CHECK_CONN_ERR streamTransport ret : M (List (List Nat)) δ Unit) := by
  unfold CHECK_CONN_ERR
  split
  · exact framed_close_ret _
  · exact framed_pure ()

theorem framed_ite {α : Type} (c : Prop) [Decidable c] {a b : M (List (List Nat)) δ α}
    (ha : Framed a) (hb : Framed b) : Framed (if c then a else b) := by
  split
  · exact ha
  · exact hb

theorem framed_sendLoop (data : List Nat) (fuel writtenLen : Nat) :
    Framed (sendLoop streamTransport data fuel writtenLen : M (List (List Nat)) δ NetErr) := by
  induction fuel generalizing writtenLen with
  | zero => exact framed_pure _
  | succ fuel ih =>
    unfold sendLoop
    apply framed_bind framed_getTimeout
    intro tmo
    apply framed_bind (framed_sockSend _ _)
    intro r
    apply framed_ite
    · exact framed_ite _ (ih _) (framed_pure _)
    · exact framed_ite _ (framed_pure _) (framed_pure _)

theorem framed_send (data : List Nat) :
    Framed (send streamTransport data : M (List (List Nat)) δ NetErr) :=
  framed_sendLoop data _ 0

theorem framed_sendText (text : List Nat) :
    Framed (sendText streamTransport text : M (List (List Nat)) δ NetErr) := by
  unfold sendText
  exact framed_bind (framed_storeBuf _ _)
    (fun _ => framed_bind framed_getBuf (fun _ => framed_send _))

theorem framed_sendBodyHeaders (D : DataOut δ) :
    Framed (sendBodyHeaders streamTransport D : M (List (List Nat)) δ Unit) := by
  unfold sendBodyHeaders
  apply framed_bind (framed_ite _ (framed_send _) (framed_sendText _))
  intro ret
  apply framed_bind (framed_CHECK_CONN_ERR _)
  intro _
  split
  · apply framed_ite _ framed_undefined
    exact framed_bind (framed_sendText _) (fun _ => framed_CHECK_CONN_ERR _)
  · exact framed_pure _

theorem framed_postLoop (D : DataOut δ) (fuel : Nat) :
    Framed (postLoop streamTransport D fuel : M (List (List Nat)) δ Unit) := by
  induction fuel with
  | zero => exact framed_outOfFuel
  | succ fuel ih =>
    unfold postLoop
    apply framed_bind (framed_srcRead D _)
    intro trfLen
    apply framed_ite
    · apply framed_bind (framed_send _)
      intro _
      apply framed_bind (framed_CHECK_CONN_ERR _)
      intro _
      apply framed_bind
      · apply framed_ite
        · apply framed_bind (framed_readBuf _)
          intro _
          exact framed_bind (framed_send _) (fun _ => framed_CHECK_CONN_ERR _)
        · exact framed_pure _
      · intro _
        apply framed_bind (framed_send _)
        intro _
        apply framed_bind (framed_CHECK_CONN_ERR _)
        intro _
        exact framed_ite _ (framed_pure _) ih
    · apply framed_ite _ (framed_pure _)
      apply framed_bind (framed_readBuf _)
      intro _
      apply framed_bind (framed_send _)
      intro _
      apply framed_bind (framed_CHECK_CONN_ERR _)
      intro _
      exact framed_ite _ (framed_pure _) ih

theorem framed_sendRequest (D : Option (DataOut δ)) (method : HTTP_METH)
    (host path : List Nat) (fuel : Nat) :
    Framed (sendRequest streamTransport D method host path fuel
      : M (List (List Nat)) δ Unit) := by
  unfold sendRequest
  apply framed_bind (framed_sendText _)
  intro ret
  apply framed_ite
  · exact framed_close_ret _
  · apply framed_bind
    · split
      · exact framed_sendBodyHeaders _
      · exact framed_pure _
    · intro _
      apply framed_bind (framed_send _)
      intro _
      apply framed_bind (framed_CHECK_CONN_ERR _)
      intro _
      split
      · exact framed_postLoop _ _
      · exact framed_pure _

/-- Once the request is sent over the fragment transport, the response is still
entirely pending, the status code is 0, the buffer has its size, and the sink has
not been called. -/
theorem connectRequest_stream (D : Option (DataOut δ)) (fuel : Nat) (url : List Nat)
    (method : HTTP_METH) (timeout : Nat) (s s1 : State (List (List Nat)) δ)
    (h : connectRequest streamTransport D fuel url method timeout s = .cont () s1) :
    s1.sock = s.sock ∧ s1.code = 0 ∧ s1.timeout = timeout ∧ s1.buf.length = CHUNK_SIZE ∧
    Quiet s s1 := by
  unfold connectRequest at h
  cases hu : parseURL url 8 32 64 with
  | err e => simp only [hu] at h; cases h
  | undefined => simp only [hu] at h; cases h
  | ok u =>
    simp only [hu] at h
    have hf : Framed (do
        let port := if u.port = 0 then 80 else u.port
        let ret ← sockConnect streamTransport u.host port
        if ret < 0 then do
          sockClose streamTransport
          retM .NET_CONN
        else sendRequest streamTransport D method u.host u.path fuel
        : M (List (List Nat)) δ Unit) := by
      apply framed_bind
      · exact ⟨fun s _ _ h => by
          cases h; exact ⟨rfl, rfl, rfl, id, ⟨[_], rfl, by simp [isSinkEvent]⟩⟩⟩
      · intro ret
        exact framed_ite _ (framed_close_ret _) (framed_sendRequest _ _ _ _ _)
    have := hf.out _ _ _ h
    refine ⟨this.sock, this.code, this.timeout, this.buf (by
      simp only [List.length_take, List.length_append, List.length_replicate]; omega), ?_⟩
    obtain ⟨es, h1, h2⟩ := this.quiet
    exact ⟨es, h1, h2⟩

end Request
/-! ## The status line over the fragment transport -/

section Status

variable {δ : Type}

theorem take_append_len {α : Type} (a b : List α) (n : Nat) (h : a.length = n) :
    (a ++ b).take n = a := by
  subst h; exact List.take_left _ _

theorem drop_append_len {α : Type} (a b : List α) (n : Nat) (h : a.length = n) :
    (a ++ b).drop n = b := by
  subst h; exact List.drop_left _ _

theorem recv_stream (off minLen maxLen : Nat) (s : State (List (List Nat)) δ)
    (hg : Good s) (hmin : minLen ≤ maxLen ∨ maxLen = 0) (hoff : off + maxLen ≤ CHUNK_SIZE) :
    ∃ s', recv streamTransport off minLen maxLen s
        = .cont (.OK, min maxLen s.sock.flatten.length) s' ∧
      RecvPost s s' off (min maxLen s.sock.flatten.length) := by
  have := recvLoop_stream off minLen maxLen maxLen 0 s hg hmin hoff (Nat.zero_le _) (by omega)
  simpa [recv] using this

theorem storeBuf_eq {σ : Type} (off : Nat) (bs : List Nat) (s : State σ δ)
    (h : off + bs.length ≤ CHUNK_SIZE) :
    storeBuf off bs s
      = .cont () { s with buf := s.buf.take off ++ bs ++ s.buf.drop (off + bs.length) } := by
  unfold storeBuf
  rw [if_pos h]

theorem memmove_eq {σ : Type} (dst src n : Nat) (s : State σ δ)
    (h : src + n ≤ CHUNK_SIZE ∧ dst + n ≤ CHUNK_SIZE) :
    memmove dst src n s
      = .cont () { s with
          buf := s.buf.take dst ++ (s.buf.drop src).take n ++ s.buf.drop (dst + n) } := by
  unfold memmove
  rw [if_pos h]

theorem PRTCL_ERR_eq {σ α : Type} (T : Transport σ) (s : State σ δ) :
    (PRTCL_ERR T : M σ δ α) s
      = .ret .NET_PROTOCOL { s with sock := T.close s.sock, trace := .sockClose :: s.trace } :=
  rfl

theorem CHECK_CONN_ERR_OK {σ : Type} (T : Transport σ) (s : State σ δ) :
    CHECK_CONN_ERR T .OK s = .cont () s := rfl

theorem cstr_append_zero (W junk : List Nat) : cstr (W ++ 0 :: junk) = cstr W := by
  induction W with
  | nil => simp [cstr]
  | cons c W ih =>
    simp only [cstr, List.cons_append, List.takeWhile_cons] at ih ⊢
    split
    · rw [ih]
    · rfl

theorem cstr_isPre (W : List Nat) : cstr W <+: W := List.takeWhile_prefix _

theorem cstr_no_zero (W : List Nat) : (0 : Nat) ∉ cstr W := by
  intro h
  have := List.mem_takeWhile_imp h
  simp at this

theorem cstr_of_no_zero (W : List Nat) (h : (0 : Nat) ∉ W) : cstr W = W := by
  unfold cstr
  rw [List.takeWhile_eq_self_iff]
  intro c hc
  simp only [decide_eq_true_eq]
  intro h0
  subst h0
  exact h hc

/-- The state after the first read and the store of the terminator: the buffer holds
the first 255 bytes of the response, or the whole response when it is shorter. -/
theorem statusLine_read (s : State (List (List Nat)) δ) (hg : Good s) :
    ∃ s2, statusLine streamTransport s
        = parseStatusLine streamTransport (min 255 s.sock.flatten.length) s2 ∧
      Good s2 ∧ Holds s2 (s.sock.flatten.take 255) ∧
      s2.sock.flatten = s.sock.flatten.drop 255 ∧
      s2.code = s.code ∧ s2.timeout = s.timeout ∧ Quiet s s2 := by
  obtain ⟨s1, h1, hp⟩ := recv_stream 0 (CHUNK_SIZE - 1) (CHUNK_SIZE - 1) s hg (Or.inl le_rfl)
    (by simp [CHUNK_SIZE])
  have hk : min (CHUNK_SIZE - 1) s.sock.flatten.length = min 255 s.sock.flatten.length := rfl
  rw [hk] at h1 hp
  have hkle : min 255 s.sock.flatten.length ≤ 255 := Nat.min_le_left _ _
  have hst := storeBuf_eq (min 255 s.sock.flatten.length) [0] s1
    (by simp only [List.length_singleton, CHUNK_SIZE]; omega)
  refine ⟨{ s1 with buf := s1.buf.take (min 255 s.sock.flatten.length) ++ [0]
      ++ s1.buf.drop (min 255 s.sock.flatten.length + [0].length) }, ?_, ?_, ?_, ?_, ?_, ?_, ?_⟩
  · unfold statusLine
    simp only [bind_apply, h1, CHECK_CONN_ERR_OK, hst]
  · refine ⟨hp.good.frags, ?_⟩
    have := hp.good.buf
    simp only [List.length_append, List.length_take, List.length_drop, List.length_singleton,
      this, CHUNK_SIZE]
    simp only [CHUNK_SIZE] at this
    omega
  · refine ⟨s1.buf.drop (min 255 s.sock.flatten.length + 1), ?_⟩
    simp only [List.length_singleton]
    have e : s1.buf.take (min 255 s.sock.flatten.length) = s.sock.flatten.take 255 := by
      rw [hp.buf]
      simp only [List.take_zero, List.nil_append]
      have hl : (s.sock.flatten.take (min 255 s.sock.flatten.length)).length
          = min 255 s.sock.flatten.length := by
        rw [List.length_take]; omega
      have e1 : (List.take (min 255 s.sock.flatten.length) s.sock.flatten
            ++ List.drop (0 + min 255 s.sock.flatten.length) s.buf).take
              (min 255 s.sock.flatten.length)
          = List.take (min 255 s.sock.flatten.length) s.sock.flatten := by
        exact take_append_len _ _ _ hl
      rw [e1]
      rw [List.take_eq_take]
      omega
    rw [e]
    simp
  · simp only
    rw [hp.sock]
    rcases Nat.le_total 255 s.sock.flatten.length with h | h
    · rw [Nat.min_eq_left h]
    · rw [Nat.min_eq_right h, List.drop_of_length_le h, List.drop_of_length_le le_rfl]
  · exact hp.code
  · exact hp.timeout
  · exact hp.quiet

end Status
section Status2

variable {σ δ : Type}

theorem holds_cstr {s : State σ δ} {W : List Nat} (h : Holds s W) : cstr s.buf = cstr W := by
  obtain ⟨junk, hj⟩ := h
  rw [hj, cstr_append_zero]

theorem holds_length {s : State σ δ} {W : List Nat} (h : Holds s W)
    (hl : s.buf.length = CHUNK_SIZE) : W.length ≤ 255 := by
  obtain ⟨junk, hj⟩ := h
  rw [hj] at hl
  simp [CHUNK_SIZE] at hl
  omega

theorem strstr_some_bound (s pat : List Nat) (p : Nat) (h : strstr s pat = some p) :
    p + pat.length ≤ s.length ∧ pat <+: s.drop p := by
  induction s generalizing p with
  | nil =>
    simp only [strstr] at h
    split at h
    · rename_i hs
      cases h
      rw [startsWith_iff] at hs
      have := List.prefix_nil.mp hs
      subst this
      simp
    · cases h
  | cons c s ih =>
    simp only [strstr] at h
    split at h
    · rename_i hs
      cases h
      rw [startsWith_iff] at hs
      exact ⟨by simpa using hs.length_le, by simpa using hs⟩
    · cases hr : strstr s pat with
      | none => rw [hr] at h; cases h
      | some q =>
        rw [hr] at h
        simp only [Option.map_some', Option.some.injEq] at h
        subst h
        have := ih q hr
        exact ⟨by simp; omega, by simpa using this.2⟩

/-- Storing a terminator inside the held bytes. -/
theorem storeNul_holds (s : State σ δ) (W : List Nat) (p : Nat) (hl : s.buf.length = CHUNK_SIZE)
    (h : Holds s W) (hp : p < W.length) :
    ∃ s', storeBuf p [0] s = .cont () s' ∧ BufOnly s s' ∧
      Holds s' (W.take p ++ 0 :: W.drop (p + 1)) ∧ cstr s'.buf = cstr (W.take p) := by
  have hW := holds_length h hl
  obtain ⟨junk, hj⟩ := h
  refine ⟨_, storeBuf_eq p [0] s (by simp only [List.length_singleton, CHUNK_SIZE]; omega),
    ⟨rfl, rfl, rfl, rfl, ?_⟩, ⟨junk, ?_⟩, ?_⟩
  · intro _
    simp only [List.length_append, List.length_take, List.length_drop, List.length_singleton,
      hl, CHUNK_SIZE]
    omega
  · simp only [List.length_singleton, hj]
    rw [List.take_append_of_le_length (le_of_lt hp), List.drop_append_of_le_length (by omega)]
    simp
  · simp only [List.length_singleton, hj]
    rw [List.take_append_of_le_length (le_of_lt hp), List.append_assoc]
    exact cstr_append_zero _ _

/-- Dropping the first `c` held bytes with `memmove`, terminator included. -/
theorem compact_holds (s : State σ δ) (X : List Nat) (c : Nat) (hl : s.buf.length = CHUNK_SIZE)
    (h : Holds s X) (hc : c ≤ X.length) :
    ∃ s', memmove 0 c (X.length - c + 1) s = .cont () s' ∧ BufOnly s s' ∧
      Holds s' (X.drop c) := by
  have hX := holds_length h hl
  obtain ⟨junk, hj⟩ := h
  refine ⟨_, memmove_eq 0 c (X.length - c + 1) s (by simp only [CHUNK_SIZE]; omega),
    ⟨rfl, rfl, rfl, rfl, ?_⟩, ⟨s.buf.drop (X.length - c + 1), ?_⟩⟩
  · intro _
    simp only [List.length_append, List.length_take, List.length_drop, hl, CHUNK_SIZE]
    omega
  · have e1 : (s.buf.drop c).take (X.length - c + 1) = X.drop c ++ [0] := by
      rw [hj, List.drop_append_of_le_length hc]
      have e : X.drop c ++ 0 :: junk = (X.drop c ++ [0]) ++ junk := by simp
      rw [e]
      exact take_append_len _ _ _ (by simp)
    simp only [List.take_zero, List.nil_append, Nat.zero_add, e1]
    simp

theorem szSub_eq (a b : Nat) (ha : a < SIZE_MOD) (hb : b ≤ a) : szSub a b = a - b := by
  unfold szSub
  rw [Nat.mod_eq_of_lt ha, Nat.mod_eq_of_lt (lt_of_le_of_lt hb ha)]
  have : a + SIZE_MOD - b = (a - b) + SIZE_MOD := by omega
  rw [this, Nat.add_mod_right, Nat.mod_eq_of_lt (by omega)]

theorem parseStatusLine_no_crlf (T : Transport σ) (s : State σ δ) (W : List Nat)
    (h : Holds s W) (hs : strstr (cstr W) CRLF = none) :
    parseStatusLine T W.length s
      = .ret .NET_PROTOCOL { s with sock := T.close s.sock, trace := .sockClose :: s.trace } := by
  unfold parseStatusLine
  simp only [bind_apply, getBuf, holds_cstr h, hs]
  rfl

/-- The status line is found at `p`: what is scanned is the text before it. -/
theorem parseStatusLine_found (T : Transport σ) (s : State σ δ) (W : List Nat) (p : Nat)
    (hl : s.buf.length = CHUNK_SIZE) (h : Holds s W) (hs : strstr (cstr W) CRLF = some p) :
    (scanStatusLine ((cstr W).take p) = .noMatch →
      ∃ s', parseStatusLine T W.length s = .ret .NET_PROTOCOL s' ∧ s'.code = s.code ∧
        s'.trace = .sockClose :: s.trace) ∧
    (scanStatusLine ((cstr W).take p) = .overflow →
      parseStatusLine T W.length s = .undefined) ∧
    (∀ c rest, scanStatusLine ((cstr W).take p) = .value c rest → c ≠ 200 →
      ∃ s', parseStatusLine T W.length s = .ret .NET_PROTOCOL s' ∧ s'.code = c ∧
        s'.trace = .sockClose :: s.trace) ∧
    (∀ rest, scanStatusLine ((cstr W).take p) = .value 200 rest →
      ∃ s', parseStatusLine T W.length s = .cont (W.length - (p + 2)) s' ∧ s'.code = 200 ∧
        s'.sock = s.sock ∧ s'.timeout = s.timeout ∧ s'.trace = s.trace ∧
        s'.buf.length = CHUNK_SIZE ∧ Holds s' (W.drop (p + 2))) := by
  have hW := holds_length h hl
  have hb := (strstr_some_bound _ _ _ hs).1
  have hpre : cstr W <+: W := cstr_isPre W
  have hcl : (cstr W).length ≤ W.length := hpre.length_le
  simp only [CRLF, List.length_cons, List.length_nil] at hb
  have hpW : p < W.length := by omega
  obtain ⟨s3, h3, hbo, hh3, hc3⟩ := storeNul_holds s W p hl h hpW
  have htake : W.take p = (cstr W).take p := by
    obtain ⟨t, ht⟩ := hpre
    conv => lhs; rw [← ht]
    rw [List.take_append_of_le_length (by omega)]
  have hcline : cstr (W.take p) = (cstr W).take p := by
    rw [htake]
    apply cstr_of_no_zero
    intro hm
    exact cstr_no_zero W (List.mem_of_mem_take hm)
  rw [hcline] at hc3
  have hstart : parseStatusLine T W.length s
      = (match scanStatusLine ((cstr W).take p) with
        | .noMatch => PRTCL_ERR T
        | .overflow => undefinedM
        | .value code _ =>
          fun s => (
            if code ≠ 200 then PRTCL_ERR T
            else do
              memmove 0 (p + 2) (szSub W.length (p + 2) + 1)
              pure (szSub W.length (p + 2)) : M σ δ Nat) { s with code := code }) s3 := by
    unfold parseStatusLine
    simp only [bind_apply, getBuf, holds_cstr h, hs, h3, hc3]
  rw [hstart]
  refine ⟨?_, ?_, ?_, ?_⟩
  · intro hn
    rw [hn]
    exact ⟨_, PRTCL_ERR_eq T s3, hbo.code, by simp [hbo.trace]⟩
  · intro hn
    rw [hn]
    rfl
  · intro c rest hn hc
    rw [hn]
    simp only [hc, ne_eq, not_false_eq_true, if_true]
    exact ⟨_, PRTCL_ERR_eq T _, rfl, by simp [hbo.trace]⟩
  · intro rest hn
    rw [hn]
    simp only [ne_eq, not_true_eq_false, if_false]
    have hsz : szSub W.length (p + 2) = W.length - (p + 2) :=
      szSub_eq _ _ (by simp only [SIZE_MOD]; omega) (by omega)
    have hXlen : (W.take p ++ 0 :: W.drop (p + 1)).length = W.length := by
      simp only [List.length_append, List.length_take, List.length_cons, List.length_drop]
      omega
    obtain ⟨s4, h4, hbo4, hh4⟩ := compact_holds ({ s3 with code := 200 })
      (W.take p ++ 0 :: W.drop (p + 1)) (p + 2) (hbo.len hl) hh3 (by omega)
    rw [hXlen] at h4
    have hn1 : W.length - (p + 2) + 1 = szSub W.length (p + 2) + 1 := by rw [hsz]
    rw [hn1] at h4
    refine ⟨s4, ?_, ?_, ?_, ?_, ?_, ?_, ?_⟩
    · simp only [bind_apply, h4, pure_apply]
      rw [hsz]
    · rw [hbo4.code]
    · rw [hbo4.sock]; exact hbo.sock
    · rw [hbo4.timeout]; exact hbo.timeout
    · rw [hbo4.trace]; exact hbo.trace
    · exact hbo4.len (hbo.len hl)
    · have e : (W.take p ++ 0 :: W.drop (p + 1)).drop (p + 2) = W.drop (p + 2) := by
        have hlt : (W.take p ++ [0]).length = p + 1 := by
          simp only [List.length_append, List.length_take, List.length_singleton]; omega
        have e2 : W.take p ++ 0 :: W.drop (p + 1) = (W.take p ++ [0]) ++ W.drop (p + 1) := by
          simp
        rw [e2, show p + 2 = (p + 1) + 1 by rfl, ← List.drop_drop,
          drop_append_len _ _ _ hlt, List.drop_drop]
      rw [e] at hh4
      exact hh4

end Status2
section Status3

variable {δ : Type}

theorem crlf_not_earlier (sl b : List Nat) (h : ¬ CRLF <:+: sl) (j : Nat)
    (hj : j < sl.length) : ¬ CRLF <+: (sl ++ CRLF ++ b).drop j := by
  have e : (sl ++ CRLF ++ b).drop j = sl.drop j ++ (CRLF ++ b) := by
    rw [List.append_assoc, List.drop_append_of_le_length (le_of_lt hj)]
  rw [e]
  have hsuf : sl.drop j <:+ sl := List.drop_suffix _ _
  have hlen : 0 < (sl.drop j).length := by simp; omega
  intro hp
  match hd : sl.drop j, hlen, hp with
  | [c], _, hp =>
    simp [CRLF, List.cons_prefix_cons] at hp
  | c :: d :: t, _, hp =>
    simp only [CRLF, List.cons_append, List.cons_prefix_cons] at hp
    obtain ⟨rfl, rfl, -⟩ := hp
    apply h
    rw [hd] at hsuf
    exact (List.prefix_append [13, 10] t).isInfix.trans hsuf.isInfix

theorem cstr_append_of_no_zero (a b : List Nat) (h : (0 : Nat) ∉ a) :
    cstr (a ++ b) = a ++ cstr b := by
  induction a with
  | nil => rfl
  | cons c a ih =>
    simp only [List.mem_cons, not_or] at h
    have hc : c ≠ 0 := fun e => h.1 e.symm
    simp only [cstr, List.cons_append, List.takeWhile_cons, hc, ne_eq, not_false_eq_true,
      decide_True, if_true] at ih ⊢
    rw [ih h.2]

/-- The first line of a response that starts with a line `sl` free of NUL and CRLF and
short enough for the first read. -/
theorem first_line (sl rest : List Nat) (h0 : (0 : Nat) ∉ sl) (hcr : ¬ CRLF <:+: sl)
    (hfit : sl.length + 2 ≤ 255) :
    strstr (cstr ((sl ++ CRLF ++ rest).take 255)) CRLF = some sl.length ∧
    (cstr ((sl ++ CRLF ++ rest).take 255)).take sl.length = sl := by
  have e1 : (sl ++ CRLF ++ rest).take 255 = sl ++ CRLF ++ rest.take (255 - (sl.length + 2)) := by
    have hl : (sl ++ CRLF).length = sl.length + 2 := by simp [CRLF]
    rw [List.take_append_eq_append_take, hl, List.take_of_length_le (by omega)]
  have e2 : cstr (sl ++ CRLF ++ rest.take (255 - (sl.length + 2)))
      = sl ++ CRLF ++ cstr (rest.take (255 - (sl.length + 2))) := by
    rw [cstr_append_of_no_zero]
    intro hm
    rcases List.mem_append.mp hm with h | h
    · exact h0 h
    · simp [CRLF] at h
  rw [e1, e2]
  constructor
  · exact strstr_append_of_not_earlier sl CRLF _ (fun j hj => crlf_not_earlier sl _ hcr j hj)
  · rw [List.append_assoc, List.take_left]

theorem receiveResponse_of_statusLine_ret {σ : Type} (T : Transport σ) (fuel : Nat)
    (s s' : State σ δ) (e : NetErr) (h : statusLine T s = .ret e s') :
    receiveResponse T fuel s = .ret e s' := by
  unfold receiveResponse
  simp only [bind_apply, h]

theorem connect_of_request {σ : Type} (T : Transport σ) (D : Option (DataOut δ)) (fuel : Nat)
    (url : List Nat) (method : HTTP_METH) (timeout : Nat) (s s1 : State σ δ)
    (h : connectRequest T D fuel url method timeout s = .cont () s1) :
    connect T D fuel url method timeout s = receiveResponse T fuel s1 := by
  show (connectRequest T D fuel url method timeout >>= fun _ => receiveResponse T fuel) s = _
  rw [bind_apply, h]

theorem isCont_iff {S α : Type} (r : Res S α) : r.isCont = true ↔ ∃ a s, r = .cont a s := by
  cases r <;> simp [Res.isCont]

/-- After the request, over the fragment transport: the response phase starts from a
good state with the whole response pending and the status code 0. -/
theorem request_sent (D : Option (DataOut δ)) (fuel : Nat) (url : List Nat)
    (method : HTTP_METH) (timeout : Nat) (s : State (List (List Nat)) δ)
    (hfr : ∀ f ∈ s.sock, f ≠ [])
    (hreq : (connectRequest streamTransport D fuel url method timeout s).isCont = true) :
    ∃ s1, connect streamTransport D fuel url method timeout s
        = receiveResponse streamTransport fuel s1 ∧
      Good s1 ∧ s1.sock = s.sock ∧ s1.code = 0 ∧ s1.timeout = timeout ∧ Quiet s s1 := by
  obtain ⟨a, s1, h⟩ := (isCont_iff _).mp hreq
  cases a
  obtain ⟨h1, h2, h3, h4, h5⟩ := connectRequest_stream D fuel url method timeout s s1 h
  exact ⟨s1, connect_of_request _ D fuel url method timeout s s1 h,
    ⟨by rw [h1]; exact hfr, h4⟩, h1, h2, h3, h5⟩

end Status3
/-! ## The header loop over the fragment transport -/

section Headers

variable {δ : Type}

theorem Holds.has {σ : Type} {s : State σ δ} {W : List Nat} (h : Holds s W) : Has s W := by
  obtain ⟨junk, hj⟩ := h
  exact ⟨0 :: junk, hj⟩

/-- Storing the terminator right after the bytes the buffer starts with. -/
theorem storeNul_end {σ : Type} (s : State σ δ) (A : List Nat)
    (hl : s.buf.length = CHUNK_SIZE) (h : Has s A) (hA : A.length ≤ 255) :
    ∃ s', storeBuf A.length [0] s = .cont () s' ∧ BufOnly s s' ∧ Holds s' A := by
  obtain ⟨junk, hj⟩ := h
  refine ⟨_, storeBuf_eq A.length [0] s (by simp only [List.length_singleton, CHUNK_SIZE]; omega),
    ⟨rfl, rfl, rfl, rfl, ?_⟩, ⟨s.buf.drop (A.length + 1), ?_⟩⟩
  · intro _
    simp only [List.length_append, List.length_take, List.length_drop, List.length_singleton,
      hl, CHUNK_SIZE]
    omega
  · simp only [List.length_singleton]
    rw [hj, take_append_len _ _ _ rfl]
    simp

/-- A `recv` that appends to the bytes the buffer starts with. -/
theorem recv_append (s : State (List (List Nat)) δ) (W : List Nat) (minLen maxLen : Nat)
    (hg : Good s) (h : Has s W) (hmin : minLen ≤ maxLen ∨ maxLen = 0)
    (hmax : W.length + maxLen ≤ CHUNK_SIZE) :
    ∃ s', recv streamTransport W.length minLen maxLen s
        = .cont (.OK, min maxLen s.sock.flatten.length) s' ∧
      Good s' ∧ Has s' (W ++ s.sock.flatten.take maxLen) ∧
      s'.sock.flatten = s.sock.flatten.drop maxLen ∧
      s'.code = s.code ∧ s'.timeout = s.timeout ∧ Quiet s s' := by
  obtain ⟨s', h1, hp⟩ := recv_stream W.length minLen maxLen s hg hmin hmax
  obtain ⟨junk, hj⟩ := h
  have htk : s.sock.flatten.take (min maxLen s.sock.flatten.length)
      = s.sock.flatten.take maxLen := by
    rcases Nat.le_total maxLen s.sock.flatten.length with h | h
    · rw [Nat.min_eq_left h]
    · rw [Nat.min_eq_right h, List.take_of_length_le le_rfl, List.take_of_length_le h]
  have hdk : s.sock.flatten.drop (min maxLen s.sock.flatten.length)
      = s.sock.flatten.drop maxLen := by
    rcases Nat.le_total maxLen s.sock.flatten.length with h | h
    · rw [Nat.min_eq_left h]
    · rw [Nat.min_eq_right h, List.drop_of_length_le le_rfl, List.drop_of_length_le h]
  refine ⟨s', h1, hp.good, ⟨s.buf.drop (W.length + min maxLen s.sock.flatten.length), ?_⟩,
    by rw [hp.sock, hdk], hp.code, hp.timeout, hp.quiet⟩
  rw [hp.buf, htk]
  congr 2
  rw [hj, take_append_len _ _ _ rfl]

/-- A round of the header loop that finds no CRLF in a buffer that has room: the
buffer is topped up from the stream. -/
theorem headerLoop_refill (s : State (List (List Nat)) δ) (W : List Nat) (hg : Good s)
    (h : Holds s W) (hs : strstr (cstr W) CRLF = none) (hW : W.length < 255) :
    ∃ s', RefillPost s s' W ∧ ∀ fuel cl ch,
      headerLoop streamTransport (fuel + 1) W.length cl ch s
        = headerLoop streamTransport fuel
            (W ++ s.sock.flatten.take (255 - W.length)).length cl ch s' := by
  obtain ⟨s1, h1, hg1, hh1, hs1, hc1, ht1, hq1⟩ :=
    recv_append s W 1 (CHUNK_SIZE - W.length - 1) hg h.has
      (Or.inl (by simp only [CHUNK_SIZE]; omega)) (by simp only [CHUNK_SIZE]; omega)
  have e255 : CHUNK_SIZE - W.length - 1 = 255 - W.length := by simp only [CHUNK_SIZE]; omega
  rw [e255] at h1 hh1 hs1
  have hA : (W ++ s.sock.flatten.take (255 - W.length)).length ≤ 255 := by
    simp only [List.length_append, List.length_take]; omega
  obtain ⟨s2, h2, hbo2, hh2⟩ := storeNul_end s1 _ hg1.buf hh1 hA
  have hlenk : W.length + min (255 - W.length) s.sock.flatten.length
      = (W ++ s.sock.flatten.take (255 - W.length)).length := by
    simp only [List.length_append, List.length_take]
  refine ⟨s2, ⟨⟨?_, hbo2.len hg1.buf⟩, hh2, ?_, ?_, ?_, ?_⟩, ?_⟩
  · rw [hbo2.sock]; exact hg1.frags
  · rw [hbo2.sock]; exact hs1
  · rw [hbo2.code]; exact hc1
  · rw [hbo2.timeout]; exact ht1
  · obtain ⟨es, he, hn⟩ := hq1
    exact ⟨es, by rw [hbo2.trace]; exact he, hn⟩
  · intro fuel cl ch
    conv => lhs; unfold headerLoop
    simp only [bind_apply, getBuf, holds_cstr h, hs]
    have hlt : W.length < CHUNK_SIZE - 1 := by simp only [CHUNK_SIZE]; omega
    simp only [hlt, if_true, e255, bind_apply, h1, hlenk, h2, CHECK_CONN_ERR_OK]

/-- A round of the header loop that finds no CRLF in a full buffer. -/
theorem headerLoop_full {σ : Type} (T : Transport σ) (s : State σ δ) (W : List Nat)
    (h : Holds s W) (hs : strstr (cstr W) CRLF = none) (hW : 255 ≤ W.length)
    (fuel cl : Nat) (ch : Bool) :
    headerLoop T (fuel + 1) W.length cl ch s
      = .ret .NET_PROTOCOL { s with sock := T.close s.sock, trace := .sockClose :: s.trace } := by
  conv => lhs; unfold headerLoop
  simp only [bind_apply, getBuf, holds_cstr h, hs]
  have hlt : ¬ W.length < CHUNK_SIZE - 1 := by simp only [CHUNK_SIZE]; omega
  simp only [hlt, if_false]
  rfl

/-- The round of the header loop that finds the blank line. -/
theorem headerLoop_end {σ : Type} (T : Transport σ) (s : State σ δ) (W : List Nat)
    (hl : s.buf.length = CHUNK_SIZE) (h : Holds s W) (hs : strstr (cstr W) CRLF = some 0)
    (fuel cl : Nat) (ch : Bool) :
    ∃ s', headerLoop T (fuel + 1) W.length cl ch s = .cont (W.length - 2, cl, ch) s' ∧
      BufOnly s s' ∧ Holds s' (W.drop 2) := by
  have hW := holds_length h hl
  have hb := (strstr_some_bound _ _ _ hs).1
  have hcl : (cstr W).length ≤ W.length := (cstr_isPre W).length_le
  simp only [CRLF, List.length_cons, List.length_nil] at hb
  obtain ⟨s', h1, hbo, hh⟩ := compact_holds s W 2 hl h (by omega)
  have hsz : szSub W.length 2 = W.length - 2 :=
    szSub_eq _ _ (by simp only [SIZE_MOD]; omega) (by omega)
  refine ⟨s', ?_, hbo, hh⟩
  conv => lhs; unfold headerLoop
  simp only [bind_apply, getBuf, holds_cstr h, hs, if_true, hsz, h1, pure_apply]

/-- The round of the header loop that finds a header line: the line is scanned, and
when it matches the format it is applied and dropped from the buffer. -/
theorem headerLoop_line {σ : Type} (T : Transport σ) (s : State σ δ) (W : List Nat) (p : Nat)
    (hl : s.buf.length = CHUNK_SIZE) (h : Holds s W) (hs : strstr (cstr W) CRLF = some p)
    (hp : p ≠ 0) :
    ∃ s3, BufOnly s s3 ∧ Holds s3 (W.take p ++ 0 :: W.drop (p + 1)) ∧
      ∀ fuel cl ch, headerLoop T (fuel + 1) W.length cl ch s
        = (match scanHeader ((cstr W).take p) with
          | some (key, value) => do
            let (len, chunked) ← applyHeader key value cl ch
            memmove 0 (p + 2) (W.length - (p + 2) + 1)
            headerLoop T fuel (W.length - (p + 2)) len chunked
          | none => PRTCL_ERR T) s3 := by
  have hW := holds_length h hl
  have hb := (strstr_some_bound _ _ _ hs).1
  have hpre : cstr W <+: W := cstr_isPre W
  have hcl : (cstr W).length ≤ W.length := hpre.length_le
  simp only [CRLF, List.length_cons, List.length_nil] at hb
  have hpW : p < W.length := by omega
  obtain ⟨s3, h3, hbo, hh3, hc3⟩ := storeNul_holds s W p hl h hpW
  have htake : W.take p = (cstr W).take p := by
    obtain ⟨t, ht⟩ := hpre
    conv => lhs; rw [← ht]
    rw [List.take_append_of_le_length (by omega)]
  have hcline : cstr (W.take p) = (cstr W).take p := by
    rw [htake]
    apply cstr_of_no_zero
    intro hm
    exact cstr_no_zero W (List.mem_of_mem_take hm)
  rw [hcline] at hc3
  have hsz : szSub W.length (p + 2) = W.length - (p + 2) :=
    szSub_eq _ _ (by simp only [SIZE_MOD]; omega) (by omega)
  refine ⟨s3, hbo, hh3, ?_⟩
  intro fuel cl ch
  conv => lhs; unfold headerLoop
  simp only [bind_apply, getBuf, holds_cstr h, hs, hp, if_false, h3, hc3, hsz]

end Headers
section Headers2

variable {δ : Type}

theorem Silent.silent_refl {σ : Type} (s : State σ δ) : Silent s s := ⟨[], rfl, by simp⟩

theorem Silent.silent_trans {σ : Type} {s1 s2 s3 : State σ δ} (h1 : Silent s1 s2)
    (h2 : Silent s2 s3) : Silent s1 s3 := by
  obtain ⟨e1, h1, n1⟩ := h1
  obtain ⟨e2, h2, n2⟩ := h2
  refine ⟨e2 ++ e1, by rw [h2, h1, List.append_assoc], ?_⟩
  intro e he
  rcases List.mem_append.mp he with h | h
  · exact n2 e h
  · exact n1 e h

theorem Quiet.to_silent {σ : Type} {s s' : State σ δ} (h : Quiet s s') : Silent s s' := by
  obtain ⟨es, h1, h2⟩ := h
  refine ⟨es, h1, ?_⟩
  intro e he d hd
  have := h2 e he
  rw [hd] at this
  simp [isSinkEvent] at this

theorem BufOnly.buf_silent {σ : Type} {s s' : State σ δ} (h : BufOnly s s') : Silent s s' :=
  ⟨[], by simp [h.trace], by simp⟩

theorem sinkWrites_silent_events (es : List Event) (h : ∀ e ∈ es, ∀ d, e ≠ Event.write d) :
    sinkWrites es = [] := by
  induction es with
  | nil => rfl
  | cons e es ih =>
    have he := h e (List.mem_cons_self _ _)
    have ih' := ih (fun x hx => h x (List.mem_cons_of_mem _ hx))
    cases e <;> simp_all [sinkWrites]

theorem Silent.silent_writes {σ : Type} {s s' : State σ δ} (h : Silent s s') :
    sinkWrites s'.trace = sinkWrites s.trace := by
  obtain ⟨es, h1, h2⟩ := h
  rw [h1, sinkWrites_append, sinkWrites_silent_events es h2, List.append_nil]

/-- What `applyHeader` does when no conversion overflows: it leaves the framing
`framing` and calls setters of the sink only. -/
theorem applyHeader_spec {σ : Type} (key value : List Nat) (cl : Nat) (ch : Bool)
    (s : State σ δ) (hov : key = keyContentLength → scan_d value ≠ .overflow) :
    ∃ s', applyHeader key value cl ch s = .cont (framing key value cl ch) s' ∧
      s'.sock = s.sock ∧ s'.buf = s.buf ∧ s'.code = s.code ∧ s'.timeout = s.timeout ∧
      Silent s s' := by
  unfold applyHeader framing
  by_cases hk : key = keyContentLength
  · simp only [hk, if_true]
    have := hov hk
    cases hsc : scan_d value with
    | noMatch =>
      exact ⟨_, rfl, rfl, rfl, rfl, rfl, ⟨[_], rfl, by simp⟩⟩
    | value v rest =>
      exact ⟨_, rfl, rfl, rfl, rfl, rfl, ⟨[_], rfl, by simp⟩⟩
    | overflow => exact absurd hsc this
  · simp only [hk, if_false]
    by_cases ht : key = keyTransferEncoding
    · simp only [ht, if_true]
      by_cases hv : value = valChunkedUpper ∨ value = valChunkedLower
      · simp only [hv, if_true]
        exact ⟨_, rfl, rfl, rfl, rfl, rfl, ⟨[_], rfl, by simp⟩⟩
      · simp only [hv, if_false]
        exact ⟨s, rfl, rfl, rfl, rfl, rfl, Silent.silent_refl s⟩
    · simp only [ht, if_false]
      by_cases hc : key = keyContentType
      · simp only [hc, if_true]
        exact ⟨_, rfl, rfl, rfl, rfl, rfl, ⟨[_], rfl, by simp⟩⟩
      · simp only [hc, if_false]
        exact ⟨s, rfl, rfl, rfl, rfl, rfl, Silent.silent_refl s⟩

/-- A round of the header loop on a line that matches the format: the line is applied
and dropped. -/
theorem headerLoop_line_ok {σ : Type} (T : Transport σ) (s : State σ δ) (W : List Nat)
    (p : Nat) (key value : List Nat) (cl : Nat) (ch : Bool)
    (hl : s.buf.length = CHUNK_SIZE) (h : Holds s W) (hs : strstr (cstr W) CRLF = some p)
    (hp : p ≠ 0) (hsc : scanHeader ((cstr W).take p) = some (key, value))
    (hov : key = keyContentLength → scan_d value ≠ .overflow) :
    ∃ s', LinePost s s' (W.drop (p + 2)) ∧ ∀ fuel,
      headerLoop T (fuel + 1) W.length cl ch s
        = headerLoop T fuel (W.length - (p + 2)) (framing key value cl ch).1
            (framing key value cl ch).2 s' := by
  have hW := holds_length h hl
  have hb := (strstr_some_bound _ _ _ hs).1
  have hcl : (cstr W).length ≤ W.length := (cstr_isPre W).length_le
  simp only [CRLF, List.length_cons, List.length_nil] at hb
  obtain ⟨s3, hbo3, hh3, hstep⟩ := headerLoop_line T s W p hl h hs hp
  obtain ⟨s4, h4, hs4, hb4, hc4, ht4, hq4⟩ := applyHeader_spec key value cl ch s3 hov
  have hXlen : (W.take p ++ 0 :: W.drop (p + 1)).length = W.length := by
    simp only [List.length_append, List.length_take, List.length_cons, List.length_drop]
    omega
  have hh4 : Holds s4 (W.take p ++ 0 :: W.drop (p + 1)) := by
    obtain ⟨junk, hj⟩ := hh3
    exact ⟨junk, by rw [hb4, hj]⟩
  have hl4 : s4.buf.length = CHUNK_SIZE := by rw [hb4]; exact hbo3.len hl
  obtain ⟨s5, h5, hbo5, hh5⟩ := compact_holds s4 _ (p + 2) hl4 hh4 (by omega)
  rw [hXlen] at h5
  have e : (W.take p ++ 0 :: W.drop (p + 1)).drop (p + 2) = W.drop (p + 2) := by
    have hlt : (W.take p ++ [0]).length = p + 1 := by
      simp only [List.length_append, List.length_take, List.length_singleton]; omega
    have e2 : W.take p ++ 0 :: W.drop (p + 1) = (W.take p ++ [0]) ++ W.drop (p + 1) := by
      simp
    rw [e2, show p + 2 = (p + 1) + 1 by rfl, ← List.drop_drop,
      drop_append_len _ _ _ hlt, List.drop_drop]
  rw [e] at hh5
  refine ⟨s5, ⟨hbo5.len hl4, hh5, ?_, ?_, ?_, ?_⟩, ?_⟩
  · rw [hbo5.sock, hs4]; exact hbo3.sock
  · rw [hbo5.code, hc4]; exact hbo3.code
  · rw [hbo5.timeout, ht4]; exact hbo3.timeout
  · exact (hbo3.buf_silent.silent_trans hq4).silent_trans hbo5.buf_silent
  · intro fuel
    rw [hstep fuel cl ch, hsc]
    simp only [bind_apply, h4, h5]

end Headers2
section Headers3

variable {δ : Type}

theorem crlf_not_infix_snoc (h : List Nat) (hcr : ¬ CRLF <:+: h) : ¬ CRLF <:+: h ++ [13] := by
  rintro ⟨a, b, hab⟩
  rcases List.eq_nil_or_concat b with rfl | ⟨b', x, rfl⟩
  · have := congrArg List.getLast? hab
    simp [CRLF] at this
  · have e : a ++ CRLF ++ b'.concat x = (a ++ CRLF ++ b') ++ [x] := by simp
    rw [e] at hab
    have := List.append_inj' hab rfl
    exact hcr ⟨a, b', this.1⟩

/-- Where the first CRLF of a window on the stream is, when the stream starts with a
line free of NUL and CRLF: at the end of the line when the window reaches past it,
nowhere otherwise. -/
theorem line_in_window (h rest W : List Nat) (h0 : (0 : Nat) ∉ h) (hcr : ¬ CRLF <:+: h)
    (hW : W <+: h ++ CRLF ++ rest) :
    (h.length + 2 ≤ W.length →
      strstr (cstr W) CRLF = some h.length ∧ (cstr W).take h.length = h) ∧
    (W.length < h.length + 2 → strstr (cstr W) CRLF = none) := by
  have hWt : W = (h ++ CRLF ++ rest).take W.length := (List.prefix_iff_eq_take.mp hW)
  constructor
  · intro hlen
    have e1 : (h ++ CRLF ++ rest).take W.length
        = h ++ CRLF ++ rest.take (W.length - (h.length + 2)) := by
      have hl : (h ++ CRLF).length = h.length + 2 := by simp [CRLF]
      rw [List.take_append_eq_append_take, hl, List.take_of_length_le (by omega)]
    have e2 : cstr (h ++ CRLF ++ rest.take (W.length - (h.length + 2)))
        = h ++ CRLF ++ cstr (rest.take (W.length - (h.length + 2))) := by
      rw [cstr_append_of_no_zero]
      intro hm
      rcases List.mem_append.mp hm with hm | hm
      · exact h0 hm
      · simp [CRLF] at hm
    rw [hWt, e1, e2]
    constructor
    · exact strstr_append_of_not_earlier h CRLF _ (fun j hj => crlf_not_earlier h _ hcr j hj)
    · rw [List.append_assoc, List.take_left]
  · intro hlen
    have hpre : W <+: h ++ [13] := by
      have e : h ++ CRLF ++ rest = (h ++ [13]) ++ (10 :: rest) := by simp [CRLF]
      rw [e] at hW
      exact List.prefix_of_prefix_length_le hW (List.prefix_append _ _) (by simp; omega)
    have hz : (0 : Nat) ∉ W := by
      intro hm
      have := hpre.subset hm
      rcases List.mem_append.mp this with hm | hm
      · exact h0 hm
      · simp at hm
    rw [cstr_of_no_zero W hz, strstr_eq_none_iff]
    intro hi
    exact crlf_not_infix_snoc h hcr (hi.trans hpre.isInfix)

end Headers3
section Headers4

variable {δ : Type}

/-- The header loop makes sure that the next `n` bytes of the stream are in the buffer:
when they are not, and the buffer shows no CRLF, one round tops the buffer up. -/
theorem headerLoop_ensure (s : State (List (List Nat)) δ) (W X : List Nat) (n : Nat)
    (hw : Window s W X) (hn : n ≤ 255) (hX : n ≤ X.length)
    (hs : W.length < n → strstr (cstr W) CRLF = none) :
    ∃ j s1 W1, j ≤ 1 ∧ Window s1 W1 X ∧ n ≤ W1.length ∧ s1.code = s.code ∧
      s1.timeout = s.timeout ∧ Quiet s s1 ∧
      ∀ fuel cl ch, headerLoop streamTransport (fuel + j) W.length cl ch s
        = headerLoop streamTransport fuel W1.length cl ch s1 := by
  by_cases hlt : W.length < n
  · obtain ⟨s1, hp, hstep⟩ := headerLoop_refill s W hw.good hw.holds (hs hlt) (by omega)
    have hXl : X.length = W.length + s.sock.flatten.length := by
      rw [← hw.stream, List.length_append]
    refine ⟨1, s1, _, le_rfl, ⟨hp.good, hp.holds, ?_⟩, ?_, hp.code, hp.timeout, hp.quiet, hstep⟩
    · rw [hp.sock, List.append_assoc, List.take_append_drop]
      exact hw.stream
    · simp only [List.length_append, List.length_take]
      omega
  · exact ⟨0, s, W, by omega, hw, by omega, rfl, rfl, Quiet.quiet_refl s, fun _ _ _ => rfl⟩

theorem block_cons (h : List Nat) (hs : List (List Nat)) (t : List Nat) :
    block (h :: hs) ++ t = h ++ CRLF ++ (block hs ++ t) := by
  simp [block]

/-- The header loop over a block of conforming lines followed by the blank line: it
ends with the body framing the lines leave, the buffer holding the start of the
body, and no byte written to the sink. -/
theorem headers_run (hs : List (List Nat)) (body : List Nat) :
    ∀ (s : State (List (List Nat)) δ) (W : List Nat) (f : Nat × Bool) (fuel : Nat),
      Window s W (block hs ++ (CRLF ++ body)) → (∀ h ∈ hs, Conforming h) →
      2 * hs.length + 2 ≤ fuel →
      ∃ s' W', headerLoop streamTransport fuel W.length f.1 f.2 s
          = .cont (W'.length, (blockFraming hs f).1, (blockFraming hs f).2) s' ∧
        Window s' W' body ∧ s'.code = s.code ∧ s'.timeout = s.timeout ∧ Silent s s' := by
  induction hs with
  | nil =>
    intro s W f fuel hw _ hfuel
    have hX : block [] ++ (CRLF ++ body) = [] ++ CRLF ++ body := by simp [block]
    rw [hX] at hw
    have hpre : W <+: [] ++ CRLF ++ body := ⟨_, hw.stream⟩
    have hliw := line_in_window [] body W (by simp) (by simp [CRLF]) hpre
    obtain ⟨j, s1, W1, hj, hw1, hn1, hc1, ht1, hq1, hstep⟩ :=
      headerLoop_ensure s W _ 2 hw (by omega) (by simp [CRLF]) (by simpa using hliw.2)
    have hpre1 : W1 <+: [] ++ CRLF ++ body := ⟨_, hw1.stream⟩
    have hs1 := ((line_in_window [] body W1 (by simp) (by simp [CRLF]) hpre1).1
      (by simpa using hn1)).1
    obtain ⟨fuel', rfl⟩ : ∃ fuel', fuel = fuel' + 1 + j := ⟨fuel - 1 - j, by omega⟩
    obtain ⟨s2, h2, hbo2, hh2⟩ := headerLoop_end streamTransport s1 W1 hw1.good.buf hw1.holds
      (by simpa using hs1) fuel' f.1 f.2
    refine ⟨s2, W1.drop 2, ?_, ⟨⟨?_, hbo2.len hw1.good.buf⟩, hh2, ?_⟩, ?_, ?_, ?_⟩
    · rw [hstep, h2]
      simp [blockFraming]
    · rw [hbo2.sock]; exact hw1.good.frags
    · rw [hbo2.sock]
      have := congrArg (List.drop 2) hw1.stream
      rw [List.drop_append_of_le_length (by omega)] at this
      rw [this]
      simp [CRLF]
    · rw [hbo2.code, hc1]
    · rw [hbo2.timeout, ht1]
    · exact hq1.to_silent.silent_trans hbo2.buf_silent
  | cons h hs ih =>
    intro s W f fuel hw hconf hfuel
    have hc := hconf h (List.mem_cons_self _ _)
    rw [block_cons] at hw
    have hpre : W <+: h ++ CRLF ++ (block hs ++ (CRLF ++ body)) := ⟨_, hw.stream⟩
    have hliw := line_in_window h _ W hc.no_nul hc.no_crlf hpre
    obtain ⟨j, s1, W1, hj, hw1, hn1, hc1, ht1, hq1, hstep⟩ :=
      headerLoop_ensure s W _ (h.length + 2) hw hc.fits (by simp [CRLF]) hliw.2
    have hpre1 : W1 <+: h ++ CRLF ++ (block hs ++ (CRLF ++ body)) := ⟨_, hw1.stream⟩
    obtain ⟨hs1, hline⟩ := (line_in_window h _ W1 hc.no_nul hc.no_crlf hpre1).1 hn1
    obtain ⟨key, value, hsc, hov⟩ := hc.scans
    have hne : h.length ≠ 0 := by
      have := hc.ne
      intro h0
      exact this (List.length_eq_zero.mp h0)
    obtain ⟨s2, hp2, hstep2⟩ := headerLoop_line_ok streamTransport s1 W1 h.length key value
      f.1 f.2 hw1.good.buf hw1.holds hs1 hne (by rw [hline]; exact hsc) hov
    have hw2 : Window s2 (W1.drop (h.length + 2)) (block hs ++ (CRLF ++ body)) := by
      refine ⟨⟨?_, hp2.len⟩, hp2.holds, ?_⟩
      · rw [hp2.sock]; exact hw1.good.frags
      · rw [hp2.sock]
        have := congrArg (List.drop (h.length + 2)) hw1.stream
        rw [List.drop_append_of_le_length hn1] at this
        rw [this]
        have hl : (h ++ CRLF).length = h.length + 2 := by simp [CRLF]
        rw [drop_append_len _ _ _ hl]
    obtain ⟨fuel', rfl⟩ : ∃ fuel', fuel = fuel' + 1 + j := ⟨fuel - 1 - j, by omega⟩
    simp only [List.length_cons] at hfuel
    obtain ⟨s3, W3, h3, hw3, hc3, ht3, hq3⟩ := ih s2 _ (framing key value f.1 f.2) fuel' hw2
      (fun x hx => hconf x (List.mem_cons_of_mem _ hx)) (by omega)
    have hfr : blockFraming (h :: hs) f = blockFraming hs (framing key value f.1 f.2) := by
      simp [blockFraming, lineFraming, hsc]
    refine ⟨s3, W3, ?_, hw3, ?_, ?_, ?_⟩
    · rw [hstep, hstep2, hfr]
      have hl : W1.length - (h.length + 2) = (W1.drop (h.length + 2)).length := by simp
      rw [hl]
      exact h3
    · rw [hc3, hp2.code, hc1]
    · rw [ht3, hp2.timeout, ht1]
    · exact (hq1.to_silent.silent_trans hp2.silent).silent_trans hq3

end Headers4
/-! ## The drain loop over the fragment transport -/

section Drain

variable {δ : Type}

theorem sinkBody_write {σ : Type} (s : State σ δ) (d : List Nat) :
    sinkBody (Event.write d :: s.trace) = sinkBody s.trace ++ d := by
  simp [sinkBody, sinkWrites]

theorem Silent.body {σ : Type} {s s' : State σ δ} (h : Silent s s') :
    sinkBody s'.trace = sinkBody s.trace := by
  unfold sinkBody
  rw [h.silent_writes]

theorem readBuf_has {σ : Type} (s : State σ δ) (W : List Nat) (n : Nat) (h : Has s W)
    (hn : n ≤ W.length) (hW : W.length ≤ 255) :
    readBuf n s = .cont (W.take n) s := by
  obtain ⟨junk, hj⟩ := h
  unfold readBuf
  rw [if_pos (by simp only [CHUNK_SIZE]; omega), hj, List.take_append_of_le_length hn]

/-- The do-while loop that hands `readLen` bytes to the sink, when the stream still
holds that many: it returns, and the sink has received exactly the next `readLen`
bytes of the stream. -/
theorem drain_run (fuel : Nat) :
    ∀ (readLen : Nat) (s : State (List (List Nat)) δ) (W : List Nat),
      Good s → Has s W → W.length ≤ 255 → readLen ≤ W.length + s.sock.flatten.length →
      2 * readLen + (if W.length = 0 then 1 else 0) < fuel →
      ∃ s' t, drainLoop streamTransport fuel readLen W.length s = .cont t s' ∧
        sinkBody s'.trace = sinkBody s.trace ++ (W ++ s.sock.flatten).take readLen ∧
        s'.code = s.code ∧ s'.timeout = s.timeout := by
  induction fuel with
  | zero => intro readLen s W _ _ _ _ hf; omega
  | succ fuel ih =>
    intro readLen s W hg hh hW hlen hf
    have hrd := readBuf_has s W (min W.length readLen) hh (Nat.min_le_left _ _) hW
    by_cases hlt : readLen < W.length
    · have hmm := memmove_eq 0 readLen (W.length - readLen)
        ({ s with trace := Event.write (W.take (min W.length readLen)) :: s.trace })
        (by simp only [CHUNK_SIZE]; omega)
      obtain ⟨s2, h2, ht2, hc2, hto2⟩ : ∃ s2, memmove 0 readLen (W.length - readLen)
          ({ s with trace := Event.write (W.take (min W.length readLen)) :: s.trace })
            = .cont () s2 ∧
          s2.trace = Event.write (W.take (min W.length readLen)) :: s.trace ∧
          s2.code = s.code ∧ s2.timeout = s.timeout := ⟨_, hmm, rfl, rfl, rfl⟩
      refine ⟨s2, W.length - readLen, ?_, ?_, hc2, hto2⟩
      · conv => lhs; unfold drainLoop
        simp only [bind_apply, hrd, emit, hlt, if_true, h2, pure_apply]
      · rw [ht2, sinkBody_write, Nat.min_eq_right (le_of_lt hlt),
          List.take_append_of_le_length (le_of_lt hlt)]
    · by_cases hz : readLen - W.length ≠ 0
      · have hsz : szSub (szSub CHUNK_SIZE W.length) 1 = 255 - W.length := by
          rw [szSub_eq CHUNK_SIZE W.length (by simp [SIZE_MOD, CHUNK_SIZE])
            (by simp only [CHUNK_SIZE]; omega)]
          rw [szSub_eq _ 1 (by simp only [SIZE_MOD, CHUNK_SIZE]; omega)
            (by simp only [CHUNK_SIZE]; omega)]
          simp only [CHUNK_SIZE]; omega
        have hg1 : Good ({ s with
            trace := Event.write (W.take (min W.length readLen)) :: s.trace }
            : State (List (List Nat)) δ) := ⟨hg.frags, hg.buf⟩
        obtain ⟨s1, h1, hg2, hh2, hs2, hc2, ht2, hq2⟩ :=
          recv_append _ [] 1 (255 - W.length) hg1 ⟨_, rfl⟩ (by omega)
            (by simp only [List.length_nil, CHUNK_SIZE]; omega)
        simp only [List.length_nil, List.nil_append] at h1 hh2 hs2
        have hW1 : (s.sock.flatten.take (255 - W.length)).length ≤ 255 := by
          rw [List.length_take]; omega
        have hk : min (255 - W.length) s.sock.flatten.length
            = (s.sock.flatten.take (255 - W.length)).length := by
          rw [List.length_take]
        obtain ⟨s', t, h', hb', hc', ht'⟩ := ih (readLen - W.length) s1
          (s.sock.flatten.take (255 - W.length)) hg2 hh2 hW1
          (by rw [hs2, ← List.length_append, List.take_append_drop]; omega)
          (by
            rw [List.length_take] at *
            split <;> split at hf <;> omega)
        refine ⟨s', t, ?_, ?_, by rw [hc', hc2], by rw [ht', ht2]⟩
        · conv => lhs; unfold drainLoop
          simp only [bind_apply, hrd, emit, hlt, if_false, hz, ne_eq, not_false_eq_true,
            if_true, hsz, h1, CHECK_CONN_ERR_OK, hk]
          exact h'
        · rw [hb', hq2.to_silent.body]
          simp only
          rw [sinkBody_write, hs2, List.take_append_drop, Nat.min_eq_left (by omega),
            List.take_of_length_le le_rfl, List.append_assoc]
          rw [List.take_append_eq_append_take,
            List.take_of_length_le (show W.length ≤ readLen by omega)]
      · refine ⟨{ s with trace := Event.write (W.take (min W.length readLen)) :: s.trace },
          W.length, ?_, ?_, rfl, rfl⟩
        · conv => lhs; unfold drainLoop
          simp only [bind_apply, hrd, emit, hlt, if_false, hz, pure_apply]
        · simp only
          have : readLen = W.length := by omega
          rw [sinkBody_write, this, Nat.min_self, List.take_left, List.take_of_length_le le_rfl]

end Drain
/-! ## A whole response with a declared length -/

section Whole

variable {δ : Type}

theorem bodyLoop_plain {σ : Type} (T : Transport σ) (cl n fuel trfLen : Nat) (s : State σ δ) :
    bodyLoop T false cl n (fuel + 1) trfLen s
      = (do let _ ← drainLoop T n cl trfLen; pure () : M σ δ Unit) s := by
  conv => lhs; unfold bodyLoop
  simp

/-- The response engine on a 200 status line, a block of conforming header lines that
leaves the framing `(N, false)`, the blank line and at least `N` body bytes: it
returns `OK` and the sink has received the first `N` body bytes. -/
theorem receiveResponse_content_length (fuel : Nat) (s : State (List (List Nat)) δ)
    (sl : List Nat) (hs : List (List Nat)) (body rest : List Nat) (N : Nat) (hg : Good s)
    (hstream : s.sock.flatten = sl ++ CRLF ++ (block hs ++ (CRLF ++ body)))
    (h0 : (0 : Nat) ∉ sl) (hcr : ¬ CRLF <:+: sl) (hfit : sl.length + 2 ≤ 255)
    (hscan : scanStatusLine sl = .value 200 rest)
    (hconf : ∀ h ∈ hs, Conforming h) (hframe : blockFraming hs (0, false) = (N, false))
    (hbody : N ≤ body.length) (hfuel : 2 * hs.length + 2 ≤ fuel ∧ 2 * N + 2 ≤ fuel) :
    ∃ s', receiveResponse streamTransport fuel s = .ret .OK s' ∧
      sinkBody s'.trace = sinkBody s.trace ++ body.take N ∧ s'.code = 200 := by
  -- status line
  obtain ⟨s2, h2, hg2, hh2, hs2, -, ht2, hq2⟩ := statusLine_read s hg
  have hlen : min 255 s.sock.flatten.length = (s.sock.flatten.take 255).length := by
    rw [List.length_take]
  rw [hlen] at h2
  obtain ⟨hstr, hline⟩ := first_line sl (block hs ++ (CRLF ++ body)) h0 hcr hfit
  rw [← hstream] at hstr hline
  rw [← hline] at hscan
  obtain ⟨s3, h3, hc3, hs3, ht3, htr3, hl3, hh3⟩ :=
    (parseStatusLine_found streamTransport s2 _ _ hg2.buf hh2 hstr).2.2.2 _ hscan
  have hst : statusLine streamTransport s = .cont ((s.sock.flatten.take 255).length
      - (sl.length + 2)) s3 := by rw [h2, h3]
  -- headers
  have hw3 : Window s3 ((s.sock.flatten.take 255).drop (sl.length + 2))
      (block hs ++ (CRLF ++ body)) := by
    refine ⟨⟨by rw [hs3]; exact hg2.frags, hl3⟩, hh3, ?_⟩
    rw [hs3, hs2]
    have hb := (strstr_some_bound _ _ _ hstr).1
    have hcl := (cstr_isPre (s.sock.flatten.take 255)).length_le
    simp only [CRLF, List.length_cons, List.length_nil] at hb
    rw [← List.drop_append_of_le_length (by omega), List.take_append_drop, hstream]
    have hl : (sl ++ CRLF).length = sl.length + 2 := by simp [CRLF]
    rw [drop_append_len _ _ _ hl]
  obtain ⟨s4, W4, h4, hw4, hc4, ht4, hq4⟩ := headers_run hs body s3 _ (0, false) fuel hw3 hconf
    hfuel.1
  rw [hframe] at h4
  simp only [List.length_drop] at h4
  -- body
  have hW4 := holds_length hw4.holds hw4.good.buf
  obtain ⟨fuel', hf'⟩ : ∃ fuel', fuel = fuel' + 1 := ⟨fuel - 1, by omega⟩
  obtain ⟨s5, t, h5, hb5, hc5, ht5⟩ := drain_run fuel N s4 W4 hw4.good hw4.holds.has hW4
    (by rw [← List.length_append, hw4.stream]; exact hbody)
    (by split <;> omega)
  rw [hw4.stream] at hb5
  refine ⟨{ s5 with sock := streamTransport.close s5.sock, trace := .sockClose :: s5.trace },
    ?_, ?_, ?_⟩
  · have hb : bodyLoop streamTransport false N fuel (fuel' + 1) W4.length s4
        = .cont () s5 := by
      rw [bodyLoop_plain]
      simp only [bind_apply, h5, pure_apply]
    rw [← hf'] at hb
    unfold receiveResponse
    simp only [bind_apply, hst, h4, hb]
    rfl
  · have e : sinkBody (Event.sockClose :: s5.trace) = sinkBody s5.trace := by
      simp [sinkBody, sinkWrites]
    simp only
    rw [e, hb5, hq4.body]
    have : sinkBody s3.trace = sinkBody s.trace := by
      rw [htr3]; exact hq2.to_silent.body
    rw [this]
  · simp only
    rw [hc5, hc4, hc3]

end Whole
/-! ## Claim C2: a body with a declared length -/

section ContentLength

variable {δ : Type}

/-- The status line format on `HTTP/<major>.<minor> <code>` followed by something
that does not go on with a digit. -/
theorem scanStatusLine_statusText (major minor code tail : List Nat)
    (hmajor : major ≠ [] ∧ ∀ c ∈ major, isdigit c = true)
    (hminor : minor ≠ [] ∧ ∀ c ∈ minor, isdigit c = true)
    (hcode : code ≠ [] ∧ ∀ c ∈ code, isdigit c = true)
    (htail : ∀ c, tail.head? = some c → isdigit c = false)
    (hval : decVal code < 2 ^ 31) :
    scanStatusLine (statusText major minor code tail) = .value (decVal code) tail := by
  unfold scanStatusLine statusText
  have hsw : startsWith ([72, 84, 84, 80, 47] ++ major ++ [46] ++ minor ++ [32] ++ code ++ tail)
      [72, 84, 84, 80, 47] = true := by
    rw [startsWith_iff]
    simp only [List.append_assoc]
    exact List.prefix_append _ _
  have hd : ([72, 84, 84, 80, 47] ++ major ++ [46] ++ minor ++ [32] ++ code ++ tail).drop 5
      = major ++ (46 :: (minor ++ (32 :: (code ++ tail)))) := by
    simp
  have hk1 : skip_d (major ++ (46 :: (minor ++ (32 :: (code ++ tail)))))
      = some (46 :: (minor ++ (32 :: (code ++ tail)))) :=
    skip_d_digits major _ hmajor.1 hmajor.2 (by intro c hc; simp at hc; subst hc; decide)
  have hk2 : skip_d (minor ++ (32 :: (code ++ tail))) = some (32 :: (code ++ tail)) :=
    skip_d_digits minor _ hminor.1 hminor.2 (by intro c hc; simp at hc; subst hc; decide)
  obtain ⟨d, code', rfl⟩ := List.exists_cons_of_ne_nil hcode.1
  have hd0 : isdigit d = true := hcode.2 d (List.mem_cons_self _ _)
  have hsp : (32 :: ((d :: code') ++ tail)).dropWhile isspace = (d :: code') ++ tail := by
    rw [List.dropWhile_cons, if_pos (by decide), List.cons_append, List.dropWhile_cons,
      if_neg (by rw [isdigit_not_space hd0]; decide)]
  simp only [hsw, if_true, hd, hk1, hk2, hsp]
  exact scanDecimal_digits _ _ (d :: code') tail (by simp) hcode.2 htail
    (by have : (0 : Int) ≤ (decVal (d :: code') : Int) := Int.natCast_nonneg _
        omega)
    (by omega)

theorem isdigit_props {c : Nat} (h : isdigit c = true) :
    c ≠ 0 ∧ c ≠ 13 ∧ c ≠ 10 ∧ c ≠ 58 := by
  simp only [isdigit, Bool.and_eq_true, decide_eq_true_eq] at h
  omega

/-- The header format on the line `Content-Length: <digits>`. -/
theorem scanHeader_contentLength (digits : List Nat) (hne : digits ≠ [])
    (hd : ∀ c ∈ digits, isdigit c = true) (hlen : digits.length ≤ 31) :
    scanHeader (txtContentLengthColon ++ digits) = some (keyContentLength, digits) := by
  have e : txtContentLengthColon ++ digits = keyContentLength ++ (58 :: 32 :: digits) := by
    simp [txtContentLengthColon, keyContentLength]
  obtain ⟨d, ds, rfl⟩ := List.exists_cons_of_ne_nil hne
  have hd0 := hd d (List.mem_cons_self _ _)
  have h1 : scanSet31 (fun c => decide (c ≠ 58)) (keyContentLength ++ (58 :: 32 :: d :: ds))
      = some (keyContentLength, 58 :: 32 :: d :: ds) := by
    unfold scanSet31
    have htw : (keyContentLength ++ (58 :: 32 :: d :: ds)).takeWhile
        (fun c => decide (c ≠ 58)) = keyContentLength :=
      takeWhile_append_stop _ _ _ (by decide) (by intro c hc; simp at hc; subst hc; decide)
    simp only [htw]
    have : keyContentLength.take 31 = keyContentLength := by decide
    rw [this]
    simp [keyContentLength]
  have h2 : (32 :: d :: ds).dropWhile isspace = d :: ds := by
    rw [List.dropWhile_cons, if_pos (by decide), List.dropWhile_cons,
      if_neg (by rw [isdigit_not_space hd0]; decide)]
  have h3 : scanSet31 (fun c => decide (c ≠ 13) && decide (c ≠ 10)) (d :: ds)
      = some (d :: ds, []) := by
    unfold scanSet31
    have htw : (d :: ds).takeWhile (fun c => decide (c ≠ 13) && decide (c ≠ 10)) = d :: ds := by
      rw [List.takeWhile_eq_self_iff]
      intro c hc
      have := isdigit_props (hd c hc)
      simp [this.2.1, this.2.2.1]
    simp only [htw]
    rw [List.take_of_length_le hlen]
    simp
  rw [e]
  unfold scanHeader
  simp only [h1, if_true, h2, h3]

theorem scan_d_digits (digits : List Nat) (hne : digits ≠ [])
    (hd : ∀ c ∈ digits, isdigit c = true) (hval : decVal digits < 2 ^ 31) :
    scan_d digits = .value (decVal digits) [] := by
  have := scanDecimal_digits (-(2 ^ 31)) (2 ^ 31 - 1) digits [] hne hd (by simp)
    (by have : (0 : Int) ≤ (decVal digits : Int) := Int.natCast_nonneg _
        omega)
    (by omega)
  simpa [scan_d] using this

theorem lineFraming_contentLength (digits : List Nat) (f : Nat × Bool) (hne : digits ≠ [])
    (hd : ∀ c ∈ digits, isdigit c = true) (hlen : digits.length ≤ 31)
    (hval : decVal digits < 2 ^ 31) :
    lineFraming (txtContentLengthColon ++ digits) f = (decVal digits, f.2) := by
  unfold lineFraming framing
  rw [scanHeader_contentLength digits hne hd hlen]
  simp only [if_true, scan_d_digits digits hne hd hval]
  congr 1
  have : ((decVal digits : Int) % (SIZE_MOD : Int)) = (decVal digits : Int) := by
    apply Int.emod_eq_of_lt (Int.natCast_nonneg _)
    simp only [SIZE_MOD]
    have : (decVal digits : Int) < 2 ^ 31 := by exact_mod_cast hval
    norm_num at this ⊢
    omega
  rw [this]
  simp

theorem conforming_contentLength (digits : List Nat) (hne : digits ≠ [])
    (hd : ∀ c ∈ digits, isdigit c = true) (hlen : digits.length ≤ 31)
    (hval : decVal digits < 2 ^ 31) : Conforming (txtContentLengthColon ++ digits) := by
  have h13 : (13 : Nat) ∉ txtContentLengthColon ++ digits := by
    intro hm
    rcases List.mem_append.mp hm with h | h
    · revert h; decide
    · exact (isdigit_props (hd _ h)).2.1 rfl
  refine ⟨by simp [txtContentLengthColon], ?_, ?_, ?_, ?_⟩
  · intro hm
    rcases List.mem_append.mp hm with h | h
    · revert h; decide
    · exact (isdigit_props (hd _ h)).1 rfl
  · intro hi
    apply h13
    exact hi.subset (by simp [CRLF])
  · simp only [List.length_append, txtContentLengthColon, List.length_cons, List.length_nil]
    omega
  · refine ⟨_, _, scanHeader_contentLength digits hne hd hlen, fun _ => ?_⟩
    rw [scan_d_digits digits hne hd hval]
    simp

theorem lineFraming_neutral (line : List Nat) (f : Nat × Bool) (h : Neutral line) :
    lineFraming line f = f := by
  unfold lineFraming
  cases hs : scanHeader line with
  | none => rfl
  | some kv =>
    obtain ⟨key, value⟩ := kv
    obtain ⟨h1, h2⟩ := h key value hs
    unfold framing
    simp only [h1, if_false]
    by_cases ht : key = keyTransferEncoding
    · obtain ⟨h3, h4⟩ := h2 ht
      simp [ht, h3, h4]
    · simp [ht]

theorem blockFraming_neutral (lines : List (List Nat)) (f : Nat × Bool)
    (h : ∀ l ∈ lines, Neutral l) : blockFraming lines f = f := by
  induction lines generalizing f with
  | nil => rfl
  | cons l ls ih =>
    simp only [blockFraming, List.foldl_cons]
    rw [lineFraming_neutral l f (h l (List.mem_cons_self _ _))]
    exact ih f (fun x hx => h x (List.mem_cons_of_mem _ hx))

end ContentLength
/-! ## A stream that ends early -/

section Starved

variable {δ : Type}

theorem isOutOfFuel_iff {S α : Type} (r : Res S α) : r.isOutOfFuel = true ↔ r = .outOfFuel := by
  cases r <;> simp [Res.isOutOfFuel]

theorem cstr_prefix (W r : List Nat) : cstr W <+: cstr (W ++ r) := by
  induction W with
  | nil => exact List.nil_prefix
  | cons a W ih =>
    unfold cstr at *
    by_cases h : a = 0
    · simp [List.takeWhile, h]
    · simp only [List.cons_append, List.takeWhile, ne_eq, h, not_false_eq_true, decide_True]
      exact (List.prefix_cons_inj a).mpr ih

theorem strstr_none_of_prefix (a b p : List Nat) (hab : a <+: b) (h : strstr b p = none) :
    strstr a p = none := by
  rw [strstr_eq_none_iff] at *
  intro hp
  exact h (hp.trans hab.isInfix)

/-- The header loop on a stream that ends before the next CRLF, inside the buffer:
every round tops the buffer up with what is left, finds no CRLF, and goes round
again. -/
theorem headerLoop_starved (X : List Nat) (hX : strstr (cstr X) CRLF = none)
    (hlen : X.length < 255) (cl : Nat) (ch : Bool) (fuel : Nat) :
    ∀ (s : State (List (List Nat)) δ) (W : List Nat), Window s W X →
      headerLoop streamTransport fuel W.length cl ch s = .outOfFuel := by
  induction fuel with
  | zero => intro s W _; rfl
  | succ fuel ih =>
    intro s W hw
    have hWX : W <+: X := ⟨_, hw.stream⟩
    have hWl : W.length < 255 := lt_of_le_of_lt hWX.length_le hlen
    have hWs : strstr (cstr W) CRLF = none := by
      obtain ⟨r, hr⟩ := hWX
      exact strstr_none_of_prefix _ _ _ (hr ▸ cstr_prefix W r) hX
    obtain ⟨s1, hp, hstep⟩ := headerLoop_refill s W hw.good hw.holds hWs hWl
    rw [hstep]
    refine ih s1 _ ⟨hp.good, hp.holds, ?_⟩
    rw [hp.sock, List.append_assoc, List.take_append_drop]
    exact hw.stream

/-- The header loop over conforming lines after which the stream ends before the blank
line: it never leaves the loop. -/
theorem headers_starved (X : List Nat) (hX : strstr (cstr X) CRLF = none)
    (hlen : X.length < 255) (hs : List (List Nat)) :
    ∀ (fuel : Nat) (s : State (List (List Nat)) δ) (W : List Nat) (f : Nat × Bool),
      Window s W (block hs ++ X) → (∀ h ∈ hs, Conforming h) →
      headerLoop streamTransport fuel W.length f.1 f.2 s = .outOfFuel := by
  induction hs with
  | nil =>
    intro fuel s W f hw _
    have hb : block [] ++ X = X := by simp [block]
    rw [hb] at hw
    exact headerLoop_starved X hX hlen f.1 f.2 fuel s W hw
  | cons h hs ih =>
    intro fuel s W f hw hconf
    have hc := hconf h (List.mem_cons_self _ _)
    rw [block_cons] at hw
    have hpre : W <+: h ++ CRLF ++ (block hs ++ X) := ⟨_, hw.stream⟩
    have hliw := line_in_window h _ W hc.no_nul hc.no_crlf hpre
    obtain ⟨j, s1, W1, hj, hw1, hn1, hc1, ht1, hq1, hstep⟩ :=
      headerLoop_ensure s W _ (h.length + 2) hw hc.fits (by simp [CRLF]) hliw.2
    have hpre1 : W1 <+: h ++ CRLF ++ (block hs ++ X) := ⟨_, hw1.stream⟩
    obtain ⟨hs1, hline⟩ := (line_in_window h _ W1 hc.no_nul hc.no_crlf hpre1).1 hn1
    obtain ⟨key, value, hsc, hov⟩ := hc.scans
    have hne : h.length ≠ 0 := by
      have := hc.ne
      intro h0
      exact this (List.length_eq_zero.mp h0)
    obtain ⟨s2, hp2, hstep2⟩ := headerLoop_line_ok streamTransport s1 W1 h.length key value
      f.1 f.2 hw1.good.buf hw1.holds hs1 hne (by rw [hline]; exact hsc) hov
    have hw2 : Window s2 (W1.drop (h.length + 2)) (block hs ++ X) := by
      refine ⟨⟨?_, hp2.len⟩, hp2.holds, ?_⟩
      · rw [hp2.sock]; exact hw1.good.frags
      · rw [hp2.sock]
        have := congrArg (List.drop (h.length + 2)) hw1.stream
        rw [List.drop_append_of_le_length hn1] at this
        rw [this]
        have hl : (h ++ CRLF).length = h.length + 2 := by simp [CRLF]
        rw [drop_append_len _ _ _ hl]
    by_cases hf : fuel < 1 + j
    · -- the budget ends before the line is dropped
      rcases Nat.eq_zero_or_pos fuel with h0 | hpos
      · subst h0; rfl
      · have hj1 : j = 1 := by omega
        have hf1 : fuel = 0 + j := by omega
        rw [hf1, hstep]
        rfl
    · obtain ⟨fuel', rfl⟩ : ∃ fuel', fuel = fuel' + 1 + j := ⟨fuel - 1 - j, by omega⟩
      rw [hstep, hstep2]
      have hl : W1.length - (h.length + 2) = (W1.drop (h.length + 2)).length := by simp
      rw [hl]
      exact ih fuel' s2 _ (framing key value f.1 f.2) hw2
        (fun x hx => hconf x (List.mem_cons_of_mem _ hx))

/-- The drain loop when the stream holds fewer bytes than are still to be read: every
round reads what is left, then nothing, and goes round again. -/
theorem drainLoop_starved (fuel : Nat) :
    ∀ (readLen trfLen : Nat) (s : State (List (List Nat)) δ), Good s → trfLen ≤ 255 →
      trfLen + s.sock.flatten.length < readLen →
      drainLoop streamTransport fuel readLen trfLen s = .outOfFuel := by
  induction fuel with
  | zero => intro _ _ _ _ _ _; rfl
  | succ fuel ih =>
    intro readLen trfLen s hg ht hlt
    have hrd : readBuf (min trfLen readLen) s = .cont (s.buf.take (min trfLen readLen)) s := by
      unfold readBuf
      rw [if_pos (by simp only [CHUNK_SIZE]; omega)]
    have hsz : szSub (szSub CHUNK_SIZE trfLen) 1 = 255 - trfLen := by
      rw [szSub_eq CHUNK_SIZE trfLen (by simp [SIZE_MOD, CHUNK_SIZE])
        (by simp only [CHUNK_SIZE]; omega)]
      rw [szSub_eq _ 1 (by simp only [SIZE_MOD, CHUNK_SIZE]; omega)
        (by simp only [CHUNK_SIZE]; omega)]
      simp only [CHUNK_SIZE]; omega
    have hg1 : Good ({ s with
        trace := Event.write (s.buf.take (min trfLen readLen)) :: s.trace }
        : State (List (List Nat)) δ) := ⟨hg.frags, hg.buf⟩
    obtain ⟨s1, h1, hp1⟩ := recv_stream 0 1 (255 - trfLen) _ hg1 (by omega)
      (by simp only [CHUNK_SIZE]; omega)
    have hn : ¬ readLen < trfLen := by omega
    have hz : readLen - trfLen ≠ 0 := by omega
    conv => lhs; unfold drainLoop
    simp only [bind_apply, hrd, emit, hn, if_false, hz, ne_eq, not_false_eq_true,
      if_true, hsz, h1, CHECK_CONN_ERR_OK]
    apply ih _ _ s1 hp1.good (by omega)
    rw [hp1.sock]
    simp only [List.length_drop]
    omega

end Starved
/-! ## Responses that end early -/

section Truncated

variable {δ : Type}

/-- The first read and a 200 status line: the engine goes on with the rest of the
stream, the status code stored and nothing written to the sink. -/
theorem statusLine_ok (s : State (List (List Nat)) δ) (sl rest X : List Nat) (hg : Good s)
    (hstream : s.sock.flatten = sl ++ CRLF ++ X)
    (h0 : (0 : Nat) ∉ sl) (hcr : ¬ CRLF <:+: sl) (hfit : sl.length + 2 ≤ 255)
    (hscan : scanStatusLine sl = .value 200 rest) :
    ∃ s3 W, statusLine streamTransport s = .cont W.length s3 ∧ Window s3 W X ∧
      s3.code = 200 ∧ s3.timeout = s.timeout ∧ Silent s s3 := by
  obtain ⟨s2, h2, hg2, hh2, hs2, -, ht2, hq2⟩ := statusLine_read s hg
  have hlen : min 255 s.sock.flatten.length = (s.sock.flatten.take 255).length := by
    rw [List.length_take]
  rw [hlen] at h2
  obtain ⟨hstr, hline⟩ := first_line sl X h0 hcr hfit
  rw [← hstream] at hstr hline
  rw [← hline] at hscan
  obtain ⟨s3, h3, hc3, hs3, ht3, htr3, hl3, hh3⟩ :=
    (parseStatusLine_found streamTransport s2 _ _ hg2.buf hh2 hstr).2.2.2 _ hscan
  refine ⟨s3, (s.sock.flatten.take 255).drop (sl.length + 2), ?_,
    ⟨⟨by rw [hs3]; exact hg2.frags, hl3⟩, hh3, ?_⟩, hc3, by rw [ht3, ht2], ?_⟩
  · rw [h2, h3]
    simp only [List.length_drop]
  · rw [hs3, hs2]
    have hb := (strstr_some_bound _ _ _ hstr).1
    have hcl := (cstr_isPre (s.sock.flatten.take 255)).length_le
    simp only [CRLF, List.length_cons, List.length_nil] at hb
    rw [← List.drop_append_of_le_length (by omega), List.take_append_drop, hstream]
    have hl : (sl ++ CRLF).length = sl.length + 2 := by simp [CRLF]
    rw [drop_append_len _ _ _ hl]
  · obtain ⟨es, he, hn⟩ := hq2.to_silent
    exact ⟨es, by rw [htr3]; exact he, hn⟩

/-- The response engine on a 200 status line and conforming header lines after which
the stream ends before the blank line: whatever the iteration budget, the engine is
still in the header loop when the budget is used up. -/
theorem receiveResponse_headers_truncated (fuel : Nat) (s : State (List (List Nat)) δ)
    (sl rest : List Nat) (hs : List (List Nat)) (X : List Nat) (hg : Good s)
    (hstream : s.sock.flatten = sl ++ CRLF ++ (block hs ++ X))
    (h0 : (0 : Nat) ∉ sl) (hcr : ¬ CRLF <:+: sl) (hfit : sl.length + 2 ≤ 255)
    (hscan : scanStatusLine sl = .value 200 rest)
    (hconf : ∀ h ∈ hs, Conforming h)
    (hX : strstr (cstr X) CRLF = none) (hlen : X.length < 255) :
    receiveResponse streamTransport fuel s = .outOfFuel := by
  obtain ⟨s3, W, h3, hw3, -, -, -⟩ := statusLine_ok s sl rest _ hg hstream h0 hcr hfit hscan
  have h4 := headers_starved X hX hlen hs fuel s3 W (0, false) hw3 hconf
  unfold receiveResponse
  simp only [bind_apply, h3, h4]

/-- The response engine on a 200 status line, conforming header lines that leave the
framing `(N, false)`, the blank line, and fewer than `N` body bytes before the stream
ends: once the budget covers the header lines, the engine is still in the drain loop
when the budget is used up. -/
theorem receiveResponse_body_truncated (fuel : Nat) (s : State (List (List Nat)) δ)
    (sl rest : List Nat) (hs : List (List Nat)) (body : List Nat) (N : Nat) (hg : Good s)
    (hstream : s.sock.flatten = sl ++ CRLF ++ (block hs ++ (CRLF ++ body)))
    (h0 : (0 : Nat) ∉ sl) (hcr : ¬ CRLF <:+: sl) (hfit : sl.length + 2 ≤ 255)
    (hscan : scanStatusLine sl = .value 200 rest)
    (hconf : ∀ h ∈ hs, Conforming h) (hframe : blockFraming hs (0, false) = (N, false))
    (hbody : body.length < N) (hfuel : 2 * hs.length + 2 ≤ fuel) :
    receiveResponse streamTransport fuel s = .outOfFuel := by
  obtain ⟨s3, W, h3, hw3, -, -, -⟩ := statusLine_ok s sl rest _ hg hstream h0 hcr hfit hscan
  obtain ⟨s4, W4, h4, hw4, -, -, -⟩ := headers_run hs body s3 W (0, false) fuel hw3 hconf hfuel
  rw [hframe] at h4
  have hW4 := holds_length hw4.holds hw4.good.buf
  have h5 := drainLoop_starved fuel N W4.length s4 hw4.good hW4
    (by rw [← List.length_append, hw4.stream]; exact hbody)
  obtain ⟨fuel', hf'⟩ : ∃ fuel', fuel = fuel' + 1 := ⟨fuel - 1, by omega⟩
  have hb : bodyLoop streamTransport false N fuel (fuel' + 1) W4.length s4 = .outOfFuel := by
    rw [bodyLoop_plain]
    simp only [bind_apply, h5]
  rw [← hf'] at hb
  unfold receiveResponse
  simp only [bind_apply, h3, h4, hb]

theorem connectRequest_get {σ : Type} (T : Transport σ) (fuel : Nat) (url : List Nat)
    (timeout : Nat) (s : State σ δ) :
    connectRequest T none fuel url .HTTP_GET timeout s
      = connectRequest T none 0 url .HTTP_GET timeout s := rfl

end Truncated
/-! ## A chunk-size line that fills the buffer -/

section ChunkLine

variable {δ : Type}

/-- The first read and a 200 status line, with what the buffer and the socket hold
afterwards. -/
theorem statusLine_first_read (s : State (List (List Nat)) δ) (sl rest X : List Nat)
    (hg : Good s) (hstream : s.sock.flatten = sl ++ CRLF ++ X)
    (h0 : (0 : Nat) ∉ sl) (hcr : ¬ CRLF <:+: sl) (hfit : sl.length + 2 ≤ 255)
    (hscan : scanStatusLine sl = .value 200 rest) :
    ∃ s3, statusLine streamTransport s
        = .cont ((s.sock.flatten.take 255).drop (sl.length + 2)).length s3 ∧
      Good s3 ∧ Holds s3 ((s.sock.flatten.take 255).drop (sl.length + 2)) ∧
      s3.sock.flatten = s.sock.flatten.drop 255 ∧ s3.code = 200 ∧
      s3.timeout = s.timeout ∧ Quiet s s3 := by
  obtain ⟨s2, h2, hg2, hh2, hs2, -, ht2, hq2⟩ := statusLine_read s hg
  have hlen : min 255 s.sock.flatten.length = (s.sock.flatten.take 255).length := by
    rw [List.length_take]
  rw [hlen] at h2
  obtain ⟨hstr, hline⟩ := first_line sl X h0 hcr hfit
  rw [← hstream] at hstr hline
  rw [← hline] at hscan
  obtain ⟨s3, h3, hc3, hs3, ht3, htr3, hl3, hh3⟩ :=
    (parseStatusLine_found streamTransport s2 _ _ hg2.buf hh2 hstr).2.2.2 _ hscan
  refine ⟨s3, ?_, ⟨by rw [hs3]; exact hg2.frags, hl3⟩, hh3, by rw [hs3, hs2], hc3,
    by rw [ht3, ht2], ?_⟩
  · rw [h2, h3]
    simp only [List.length_drop]
  · obtain ⟨es, he, hn⟩ := hq2
    exact ⟨es, by rw [htr3]; exact he, hn⟩

/-- The header loop on a header block that is in the buffer up to its blank line: it
drops the lines without a read and ends with the framing they leave. -/
theorem headers_buffered {σ : Type} (T : Transport σ) (hs : List (List Nat))
    (rest : List Nat) :
    ∀ (s : State σ δ) (f : Nat × Bool) (fuel : Nat), s.buf.length = CHUNK_SIZE →
      Holds s (block hs ++ (CRLF ++ rest)) → (∀ h ∈ hs, Conforming h) →
      hs.length + 1 ≤ fuel →
      ∃ s', headerLoop T fuel (block hs ++ (CRLF ++ rest)).length f.1 f.2 s
          = .cont (rest.length, (blockFraming hs f).1, (blockFraming hs f).2) s' ∧
        Holds s' rest ∧ s'.buf.length = CHUNK_SIZE ∧ s'.sock = s.sock ∧
        s'.code = s.code ∧ s'.timeout = s.timeout ∧ Silent s s' := by
  induction hs with
  | nil =>
    intro s f fuel hl hh _ hfuel
    have hX : block [] ++ (CRLF ++ rest) = [] ++ CRLF ++ rest := by simp [block]
    rw [hX] at hh ⊢
    have hs1 := ((line_in_window [] rest ([] ++ CRLF ++ rest) (by simp) (by simp [CRLF])
      List.prefix_rfl).1 (by simp [CRLF])).1
    obtain ⟨fuel', rfl⟩ : ∃ fuel', fuel = fuel' + 1 := ⟨fuel - 1, by omega⟩
    obtain ⟨s2, h2, hbo2, hh2⟩ := headerLoop_end T s _ hl hh (by simpa using hs1) fuel' f.1 f.2
    refine ⟨s2, ?_, ?_, hbo2.len hl, hbo2.sock, hbo2.code, hbo2.timeout, hbo2.buf_silent⟩
    · rw [h2]
      simp [blockFraming, CRLF]
    · simpa [CRLF] using hh2
  | cons h hs ih =>
    intro s f fuel hl hh hconf hfuel
    have hc := hconf h (List.mem_cons_self _ _)
    rw [block_cons] at hh ⊢
    obtain ⟨hs1, hline⟩ := (line_in_window h _ (h ++ CRLF ++ (block hs ++ (CRLF ++ rest)))
      hc.no_nul hc.no_crlf List.prefix_rfl).1 (by simp [CRLF])
    obtain ⟨key, value, hsc, hov⟩ := hc.scans
    have hne : h.length ≠ 0 := by
      have := hc.ne
      intro h0
      exact this (List.length_eq_zero.mp h0)
    obtain ⟨s2, hp2, hstep2⟩ := headerLoop_line_ok T s _ h.length key value
      f.1 f.2 hl hh hs1 hne (by rw [hline]; exact hsc) hov
    have hlen : (h ++ CRLF).length = h.length + 2 := by simp [CRLF]
    have hdrop : (h ++ CRLF ++ (block hs ++ (CRLF ++ rest))).drop (h.length + 2)
        = block hs ++ (CRLF ++ rest) := drop_append_len _ _ _ hlen
    obtain ⟨fuel', rfl⟩ : ∃ fuel', fuel = fuel' + 1 := ⟨fuel - 1, by omega⟩
    simp only [List.length_cons] at hfuel
    have hh2 := hp2.holds
    rw [hdrop] at hh2
    obtain ⟨s3, h3, hh3, hl3, hs3, hc3, ht3, hq3⟩ := ih s2 (framing key value f.1 f.2) fuel'
      hp2.len hh2 (fun x hx => hconf x (List.mem_cons_of_mem _ hx)) (by omega)
    have hfr : blockFraming (h :: hs) f = blockFraming hs (framing key value f.1 f.2) := by
      simp [blockFraming, lineFraming, hsc]
    refine ⟨s3, ?_, hh3, hl3, by rw [hs3, hp2.sock], by rw [hc3, hp2.code],
      by rw [ht3, hp2.timeout], hp2.silent.silent_trans hq3⟩
    rw [hstep2, hfr]
    have hl2 : (h ++ CRLF ++ (block hs ++ (CRLF ++ rest))).length - (h.length + 2)
        = (block hs ++ (CRLF ++ rest)).length := by
      have := congrArg List.length hdrop
      rw [List.length_drop] at this
      exact this
    rw [hl2]
    exact h3

theorem chunkScan_no_cr (bound : Nat) :
    ∀ (rest : List Nat) (pos : Nat), (∀ c ∈ rest.take (bound - pos), c ≠ 13) →
      bound - pos ≤ rest.length → ∃ p, chunkScan bound rest pos = some p ∧ bound ≤ p := by
  intro rest
  induction rest with
  | nil =>
    intro pos _ hlen
    simp only [List.length_nil, Nat.le_zero] at hlen
    refine ⟨pos, ?_, by omega⟩
    unfold chunkScan
    rw [if_neg (by omega)]
  | cons c rest ih =>
    intro pos hno hlen
    unfold chunkScan
    by_cases hp : pos < bound
    · have hc : c ≠ 13 := by
        apply hno
        obtain ⟨k, hk⟩ : ∃ k, bound - pos = k + 1 := ⟨bound - pos - 1, by omega⟩
        rw [hk]
        simp
      rw [if_pos hp, if_neg hc]
      apply ih
      · intro x hx
        apply hno
        obtain ⟨k, hk⟩ : ∃ k, bound - pos = k + 1 := ⟨bound - pos - 1, by omega⟩
        rw [hk, List.take_succ_cons]
        have : bound - (pos + 1) = k := by omega
        rw [this] at hx
        exact List.mem_cons_of_mem _ hx
      · simp only [List.length_cons] at hlen
        omega
    · rw [if_neg hp]
      exact ⟨pos, rfl, by omega⟩

/-- The chunked body loop on a stream without a carriage return: every round finds no
CRLF in the buffer and asks for more, also when there is no room left, in which
case the read is empty and the round repeats. -/
theorem bodyLoop_no_cr (cl n fuel : Nat) :
    ∀ (s : State (List (List Nat)) δ) (W : List Nat), Good s → Has s W → 2 ≤ W.length →
      W.length ≤ 255 → (∀ c ∈ W, c ≠ 13) → (∀ c ∈ s.sock.flatten, c ≠ 13) →
      bodyLoop streamTransport true cl n fuel W.length s = .outOfFuel := by
  induction fuel with
  | zero => intro _ _ _ _ _ _ _ _; rfl
  | succ fuel ih =>
    intro s W hg hh h2 h255 hW hS
    have hsz : szSub W.length 2 = W.length - 2 :=
      szSub_eq _ _ (by simp only [SIZE_MOD]; omega) (by omega)
    obtain ⟨junk, hj⟩ := hh
    obtain ⟨p, hp, hbp⟩ := chunkScan_no_cr (W.length - 2) (s.buf.drop 1) 1
      (by
        intro c hc
        apply hW
        rw [hj, List.drop_append_of_le_length (by omega),
          List.take_append_of_le_length (by simp only [List.length_drop]; omega)] at hc
        exact List.mem_of_mem_drop (List.mem_of_mem_take hc))
      (by
        rw [hj]
        simp only [List.length_drop, List.length_append]
        omega)
    obtain ⟨s1, h1, hg1, hh1, hs1, -, -, -⟩ :=
      recv_append s W 0 (CHUNK_SIZE - W.length - 1) hg ⟨junk, hj⟩ (Or.inl (Nat.zero_le _))
        (by simp only [CHUNK_SIZE]; omega)
    have hlt : W.length < CHUNK_SIZE := by simp only [CHUNK_SIZE]; omega
    have hlen : W.length + min (CHUNK_SIZE - W.length - 1) s.sock.flatten.length
        = (W ++ s.sock.flatten.take (CHUNK_SIZE - W.length - 1)).length := by
      simp only [List.length_append, List.length_take]
    conv => lhs; unfold bodyLoop
    simp only [if_true, bind_apply, getBuf, hsz, hp, hbp, hlt, h1, CHECK_CONN_ERR_OK, hlen]
    apply ih s1 _ hg1 hh1
    · simp only [List.length_append]; omega
    · simp only [List.length_append, List.length_take, CHUNK_SIZE]; omega
    · intro c hc
      rcases List.mem_append.mp hc with h | h
      · exact hW c h
      · exact hS c (List.mem_of_mem_take h)
    · intro c hc
      rw [hs1] at hc
      exact hS c (List.mem_of_mem_drop hc)

end ChunkLine
/-! ## What `parseURL` returns -/

theorem strstr_some_first (s pat : List Nat) (p : Nat) (h : strstr s pat = some p) :
    ∀ j, j < p → ¬ pat <+: s.drop j := by
  induction s generalizing p with
  | nil =>
    simp only [strstr] at h
    split at h
    · cases h; intro j hj; omega
    · cases h
  | cons c s ih =>
    simp only [strstr] at h
    split at h
    · cases h; intro j hj; omega
    · rename_i hs
      cases hr : strstr s pat with
      | none => rw [hr] at h; cases h
      | some q =>
        rw [hr] at h
        simp only [Option.map_some', Option.some.injEq] at h
        subst h
        intro j hj
        cases j with
        | zero =>
          rw [List.drop_zero, ← startsWith_iff]
          exact hs
        | succ j =>
          rw [List.drop_succ_cons]
          exact ih q hr j (by omega)

theorem strchr_some (s : List Nat) (c k : Nat) (h : strchr s c = some k) :
    k < s.length ∧ s.drop k = c :: s.drop (k + 1) := by
  induction s generalizing k with
  | nil => simp [strchr] at h
  | cons a s ih =>
    simp only [strchr] at h
    split at h
    · rename_i hc
      cases h
      subst hc
      simp
    · cases hr : strchr s c with
      | none => rw [hr] at h; cases h
      | some q =>
        rw [hr] at h
        simp only [Option.map_some', Option.some.injEq] at h
        subst h
        have := ih q hr
        exact ⟨by simp; omega, by simpa using this.2⟩

theorem strchr_zero_iff (s : List Nat) (c : Nat) : strchr s c = some 0 ↔ s.head? = some c := by
  cases s with
  | nil => simp [strchr]
  | cons a s =>
    simp only [strchr, List.head?_cons, Option.some.injEq]
    constructor
    · intro h
      split at h
      · assumption
      · cases hr : strchr s c with
        | none => rw [hr] at h; cases h
        | some q => rw [hr] at h; simp at h
    · intro h
      rw [if_pos h]

theorem outcome_bind_ok {α β : Type} {m : Outcome α} {f : α → Outcome β} {b : β}
    (h : Outcome.bind m f = .ok b) : ∃ a, m = .ok a ∧ f a = .ok b := by
  cases m with
  | ok a => exact ⟨a, rfl, h⟩
  | err e => cases h
  | undefined => cases h

theorem outcome_bind_val {α β : Type} (a : α) (f : α → Outcome β) :
    Outcome.bind (.ok a) f = f a := rfl

theorem outcome_bind_err {α β : Type} (e : NetErr) (f : α → Outcome β) :
    Outcome.bind (.err e) f = .err e := rfl

theorem outcome_bind_undefined {α β : Type} (f : α → Outcome β) :
    Outcome.bind (.undefined) f = .undefined := rfl

theorem pathLen_pos (fragOff pathOff L : Nat) (hf : fragOff < L) (hp : pathOff < L)
    (hne : fragOff ≠ pathOff) (hL : L + 1 < SIZE_MOD)
    (hund : ¬ L + 1 < pathOff + (fragOff + SIZE_MOD - pathOff) % SIZE_MOD) :
    0 < (fragOff + SIZE_MOD - pathOff) % SIZE_MOD := by
  simp only [SIZE_MOD] at *
  omega

theorem pathLen_lt (pathOff pathLen L mp : Nat) (hL : L + 3 < SIZE_MOD)
    (hund : ¬ L + 1 < pathOff + pathLen) (hmp : ¬ mp < (pathLen + 1) % SIZE_MOD) :
    pathLen < mp := by
  simp only [SIZE_MOD] at *
  omega

/-- What a successful `parseURL` has computed: the scheme length `k` is where the first
`://` is, the host is a prefix of the text `H` after it, as long as the offset of
the first `/` or the positive offset of the first `:`, and the path starts at the
first `/` of `H` and is not empty. -/
theorem parseURL_ok_shape (url : List Nat) (ms mh mp : Nat) (u : ParsedURL)
    (hlen : url.length < SIZE_MOD) (h : parseURL url ms mh mp = .ok u) :
    ∃ k H pathOff hostLen pathLen, strstr url [58, 47, 47] = some k ∧
      url.drop (k + 3) = H ∧ strchr H 47 = some pathOff ∧
      (hostLen = pathOff ∨ (0 < hostLen ∧ hostLen < H.length)) ∧ 0 < pathLen ∧
      u.scheme = url.take k ∧ u.host = H.take hostLen ∧
      u.path = (H.drop pathOff).take pathLen ∧ hostLen < mh ∧ pathLen < mp := by
  unfold parseURL at h
  cases hs : strstr url [58, 47, 47] with
  | none =>
    simp only [hs, bind, pure, outcome_bind_val, outcome_bind_err, outcome_bind_undefined] at h
    cases h
  | some k =>
    simp only [hs, bind, pure, outcome_bind_val, outcome_bind_err, outcome_bind_undefined] at h
    obtain ⟨hk, -⟩ := strstr_some_bound _ _ _ hs
    simp only [List.length_cons, List.length_nil] at hk
    generalize hH : url.drop (k + 3) = H at h
    have hHl : H.length + 3 ≤ url.length := by rw [← hH, List.length_drop]; omega
    split at h
    · cases h
    obtain ⟨⟨hl0, port⟩, hc, h⟩ := outcome_bind_ok h
    have hcol : hl0 = 0 ∨ strchr H 58 = some hl0 := by
      cases hc58 : strchr H 58 with
      | none =>
        rw [hc58] at hc
        cases hc
        exact Or.inl rfl
      | some portOff =>
        rw [hc58] at hc
        simp only at hc
        split at hc
        · cases hc; exact Or.inr rfl
        · cases hc
        · cases hc
    simp only at h
    obtain ⟨hostLen, hhl, h⟩ := outcome_bind_ok h
    split at h
    · cases h
    rename_i hmh
    cases hpth : strchr H 47 with
    | none => rw [hpth] at h; cases h
    | some pathOff =>
      rw [hpth] at h hhl
      simp only at h hhl
      obtain ⟨hpl, hpd⟩ := strchr_some _ _ _ hpth
      have hhost : hostLen = pathOff ∨ (0 < hostLen ∧ hostLen < H.length) := by
        split at hhl
        · cases hhl; exact Or.inl rfl
        · rename_i h0
          cases hhl
          rcases hcol with hz | hc
          · exact absurd hz h0
          · exact Or.inr ⟨by omega, (strchr_some _ _ _ hc).1⟩
      split at h
      · cases h
      rename_i hmp
      split at h
      · cases h
      rename_i hund
      cases h
      have hHM : H.length + 3 < SIZE_MOD := by omega
      refine ⟨k, H, pathOff, hostLen, _, rfl, hH, hpth, hhost, ?_, rfl, rfl, rfl, by omega,
        pathLen_lt _ _ _ _ hHM hund hmp⟩
      cases hfr : strchr H 35 with
      | none => simp only [hfr]; exact Nat.sub_pos_of_lt hpl
      | some fragOff =>
        simp only [hfr] at hund ⊢
        obtain ⟨hfl, hfd⟩ := strchr_some _ _ _ hfr
        have hne : fragOff ≠ pathOff := by
          intro he
          rw [he, hpd] at hfd
          simp at hfd
        exact pathLen_pos fragOff pathOff H.length hfl hpl hne (by omega) hund
/-! ## The body phase calls the socket and `write` only -/

section BodyCalls

variable {σ δ : Type}

theorem BodyGrew.grew_refl (s : State σ δ) : BodyGrew s s := ⟨[], rfl, by simp⟩

theorem BodyGrew.grew_trans {s1 s2 s3 : State σ δ} (h1 : BodyGrew s1 s2)
    (h2 : BodyGrew s2 s3) : BodyGrew s1 s3 := by
  obtain ⟨e1, h1, n1⟩ := h1
  obtain ⟨e2, h2, n2⟩ := h2
  refine ⟨e2 ++ e1, by rw [h2, h1, List.append_assoc], ?_⟩
  intro e he
  rcases List.mem_append.mp he with h | h
  · exact n2 e h
  · exact n1 e h

theorem bodyOnly_bind {α β : Type} {m : M σ δ α} {f : α → M σ δ β} (hm : BodyOnly m)
    (hf : ∀ a, BodyOnly (f a)) : BodyOnly (m >>= f) := by
  constructor
  intro s
  have h1 := hm.out s
  show match M.bind m f s with
    | .cont _ s' => BodyGrew s s'
    | .ret _ s' => BodyGrew s s'
    | _ => True
  unfold M.bind
  cases hms : m s with
  | cont a s1 =>
    rw [hms] at h1
    have h2 := (hf a).out s1
    simp only
    cases hfs : f a s1 with
    | cont b s2 => rw [hfs] at h2; exact h1.grew_trans h2
    | ret e s2 => rw [hfs] at h2; exact h1.grew_trans h2
    | undefined => trivial
    | outOfFuel => trivial
  | ret e s1 => rw [hms] at h1; exact h1
  | undefined => trivial
  | outOfFuel => trivial

theorem bodyOnly_pure {α : Type} (a : α) : BodyOnly (pure a : M σ δ α) :=
  ⟨fun s => BodyGrew.grew_refl s⟩

theorem bodyOnly_undefined {α : Type} : BodyOnly (undefinedM : M σ δ α) := ⟨fun _ => trivial⟩

theorem bodyOnly_outOfFuel {α : Type} : BodyOnly (outOfFuelM : M σ δ α) := ⟨fun _ => trivial⟩

theorem bodyOnly_getBuf : BodyOnly (getBuf : M σ δ (List Nat)) :=
  ⟨fun s => BodyGrew.grew_refl s⟩

theorem bodyOnly_getTimeout : BodyOnly (getTimeout : M σ δ Nat) :=
  ⟨fun s => BodyGrew.grew_refl s⟩

theorem bodyOnly_emit (e : Event) (h : isBodyEvent e = true) : BodyOnly (emit e : M σ δ Unit) :=
  ⟨fun _ => ⟨[e], rfl, by simpa using h⟩⟩

theorem bodyOnly_storeBuf (off : Nat) (bs : List Nat) :
    BodyOnly (storeBuf off bs : M σ δ Unit) := by
  constructor
  intro s
  unfold storeBuf
  by_cases h : off + bs.length ≤ CHUNK_SIZE
  · rw [if_pos h]; exact ⟨[], rfl, by simp⟩
  · rw [if_neg h]; trivial

theorem bodyOnly_memmove (dst src n : Nat) : BodyOnly (memmove dst src n : M σ δ Unit) := by
  constructor
  intro s
  unfold memmove
  by_cases h : src + n ≤ CHUNK_SIZE ∧ dst + n ≤ CHUNK_SIZE
  · rw [if_pos h]; exact ⟨[], rfl, by simp⟩
  · rw [if_neg h]; trivial

theorem bodyOnly_readBuf (n : Nat) : BodyOnly (readBuf n : M σ δ (List Nat)) := by
  constructor
  intro s
  unfold readBuf
  by_cases h : n ≤ CHUNK_SIZE
  · rw [if_pos h]; exact BodyGrew.grew_refl s
  · rw [if_neg h]; trivial

theorem bodyOnly_sockReceive (T : Transport σ) (len tmo : Nat) :
    BodyOnly (sockReceive T len tmo : M σ δ RecvRet) :=
  ⟨fun _ => ⟨[_], rfl, by simp [isBodyEvent]⟩⟩

theorem bodyOnly_close_ret {α : Type} (T : Transport σ) (e : NetErr) :
    BodyOnly (do sockClose T; retM e : M σ δ α) :=
  ⟨fun _ => ⟨[_], rfl, by simp [isBodyEvent]⟩⟩

theorem bodyOnly_PRTCL_ERR {α : Type} (T : Transport σ) : BodyOnly (PRTCL_ERR T : M σ δ α) :=
  bodyOnly_close_ret T _

theorem bodyOnly_CHECK_CONN_ERR (T : Transport σ) (ret : NetErr) :
    BodyOnly (CHECK_CONN_ERR T ret : M σ δ Unit) := by
  unfold CHECK_CONN_ERR
  split
  · exact bodyOnly_close_ret T _
  · exact bodyOnly_pure ()

theorem bodyOnly_ite {α : Type} (c : Prop) [Decidable c] {a b : M σ δ α} (ha : BodyOnly a)
    (hb : BodyOnly b) : BodyOnly (if c then a else b) := by
  split
  · exact ha
  · exact hb

theorem bodyOnly_recvLoop (T : Transport σ) (off minLen maxLen fuel readLen : Nat) :
    BodyOnly (recvLoop T off minLen maxLen fuel readLen : M σ δ (NetErr × Nat)) := by
  induction fuel generalizing readLen with
  | zero => exact bodyOnly_pure _
  | succ fuel ih =>
    unfold recvLoop
    apply bodyOnly_ite
    · apply bodyOnly_bind bodyOnly_getTimeout
      intro tmo
      apply bodyOnly_bind (bodyOnly_sockReceive _ _ _)
      intro r
      split
      · apply bodyOnly_ite _ bodyOnly_undefined
        apply bodyOnly_ite _ (bodyOnly_pure _)
        exact bodyOnly_bind (bodyOnly_storeBuf _ _) (fun _ => ih _)
      · exact bodyOnly_pure _
    · exact bodyOnly_pure _

theorem bodyOnly_recv (T : Transport σ) (off minLen maxLen : Nat) :
    BodyOnly (recv T off minLen maxLen : M σ δ (NetErr × Nat)) :=
  bodyOnly_recvLoop T off minLen maxLen maxLen 0

theorem bodyOnly_drainLoop (T : Transport σ) (fuel readLen trfLen : Nat) :
    BodyOnly (drainLoop T fuel readLen trfLen : M σ δ Nat) := by
  induction fuel generalizing readLen trfLen with
  | zero => exact bodyOnly_outOfFuel
  | succ fuel ih =>
    unfold drainLoop
    apply bodyOnly_bind (bodyOnly_readBuf _)
    intro data
    apply bodyOnly_bind (bodyOnly_emit (.write data) rfl)
    intro _
    apply bodyOnly_ite
    · exact bodyOnly_bind (bodyOnly_memmove _ _ _) (fun _ => bodyOnly_pure _)
    · apply bodyOnly_ite _ _ (bodyOnly_pure _)
      apply bodyOnly_bind (bodyOnly_recv T _ _ _)
      intro r
      exact bodyOnly_bind (bodyOnly_CHECK_CONN_ERR T _) (fun _ => ih _ _)

theorem bodyOnly_chunkEnd (T : Transport σ) (trfLen : Nat) :
    BodyOnly (chunkEnd T trfLen : M σ δ Nat) := by
  unfold chunkEnd
  apply bodyOnly_bind
  · apply bodyOnly_ite _ _ (bodyOnly_pure _)
    apply bodyOnly_bind (bodyOnly_recv T _ _ _)
    intro r
    exact bodyOnly_bind (bodyOnly_CHECK_CONN_ERR T _) (fun _ => bodyOnly_pure _)
  · intro n
    apply bodyOnly_bind bodyOnly_getBuf
    intro buf
    apply bodyOnly_ite _ (bodyOnly_PRTCL_ERR T)
    exact bodyOnly_bind (bodyOnly_memmove _ _ _) (fun _ => bodyOnly_pure _)

theorem bodyOnly_bodyLoop (T : Transport σ) (chunked : Bool) (len n fuel trfLen : Nat) :
    BodyOnly (bodyLoop T chunked len n fuel trfLen : M σ δ Unit) := by
  induction fuel generalizing trfLen with
  | zero => exact bodyOnly_outOfFuel
  | succ fuel ih =>
    unfold bodyLoop
    apply bodyOnly_ite
    · apply bodyOnly_bind bodyOnly_getBuf
      intro buf
      split
      · exact bodyOnly_undefined
      · apply bodyOnly_ite
        · apply bodyOnly_ite _ _ (bodyOnly_PRTCL_ERR T)
          apply bodyOnly_bind (bodyOnly_recv T _ _ _)
          intro r
          exact bodyOnly_bind (bodyOnly_CHECK_CONN_ERR T _) (fun _ => ih _)
        · apply bodyOnly_bind (bodyOnly_storeBuf _ _)
          intro _
          apply bodyOnly_bind bodyOnly_getBuf
          intro buf2
          split
          · exact bodyOnly_PRTCL_ERR T
          · exact bodyOnly_undefined
          · apply bodyOnly_bind (bodyOnly_memmove _ _ _)
            intro _
            apply bodyOnly_ite _ (bodyOnly_pure _)
            apply bodyOnly_bind (bodyOnly_drainLoop T _ _ _)
            intro t
            exact bodyOnly_bind (bodyOnly_chunkEnd T _) (fun _ => ih _)
    · exact bodyOnly_bind (bodyOnly_drainLoop T _ _ _) (fun _ => bodyOnly_pure _)

/-- The body phase makes no call on the sink other than `write`. -/
theorem bodyOnly_bodyPhase (T : Transport σ) (chunked : Bool) (len fuel trfLen : Nat) :
    BodyOnly (bodyPhase T chunked len fuel trfLen : M σ δ Unit) := by
  unfold bodyPhase
  exact bodyOnly_bind (bodyOnly_bodyLoop T _ _ _ _ _) (fun _ => bodyOnly_close_ret T _)

theorem sinkTypes_append (a b : List Event) :
    sinkTypes (a ++ b) = sinkTypes b ++ sinkTypes a := by
  induction a with
  | nil => simp [sinkTypes]
  | cons e a ih =>
    cases e <;> simp [sinkTypes, ih]

theorem sinkTypes_none (es : List Event) (h : ∀ e ∈ es, ∀ v, e ≠ Event.setDataType v) :
    sinkTypes es = [] := by
  induction es with
  | nil => rfl
  | cons e es ih =>
    have he := h e (List.mem_cons_self _ _)
    have ih' := ih (fun x hx => h x (List.mem_cons_of_mem _ hx))
    cases e <;> simp_all [sinkTypes]

theorem BodyGrew.body_types {s s' : State σ δ} (h : BodyGrew s s') :
    sinkTypes s'.trace = sinkTypes s.trace := by
  obtain ⟨es, h1, h2⟩ := h
  rw [h1, sinkTypes_append, sinkTypes_none es, List.append_nil]
  intro e he v hv
  have := h2 e he
  rw [hv] at this
  simp [isBodyEvent] at this

theorem Quiet.quiet_types {s s' : State σ δ} (h : Quiet s s') :
    sinkTypes s'.trace = sinkTypes s.trace := by
  obtain ⟨es, h1, h2⟩ := h
  rw [h1, sinkTypes_append, sinkTypes_none es, List.append_nil]
  intro e he v hv
  have := h2 e he
  rw [hv] at this
  simp [isSinkEvent] at this

end BodyCalls
/-! ## The `Content-Type` strings handed to the sink -/

section Types

variable {δ : Type}

theorem BufOnly.buf_types {σ : Type} {s s' : State σ δ} (h : BufOnly s s') :
    sinkTypes s'.trace = sinkTypes s.trace := by
  rw [h.trace]

/-- What `applyHeader` hands to `setDataType`: the value of a `Content-Type` line. -/
theorem applyHeader_types {σ : Type} (key value : List Nat) (cl : Nat) (ch : Bool)
    (s : State σ δ) (hov : key = keyContentLength → scan_d value ≠ .overflow) :
    ∃ s', applyHeader key value cl ch s = .cont (framing key value cl ch) s' ∧
      s'.sock = s.sock ∧ s'.buf = s.buf ∧ s'.code = s.code ∧ s'.timeout = s.timeout ∧
      Silent s s' ∧
      sinkTypes s'.trace
        = sinkTypes s.trace ++ (if key = keyContentType then [value] else []) := by
  unfold applyHeader framing
  by_cases hk : key = keyContentLength
  · have hkt : ¬ key = keyContentType := by rw [hk]; decide
    simp only [hk, if_true]
    rw [hk] at hkt
    simp only [hkt, if_false, List.append_nil]
    have := hov hk
    cases hsc : scan_d value with
    | noMatch =>
      exact ⟨_, rfl, rfl, rfl, rfl, rfl, ⟨[_], rfl, by simp⟩, rfl⟩
    | value v rest =>
      exact ⟨_, rfl, rfl, rfl, rfl, rfl, ⟨[_], rfl, by simp⟩, rfl⟩
    | overflow => exact absurd hsc this
  · simp only [hk, if_false]
    by_cases ht : key = keyTransferEncoding
    · have hkt : ¬ key = keyContentType := by rw [ht]; decide
      simp only [ht, if_true]
      rw [ht] at hkt
      simp only [hkt, if_false, List.append_nil]
      by_cases hv : value = valChunkedUpper ∨ value = valChunkedLower
      · simp only [hv, if_true]
        exact ⟨_, rfl, rfl, rfl, rfl, rfl, ⟨[_], rfl, by simp⟩, rfl⟩
      · simp only [hv, if_false]
        exact ⟨s, rfl, rfl, rfl, rfl, rfl, Silent.silent_refl s, rfl⟩
    · simp only [ht, if_false]
      by_cases hc : key = keyContentType
      · simp only [hc, if_true]
        exact ⟨_, rfl, rfl, rfl, rfl, rfl, ⟨[_], rfl, by simp⟩, rfl⟩
      · simp only [hc, if_false, List.append_nil]
        exact ⟨s, rfl, rfl, rfl, rfl, rfl, Silent.silent_refl s, rfl⟩

theorem blockTypes_cons (h : List Nat) (hs : List (List Nat)) :
    blockTypes (h :: hs) = lineTypes h ++ blockTypes hs := by
  simp [blockTypes]

theorem blockTypes_append (a b : List (List Nat)) :
    blockTypes (a ++ b) = blockTypes a ++ blockTypes b := by
  simp [blockTypes]

end Types
/-! ## The header loop, round by round -/

section Rounds

variable {σ δ : Type}

theorem bind_assoc_M {α β γ : Type} (m : M σ δ α) (f : α → M σ δ β) (g : β → M σ δ γ) :
    (m >>= f) >>= g = m >>= fun a => f a >>= g := by
  funext s
  simp only [bind_apply]
  cases m s <;> rfl

theorem pure_bind_M {α β : Type} (a : α) (f : α → M σ δ β) : pure a >>= f = f a := rfl

theorem bind_congr_M {α β : Type} (m : M σ δ α) {f g : α → M σ δ β} (h : ∀ a, f a = g a) :
    m >>= f = m >>= g := by
  rw [show f = g from funext h]

theorem PRTCL_ERR_bind {α β : Type} (T : Transport σ) (f : α → M σ δ β) :
    (PRTCL_ERR T : M σ δ α) >>= f = PRTCL_ERR T := rfl

theorem headerRest_next (T : Transport σ) (fuel a b : Nat) (c : Bool) :
    (headerRest T fuel (.next a b c) : M σ δ (Nat × Nat × Bool)) = headerLoop T fuel a b c := by
  unfold headerRest
  rfl

theorem headerRest_done (T : Transport σ) (fuel a b : Nat) (c : Bool) :
    (headerRest T fuel (.done a b c) : M σ δ (Nat × Nat × Bool)) = pure (a, b, c) := by
  unfold headerRest
  rfl

/-- The header loop is its round, repeated: a round of `headerLoop` is `headerRound`,
and the loop goes on from the variables the round leaves. -/
theorem headerLoop_round (T : Transport σ) (fuel trfLen cl : Nat) (ch : Bool) :
    (headerLoop T (fuel + 1) trfLen cl ch : M σ δ (Nat × Nat × Bool))
      = headerRound T trfLen cl ch >>= headerRest T fuel := by
  conv => lhs; unfold headerLoop
  unfold headerRound
  rw [bind_assoc_M]
  apply bind_congr_M
  intro buf
  cases strstr (cstr buf) CRLF with
  | none =>
    dsimp only
    by_cases h : trfLen < CHUNK_SIZE - 1
    · rw [if_pos h, if_pos h, bind_assoc_M]
      apply bind_congr_M
      intro r
      rw [bind_assoc_M]
      apply bind_congr_M
      intro _
      rw [bind_assoc_M]
      apply bind_congr_M
      intro _
      rw [pure_bind_M, headerRest_next]
    · rw [if_neg h, if_neg h, PRTCL_ERR_bind]
  | some p =>
    dsimp only
    by_cases hp : p = 0
    · rw [if_pos hp, if_pos hp, bind_assoc_M]
      apply bind_congr_M
      intro _
      rw [pure_bind_M, headerRest_done]
    · rw [if_neg hp, if_neg hp, bind_assoc_M]
      apply bind_congr_M
      intro _
      rw [bind_assoc_M]
      apply bind_congr_M
      intro buf2
      cases scanHeader (cstr buf2) with
      | none =>
        dsimp only
        rw [PRTCL_ERR_bind]
      | some kv =>
        dsimp only
        rw [bind_assoc_M]
        apply bind_congr_M
        intro r
        rw [bind_assoc_M]
        apply bind_congr_M
        intro _
        rw [pure_bind_M, headerRest_next]

theorem headerRounds_zero (T : Transport σ) (a b : Nat) (c : Bool) :
    (headerRounds T 0 a b c : M σ δ Round) = pure (.next a b c) := by
  unfold headerRounds
  rfl

/-- A round that goes on, followed by `n` more rounds. -/
theorem headerRounds_next (T : Transport σ) (n a b : Nat) (c : Bool) (s s' : State σ δ)
    (a' b' : Nat) (c' : Bool) (h : headerRound T a b c s = .cont (.next a' b' c') s') :
    headerRounds T (n + 1) a b c s = headerRounds T n a' b' c' s' := by
  conv => lhs; unfold headerRounds
  rw [bind_apply, h]

/-- The header loop with a budget of `n + k` rounds is its first `n` rounds followed
by what is left of the loop, with a budget of `k` rounds. -/
theorem headerLoop_rounds (T : Transport σ) (k : Nat) :
    ∀ (n a b : Nat) (c : Bool), (headerLoop T (n + k) a b c : M σ δ (Nat × Nat × Bool))
      = headerRounds T n a b c >>= headerRest T k := by
  intro n
  induction n with
  | zero =>
    intro a b c
    rw [headerRounds_zero, pure_bind_M, headerRest_next, Nat.zero_add]
  | succ n ih =>
    intro a b c
    rw [show n + 1 + k = (n + k) + 1 by omega, headerLoop_round]
    conv => rhs; unfold headerRounds
    rw [bind_assoc_M]
    apply bind_congr_M
    intro r
    cases r with
    | next a' b' c' =>
      dsimp only
      rw [headerRest_next, ih]
    | done a' b' c' =>
      dsimp only
      rw [pure_bind_M]
      rw [headerRest_done, headerRest_done]

/-- `connect` is its start up to round `n` of the header loop, followed by the rest of
the header loop and the body phase. -/
theorem connect_rounds (T : Transport σ) (D : Option (DataOut δ)) (fuel : Nat) (url : List Nat)
    (method : HTTP_METH) (timeout n : Nat) (hn : n ≤ fuel) :
    connect T D fuel url method timeout
      = connectRounds T D fuel url method timeout n >>= afterRounds T fuel (fuel - n) := by
  unfold connect connectRounds receiveResponse
  rw [bind_assoc_M]
  apply bind_congr_M
  intro _
  rw [bind_assoc_M]
  apply bind_congr_M
  intro trfLen
  have e : fuel = n + (fuel - n) := by omega
  conv => lhs; rw [e, headerLoop_rounds, ← e]
  rw [bind_assoc_M]
  rfl

theorem safe_afterRounds (T : Transport σ) (fuel k : Nat) (r : Round) :
    Safe (afterRounds T fuel k r : M σ δ Unit) := by
  unfold afterRounds
  have hr : Safe (headerRest T k r : M σ δ (Nat × Nat × Bool)) := by
    cases r with
    | next a b c => rw [headerRest_next]; exact safe_headerLoop T _ _ _ _
    | done a b c => rw [headerRest_done]; exact safe_pure _
  apply safe_bind hr
  intro x
  unfold bodyPhase
  apply safe_bind (safe_bodyLoop T _ _ _ _ _)
  intro _
  exact safe_close_ret T _ (Or.inl rfl)

end Rounds
/-! ## Rounds of the header loop over the fragment transport -/

section RoundsRun

variable {δ : Type}

/-- A round of the header loop that finds no CRLF in a buffer that has room: the
buffer is topped up from the stream and the loop goes on. -/
theorem headerRound_refill (s : State (List (List Nat)) δ) (W : List Nat) (hg : Good s)
    (h : Holds s W) (hs : strstr (cstr W) CRLF = none) (hW : W.length < 255) :
    ∃ s', RefillPost s s' W ∧ ∀ cl ch,
      headerRound streamTransport W.length cl ch s
        = .cont (.next (W ++ s.sock.flatten.take (255 - W.length)).length cl ch) s' := by
  obtain ⟨s1, h1, hg1, hh1, hs1, hc1, ht1, hq1⟩ :=
    recv_append s W 1 (CHUNK_SIZE - W.length - 1) hg h.has
      (Or.inl (by simp only [CHUNK_SIZE]; omega)) (by simp only [CHUNK_SIZE]; omega)
  have e255 : CHUNK_SIZE - W.length - 1 = 255 - W.length := by simp only [CHUNK_SIZE]; omega
  rw [e255] at h1 hh1 hs1
  have hA : (W ++ s.sock.flatten.take (255 - W.length)).length ≤ 255 := by
    simp only [List.length_append, List.length_take]; omega
  obtain ⟨s2, h2, hbo2, hh2⟩ := storeNul_end s1 _ hg1.buf hh1 hA
  have hlenk : W.length + min (255 - W.length) s.sock.flatten.length
      = (W ++ s.sock.flatten.take (255 - W.length)).length := by
    simp only [List.length_append, List.length_take]
  refine ⟨s2, ⟨⟨?_, hbo2.len hg1.buf⟩, hh2, ?_, ?_, ?_, ?_⟩, ?_⟩
  · rw [hbo2.sock]; exact hg1.frags
  · rw [hbo2.sock]; exact hs1
  · rw [hbo2.code]; exact hc1
  · rw [hbo2.timeout]; exact ht1
  · obtain ⟨es, he, hn⟩ := hq1
    exact ⟨es, by rw [hbo2.trace]; exact he, hn⟩
  · intro cl ch
    unfold headerRound
    simp only [bind_apply, getBuf, holds_cstr h, hs]
    have hlt : W.length < CHUNK_SIZE - 1 := by simp only [CHUNK_SIZE]; omega
    simp only [hlt, if_true, e255, bind_apply, h1, hlenk, h2, CHECK_CONN_ERR_OK, pure_apply]

/-- A round of the header loop on a line that matches the format: the line is applied
and dropped, the loop goes on, and a `Content-Type` line has handed its value to
`setDataType`. -/
theorem headerRound_line_types {σ : Type} (T : Transport σ) (s : State σ δ) (W : List Nat)
    (p : Nat) (key value : List Nat) (cl : Nat) (ch : Bool)
    (hl : s.buf.length = CHUNK_SIZE) (h : Holds s W) (hs : strstr (cstr W) CRLF = some p)
    (hp : p ≠ 0) (hsc : scanHeader ((cstr W).take p) = some (key, value))
    (hov : key = keyContentLength → scan_d value ≠ .overflow) :
    ∃ s', LinePost s s' (W.drop (p + 2)) ∧
      sinkTypes s'.trace
        = sinkTypes s.trace ++ (if key = keyContentType then [value] else []) ∧
      headerRound T W.length cl ch s
        = .cont (.next (W.length - (p + 2)) (framing key value cl ch).1
            (framing key value cl ch).2) s' := by
  have hW := holds_length h hl
  have hb := (strstr_some_bound _ _ _ hs).1
  have hpre : cstr W <+: W := cstr_isPre W
  have hcl : (cstr W).length ≤ W.length := hpre.length_le
  simp only [CRLF, List.length_cons, List.length_nil] at hb
  have hpW : p < W.length := by omega
  obtain ⟨s3, h3, hbo3, hh3, hc3⟩ := storeNul_holds s W p hl h hpW
  have htake : W.take p = (cstr W).take p := by
    obtain ⟨t, ht⟩ := hpre
    conv => lhs; rw [← ht]
    rw [List.take_append_of_le_length (by omega)]
  have hcline : cstr (W.take p) = (cstr W).take p := by
    rw [htake]
    apply cstr_of_no_zero
    intro hm
    exact cstr_no_zero W (List.mem_of_mem_take hm)
  rw [hcline] at hc3
  have hsz : szSub W.length (p + 2) = W.length - (p + 2) :=
    szSub_eq _ _ (by simp only [SIZE_MOD]; omega) (by omega)
  obtain ⟨s4, h4, hs4, hb4, hc4, ht4, hq4, hty4⟩ := applyHeader_types key value cl ch s3 hov
  have hXlen : (W.take p ++ 0 :: W.drop (p + 1)).length = W.length := by
    simp only [List.length_append, List.length_take, List.length_cons, List.length_drop]
    omega
  have hh4 : Holds s4 (W.take p ++ 0 :: W.drop (p + 1)) := by
    obtain ⟨junk, hj⟩ := hh3
    exact ⟨junk, by rw [hb4, hj]⟩
  have hl4 : s4.buf.length = CHUNK_SIZE := by rw [hb4]; exact hbo3.len hl
  obtain ⟨s5, h5, hbo5, hh5⟩ := compact_holds s4 _ (p + 2) hl4 hh4 (by omega)
  rw [hXlen] at h5
  have e : (W.take p ++ 0 :: W.drop (p + 1)).drop (p + 2) = W.drop (p + 2) := by
    have hlt : (W.take p ++ [0]).length = p + 1 := by
      simp only [List.length_append, List.length_take, List.length_singleton]; omega
    have e2 : W.take p ++ 0 :: W.drop (p + 1) = (W.take p ++ [0]) ++ W.drop (p + 1) := by
      simp
    rw [e2, show p + 2 = (p + 1) + 1 by rfl, ← List.drop_drop,
      drop_append_len _ _ _ hlt, List.drop_drop]
  rw [e] at hh5
  refine ⟨s5, ⟨hbo5.len hl4, hh5, ?_, ?_, ?_, ?_⟩, ?_, ?_⟩
  · rw [hbo5.sock, hs4]; exact hbo3.sock
  · rw [hbo5.code, hc4]; exact hbo3.code
  · rw [hbo5.timeout, ht4]; exact hbo3.timeout
  · exact (hbo3.buf_silent.silent_trans hq4).silent_trans hbo5.buf_silent
  · rw [hbo5.buf_types, hty4, hbo3.buf_types]
  · unfold headerRound
    simp only [bind_apply, getBuf, holds_cstr h, hs, hp, if_false, h3, hc3, hsz, hsc, h4, h5,
      pure_apply]

/-- The first rounds of the header loop over a block of conforming lines, whatever
follows the block on the stream: after at most two rounds a line the loop has
dropped every line of the block and goes on, with the framing the lines leave and
with the values of the `Content-Type` lines handed to `setDataType`, in order. -/
theorem headerRounds_block (hs : List (List Nat)) (X : List Nat) :
    ∀ (s : State (List (List Nat)) δ) (W : List Nat) (f : Nat × Bool),
      Window s W (block hs ++ X) → (∀ h ∈ hs, Conforming h) →
      ∃ n s' W', n ≤ 2 * hs.length ∧
        headerRounds streamTransport n W.length f.1 f.2 s
          = .cont (.next W'.length (blockFraming hs f).1 (blockFraming hs f).2) s' ∧
        Window s' W' X ∧ s'.code = s.code ∧ s'.timeout = s.timeout ∧ Silent s s' ∧
        sinkTypes s'.trace = sinkTypes s.trace ++ blockTypes hs := by
  induction hs with
  | nil =>
    intro s W f hw _
    refine ⟨0, s, W, le_rfl, ?_, ?_, rfl, rfl, Silent.silent_refl s, ?_⟩
    · rw [headerRounds_zero]
      rfl
    · simpa [block] using hw
    · simp [blockTypes]
  | cons h hs ih =>
    intro s W f hw hconf
    have hc := hconf h (List.mem_cons_self _ _)
    rw [block_cons] at hw
    have hpre : W <+: h ++ CRLF ++ (block hs ++ X) := ⟨_, hw.stream⟩
    have hliw := line_in_window h _ W hc.no_nul hc.no_crlf hpre
    obtain ⟨key, value, hsc, hov⟩ := hc.scans
    have hne : h.length ≠ 0 := by
      have := hc.ne
      intro h0
      exact this (List.length_eq_zero.mp h0)
    -- the round that applies the line, from a window that holds it
    have hline : ∀ (s1 : State (List (List Nat)) δ) (W1 : List Nat),
        Window s1 W1 (h ++ CRLF ++ (block hs ++ X)) → h.length + 2 ≤ W1.length →
        ∃ n s' W', n ≤ 2 * hs.length + 1 ∧
          headerRounds streamTransport n W1.length f.1 f.2 s1
            = .cont (.next W'.length (blockFraming (h :: hs) f).1
                (blockFraming (h :: hs) f).2) s' ∧
          Window s' W' X ∧ s'.code = s1.code ∧ s'.timeout = s1.timeout ∧ Silent s1 s' ∧
          sinkTypes s'.trace = sinkTypes s1.trace ++ blockTypes (h :: hs) := by
      intro s1 W1 hw1 hn1
      have hpre1 : W1 <+: h ++ CRLF ++ (block hs ++ X) := ⟨_, hw1.stream⟩
      obtain ⟨hs1, hl1⟩ := (line_in_window h _ W1 hc.no_nul hc.no_crlf hpre1).1 hn1
      obtain ⟨s2, hp2, hty2, hstep2⟩ := headerRound_line_types streamTransport s1 W1 h.length
        key value f.1 f.2 hw1.good.buf hw1.holds hs1 hne (by rw [hl1]; exact hsc) hov
      have hw2 : Window s2 (W1.drop (h.length + 2)) (block hs ++ X) := by
        refine ⟨⟨?_, hp2.len⟩, hp2.holds, ?_⟩
        · rw [hp2.sock]; exact hw1.good.frags
        · rw [hp2.sock]
          have := congrArg (List.drop (h.length + 2)) hw1.stream
          rw [List.drop_append_of_le_length hn1] at this
          rw [this]
          have hl : (h ++ CRLF).length = h.length + 2 := by simp [CRLF]
          rw [drop_append_len _ _ _ hl]
      obtain ⟨n, s3, W3, hn, h3, hw3, hc3, ht3, hq3, hty3⟩ :=
        ih s2 _ (framing key value f.1 f.2) hw2
          (fun x hx => hconf x (List.mem_cons_of_mem _ hx))
      have hfr : blockFraming (h :: hs) f = blockFraming hs (framing key value f.1 f.2) := by
        simp [blockFraming, lineFraming, hsc]
      refine ⟨n + 1, s3, W3, by omega, ?_, hw3, by rw [hc3, hp2.code],
        by rw [ht3, hp2.timeout], hp2.silent.silent_trans hq3, ?_⟩
      · rw [headerRounds_next _ _ _ _ _ _ _ _ _ _ hstep2, hfr]
        have hl : W1.length - (h.length + 2) = (W1.drop (h.length + 2)).length := by simp
        rw [hl]
        exact h3
      · rw [hty3, hty2, blockTypes_cons, List.append_assoc]
        simp [lineTypes, hsc]
    by_cases hlt : W.length < h.length + 2
    · -- a round tops the buffer up first
      obtain ⟨s1, hp, hstep⟩ := headerRound_refill s W hw.good hw.holds (hliw.2 hlt)
        (by have := hc.fits; omega)
      have hXl : (h ++ CRLF ++ (block hs ++ X)).length = W.length + s.sock.flatten.length := by
        rw [← hw.stream, List.length_append]
      have hw1 : Window s1 (W ++ s.sock.flatten.take (255 - W.length))
          (h ++ CRLF ++ (block hs ++ X)) := by
        refine ⟨hp.good, hp.holds, ?_⟩
        rw [hp.sock, List.append_assoc, List.take_append_drop]
        exact hw.stream
      have hn1 : h.length + 2 ≤ (W ++ s.sock.flatten.take (255 - W.length)).length := by
        have := hc.fits
        simp only [List.length_append, List.length_take, CRLF, List.length_cons,
          List.length_nil] at hXl ⊢
        omega
      obtain ⟨n, s3, W3, hn, h3, hw3, hc3, ht3, hq3, hty3⟩ := hline s1 _ hw1 hn1
      refine ⟨n + 1, s3, W3, by simp only [List.length_cons]; omega, ?_, hw3,
        by rw [hc3, hp.code], by rw [ht3, hp.timeout],
        hp.quiet.to_silent.silent_trans hq3, ?_⟩
      · rw [headerRounds_next _ _ _ _ _ _ _ _ _ _ (hstep f.1 f.2)]
        exact h3
      · rw [hty3, hp.quiet.quiet_types]
    · obtain ⟨n, s3, W3, hn, h3, hw3, hc3, ht3, hq3, hty3⟩ := hline s W hw (by omega)
      exact ⟨n, s3, W3, by simp only [List.length_cons]; omega, h3, hw3, hc3, ht3, hq3, hty3⟩

end RoundsRun
/-! ## Claims about `parseURL` -/

/-- On a well-formed URL whose path and fragment hold no `:` when the port is absent,
and whose components fit the destinations of `connect`, `parseURL` gives back the
components, and it gives the same scheme, host and path on the URL rebuilt with an
explicit port. -/
theorem parseURL_roundtrip (s h : List Nat) (pd : Option (List Nat)) (q : List Nat)
    (f : Option (List Nat)) (wf : WellFormed s h pd q)
    (hq : pd = none → 58 ∉ q) (hf : pd = none → ∀ x, f = some x → 58 ∉ x)
    (hs : s.length < 8) (hh : h.length < 32) (hp : q.length < 64) :
    parseURL (mkURL s h pd q f) 8 32 64
        = .ok { scheme := s, host := h, port := portValue pd, path := q } ∧
    parseURL (mkURL s h (some (pd.getD [56, 48])) q none) 8 32 64
        = .ok { scheme := s, host := h, port := if portValue pd = 0 then 80 else portValue pd,
                path := q } := by
  constructor
  · rw [parseURL_mkURL s h pd q f 8 32 64 wf hq hf]
    simp only [show ¬ (8 < s.length + 1) by omega, show ¬ (32 < h.length + 1) by omega,
      show ¬ (64 < q.length + 1) by omega, if_false]
  · have wf2 : WellFormed s h (some (pd.getD [56, 48])) q := by
      refine { wf with port_ne := ?_, port_digits := ?_, port_range := ?_ }
      · intro d hd
        cases pd with
        | none => simp at hd; subst hd; simp
        | some d0 => simp at hd; subst hd; exact wf.port_ne _ rfl
      · intro d hd
        cases pd with
        | none => simp at hd; subst hd; decide
        | some d0 => simp at hd; subst hd; exact wf.port_digits _ rfl
      · intro d hd
        cases pd with
        | none => simp at hd; subst hd; decide
        | some d0 => simp at hd; subst hd; exact wf.port_range _ rfl
    rw [parseURL_mkURL s h _ q none 8 32 64 wf2 (by simp) (by simp)]
    simp only [show ¬ (8 < s.length + 1) by omega, show ¬ (32 < h.length + 1) by omega,
      show ¬ (64 < q.length + 1) by omega, if_false]
    cases pd with
    | none => simp [portValue, decVal]
    | some d0 =>
      have := (wf.port_range d0 rfl).1
      simp only [portValue, Option.getD_some]
      rw [if_neg (by omega)]

/-- C3, failing input. The URL `http://h/a:b` is well-formed (scheme `http`, host `h`,
no port, path `/a:b`), yet `parseURL` takes the `:` of the path for the port
separator and returns `NET_INVALID` instead of the components. -/
theorem parseURL_colon_in_path_rejected :
    WellFormed [104, 116, 116, 112] [104] none [47, 97, 58, 98] ∧
    parseURL (mkURL [104, 116, 116, 112] [104] none [47, 97, 58, 98] none) 8 32 64
      = .err .NET_INVALID := by
  refine ⟨⟨by decide, by decide, by decide, by decide, by decide, ?_, ?_, ?_, by decide,
    by decide, by decide⟩, by decide⟩
  · intro d hd; cases hd
  · intro d hd; cases hd
  · intro d hd; cases hd

/-- C7. A URL without `://` makes `parseURL` return `NET_INVALID` whatever the
capacities, and `connect` returns that code with nothing done on the transport:
socket, source, buffer and trace are as before the call, and the status code is 0. -/
theorem connect_url_without_separator {σ δ : Type} (T : Transport σ) (D : Option (DataOut δ))
    (fuel : Nat) (url : List Nat) (method : HTTP_METH) (timeout : Nat) (s : State σ δ)
    (ms mh mp : Nat) (h : ¬ [58, 47, 47] <:+: url) :
    parseURL url ms mh mp = .err .NET_INVALID ∧
    connect T D fuel url method timeout s
      = .ret .NET_INVALID { s with code := 0, timeout := timeout } ∧
    getHTTPResponseCode ({ s with code := 0, timeout := timeout } : State σ δ) = 0 := by
  refine ⟨parseURL_no_sep url ms mh mp h, connect_no_sep T D fuel url method timeout s h, rfl⟩

/-- C7, instance: the URL `example.com/path` of the specification. -/
theorem connect_url_without_separator_witness :
    parseURL [101, 120, 97, 109, 112, 108, 101, 46, 99, 111, 109, 47, 112, 97, 116, 104]
        8 32 64 = .err .NET_INVALID ∧
    connect streamTransport (none : Option (DataOut Unit)) 10
        [101, 120, 97, 109, 112, 108, 101, 46, 99, 111, 109, 47, 112, 97, 116, 104]
        .HTTP_GET 1000
        { sock := [], src := (), buf := [], code := 404, timeout := 0, trace := [] }
      = .ret .NET_INVALID
        { sock := [], src := (), buf := [], code := 0, timeout := 1000, trace := [] } ∧
    getHTTPResponseCode
        ({ sock := ([] : List (List Nat)), src := (), buf := [], code := 0, timeout := 1000,
           trace := [] } : State (List (List Nat)) Unit) = 0 :=
  connect_url_without_separator streamTransport none 10
    [101, 120, 97, 109, 112, 108, 101, 46, 99, 111, 109, 47, 112, 97, 116, 104]
    .HTTP_GET 1000
    { sock := [], src := (), buf := [], code := 404, timeout := 0, trace := [] } 8 32 64
    (by decide)

/-- C8, counterexample. The URL `http://` + 32 times `h` + `:x/` contains `://` and its
host is as long as the host capacity 32, but `parseURL` returns `NET_INVALID`, not
`NET_TOOSMALL`: the port is converted before the host is measured. -/
theorem parseURL_long_host_invalid_port :
    [58, 47, 47] <:+: ([104, 116, 116, 112, 58, 47, 47] ++ List.replicate 32 104 ++ [58, 120, 47]) ∧
    32 ≤ (List.replicate 32 104).length ∧
    parseURL ([104, 116, 116, 112, 58, 47, 47] ++ List.replicate 32 104 ++ [58, 120, 47]) 8 32 64
      = .err .NET_INVALID ∧
    parseURL ([104, 116, 116, 112, 58, 47, 47] ++ List.replicate 32 104 ++ [58, 120, 47]) 8 32 64
      ≠ .err .NET_TOOSMALL := by
  refine ⟨?_, by decide, by decide, by decide⟩
  exact ⟨[104, 116, 116, 112], List.replicate 32 104 ++ [58, 120, 47], by decide⟩

/-- C8, amended. When the text before the first `://` does not fit the scheme capacity
`parseURL` returns `NET_TOOSMALL`; and on a well-formed URL (no `:` in path or
fragment when the port is absent) it returns `NET_TOOSMALL` as soon as the scheme,
the host or the path is as long as its capacity, and when it returns `OK` the
scheme, host and path are the whole components, each shorter than its capacity. -/
theorem parseURL_capacity (s h : List Nat) (pd : Option (List Nat)) (q : List Nat)
    (f : Option (List Nat)) (ms mh mp : Nat) (wf : WellFormed s h pd q)
    (hq : pd = none → 58 ∉ q) (hf : pd = none → ∀ x, f = some x → 58 ∉ x) :
    (∀ url i, strstr url [58, 47, 47] = some i → ms ≤ i →
      parseURL url ms mh mp = .err .NET_TOOSMALL) ∧
    (ms ≤ s.length ∨ mh ≤ h.length ∨ mp ≤ q.length →
      parseURL (mkURL s h pd q f) ms mh mp = .err .NET_TOOSMALL) ∧
    (∀ u, parseURL (mkURL s h pd q f) ms mh mp = .ok u →
      u.scheme = s ∧ u.host = h ∧ u.path = q ∧
      s.length < ms ∧ h.length < mh ∧ q.length < mp) := by
  refine ⟨?_, ?_, ?_⟩
  · intro url i hi hle
    unfold parseURL
    simp only [hi]
    simp [bind, Outcome.bind, show ms < i + 1 by omega]
  · intro hbig
    rw [parseURL_mkURL s h pd q f ms mh mp wf hq hf]
    split_ifs <;> first | rfl | (exfalso; omega)
  · intro u hu
    rw [parseURL_mkURL s h pd q f ms mh mp wf hq hf] at hu
    split_ifs at hu with h1 h2 h3
    cases hu
    exact ⟨rfl, rfl, rfl, by omega, by omega, by omega⟩

/-- The components of `http://example.com:8080/data` are well-formed. -/
theorem wellFormed_example :
    WellFormed [104, 116, 116, 112] [101, 120, 97, 109, 112, 108, 101, 46, 99, 111, 109]
      (some [56, 48, 56, 48]) [47, 100, 97, 116, 97] := by
  refine ⟨by decide, by decide, by decide, by decide, by decide, ?_, ?_, ?_, by decide,
    by decide, by decide⟩
  · intro d hd; cases hd; decide
  · intro d hd; cases hd; decide
  · intro d hd; cases hd; decide

/-- C8, instance of the amended claim: `http://example.com:8080/data#frag` with the
capacities 8, 32 and 64 of `connect`. -/
theorem parseURL_capacity_witness :
    WellFormed [104, 116, 116, 112] [101, 120, 97, 109, 112, 108, 101, 46, 99, 111, 109]
      (some [56, 48, 56, 48]) [47, 100, 97, 116, 97] ∧
    ((∀ url i, strstr url [58, 47, 47] = some i → 8 ≤ i →
      parseURL url 8 32 64 = .err .NET_TOOSMALL) ∧
    (8 ≤ [104, 116, 116, 112].length
        ∨ 32 ≤ [101, 120, 97, 109, 112, 108, 101, 46, 99, 111, 109].length
        ∨ 64 ≤ [47, 100, 97, 116, 97].length →
      parseURL (mkURL [104, 116, 116, 112]
        [101, 120, 97, 109, 112, 108, 101, 46, 99, 111, 109] (some [56, 48, 56, 48])
        [47, 100, 97, 116, 97] (some [102, 114, 97, 103])) 8 32 64 = .err .NET_TOOSMALL) ∧
    (∀ u, parseURL (mkURL [104, 116, 116, 112]
        [101, 120, 97, 109, 112, 108, 101, 46, 99, 111, 109] (some [56, 48, 56, 48])
        [47, 100, 97, 116, 97] (some [102, 114, 97, 103])) 8 32 64 = .ok u →
      u.scheme = [104, 116, 116, 112] ∧
      u.host = [101, 120, 97, 109, 112, 108, 101, 46, 99, 111, 109] ∧
      u.path = [47, 100, 97, 116, 97] ∧
      [104, 116, 116, 112].length < 8 ∧
      [101, 120, 97, 109, 112, 108, 101, 46, 99, 111, 109].length < 32 ∧
      [47, 100, 97, 116, 97].length < 64)) :=
  ⟨wellFormed_example,
    parseURL_capacity [104, 116, 116, 112]
      [101, 120, 97, 109, 112, 108, 101, 46, 99, 111, 109] (some [56, 48, 56, 48])
      [47, 100, 97, 116, 97] (some [102, 114, 97, 103]) 8 32 64 wellFormed_example
      (by simp) (by simp)⟩
/-! ## Claim C9 -/

/-- C9. Whenever the URL parses and `connect` returns, with whatever transport, data
source and response, the code is `OK`, `NET_CONN` or `NET_PROTOCOL`, and among the
calls made during the call `close` occurs exactly once and is the most recent one:
the socket is never left open and never used after it is closed. -/
theorem connect_closes_exactly_once {σ δ : Type} (T : Transport σ) (D : Option (DataOut δ))
    (fuel : Nat) (url : List Nat) (method : HTTP_METH) (timeout : Nat) (s : State σ δ)
    (u : ParsedURL) (e : NetErr) (hu : parseURL url 8 32 64 = .ok u)
    (hret : (connect T D fuel url method timeout s).code? = some e) :
    ∃ s' es, connect T D fuel url method timeout s = .ret e s' ∧
      s'.trace = Event.sockClose :: (es ++ s.trace) ∧ Event.sockClose ∉ es ∧
      (e = .OK ∨ e = .NET_CONN ∨ e = .NET_PROTOCOL) := by
  have hreq : connectRequest T D fuel url method timeout s
      = (do
          let port := if u.port = 0 then 80 else u.port
          let ret ← sockConnect T u.host port
          if ret < 0 then do
            sockClose T
            retM .NET_CONN
          else sendRequest T D method u.host u.path fuel : M σ δ Unit)
        { s with code := 0, timeout := timeout,
                 buf := (s.buf ++ List.replicate CHUNK_SIZE 0).take CHUNK_SIZE } := by
    unfold connectRequest
    simp only [hu]
  have h := (safe_bind (safe_afterParse T D fuel method u)
      (fun _ => safe_receiveResponse T fuel)).out
    { s with code := 0, timeout := timeout,
             buf := (s.buf ++ List.replicate CHUNK_SIZE 0).take CHUNK_SIZE }
  have hc : connect T D fuel url method timeout s
      = ((do
          let port := if u.port = 0 then 80 else u.port
          let ret ← sockConnect T u.host port
          if ret < 0 then do
            sockClose T
            retM .NET_CONN
          else sendRequest T D method u.host u.path fuel : M σ δ Unit)
          >>= fun _ => receiveResponse T fuel)
        { s with code := 0, timeout := timeout,
                 buf := (s.buf ++ List.replicate CHUNK_SIZE 0).take CHUNK_SIZE } := by
    show (connectRequest T D fuel url method timeout >>= fun _ => receiveResponse T fuel) s = _
    rw [bind_apply, bind_apply, hreq]
  rw [hc] at hret ⊢
  revert h hret
  generalize ((do
          let port := if u.port = 0 then 80 else u.port
          let ret ← sockConnect T u.host port
          if ret < 0 then do
            sockClose T
            retM .NET_CONN
          else sendRequest T D method u.host u.path fuel : M σ δ Unit)
          >>= fun _ => receiveResponse T fuel)
        { s with code := 0, timeout := timeout,
                 buf := (s.buf ++ List.replicate CHUNK_SIZE 0).take CHUNK_SIZE } = r
  intro hret h
  cases r with
  | cont a s1 => simp [Res.code?] at hret
  | ret e1 s1 =>
    simp only [Res.code?, Option.some.injEq] at hret
    subst hret
    obtain ⟨⟨es, h1, h2⟩, h3⟩ := h
    exact ⟨s1, es, rfl, h1, h2, h3⟩
  | undefined => simp [Res.code?] at hret
  | outOfFuel => simp [Res.code?] at hret

/-- C9, instance: a GET answered by `HTTP/1.1 404 Not Found`. -/
theorem connect_closes_exactly_once_witness :
    parseURL [104, 58, 47, 47, 104, 47] 8 32 64
      = .ok { scheme := [104], host := [104], port := 0, path := [47] } ∧
    (connect streamTransport (none : Option (DataOut Unit)) 10 [104, 58, 47, 47, 104, 47]
        .HTTP_GET 1000
        { sock := [[72, 84, 84, 80, 47, 49, 46, 49, 32, 52, 48, 52, 32, 78, 111, 116, 32, 70,
                    111, 117, 110, 100, 13, 10, 13, 10]],
          src := (), buf := [], code := 0, timeout := 0, trace := [] }).code?
      = some .NET_PROTOCOL ∧
    ∃ s' es,
      connect streamTransport (none : Option (DataOut Unit)) 10 [104, 58, 47, 47, 104, 47]
        .HTTP_GET 1000
        { sock := [[72, 84, 84, 80, 47, 49, 46, 49, 32, 52, 48, 52, 32, 78, 111, 116, 32, 70,
                    111, 117, 110, 100, 13, 10, 13, 10]],
          src := (), buf := [], code := 0, timeout := 0, trace := [] }
        = .ret .NET_PROTOCOL s' ∧
      s'.trace = Event.sockClose :: (es ++ []) ∧ Event.sockClose ∉ es ∧
      (NetErr.NET_PROTOCOL = .OK ∨ NetErr.NET_PROTOCOL = .NET_CONN
        ∨ NetErr.NET_PROTOCOL = .NET_PROTOCOL) :=
  ⟨by decide, by decide!,
    connect_closes_exactly_once streamTransport none 10 [104, 58, 47, 47, 104, 47] .HTTP_GET
      1000 _ { scheme := [104], host := [104], port := 0, path := [47] } .NET_PROTOCOL
      (by decide) (by decide!)⟩
/-! ## Claims C4 and C5: the status line -/

section StatusClaims

variable {δ : Type}

/-- What the status line phase does to a response whose first read fails to give a
status line: protocol error, no sink call, status code untouched. -/
theorem statusLine_rejects (s1 : State (List (List Nat)) δ) (hg : Good s1)
    (hbad : strstr (cstr (s1.sock.flatten.take 255)) CRLF = none ∨
      ∃ p, strstr (cstr (s1.sock.flatten.take 255)) CRLF = some p ∧
        scanStatusLine ((cstr (s1.sock.flatten.take 255)).take p) = .noMatch) :
    ∃ s', statusLine streamTransport s1 = .ret .NET_PROTOCOL s' ∧ s'.code = s1.code ∧
      Quiet s1 s' := by
  obtain ⟨s2, h2, hg2, hh2, -, hc2, -, hq2⟩ := statusLine_read s1 hg
  have hlen : min 255 s1.sock.flatten.length = (s1.sock.flatten.take 255).length := by
    rw [List.length_take]
  rw [hlen] at h2
  rcases hbad with hn | ⟨p, hp, hn⟩
  · rw [h2, parseStatusLine_no_crlf _ s2 _ hh2 hn]
    exact ⟨_, rfl, hc2, hq2.quiet_trans ⟨[_], rfl, by simp [isSinkEvent]⟩⟩
  · obtain ⟨s', h', hc', ht'⟩ := (parseStatusLine_found streamTransport s2 _ p hg2.buf hh2 hp).1 hn
    rw [h2, h']
    exact ⟨s', rfl, hc'.trans hc2, hq2.quiet_trans ⟨[_], ht', by simp [isSinkEvent]⟩⟩

/-- C5. When the first read of the response (its first 255 bytes) holds no CRLF before
a NUL, or the text before the first CRLF does not match the status line format (in
particular when the response does not begin with `HTTP/`, or has no integer where
the code should be), `connect` returns `NET_PROTOCOL`, makes no call on the sink,
and leaves the status code at 0, whatever it was before the call. -/
theorem connect_rejects_bad_status_line (D : Option (DataOut δ)) (fuel : Nat)
    (url : List Nat) (method : HTTP_METH) (timeout : Nat) (s : State (List (List Nat)) δ)
    (hfr : ∀ f ∈ s.sock, f ≠ [])
    (hreq : (connectRequest streamTransport D fuel url method timeout s).isCont = true)
    (hbad : ¬ [72, 84, 84, 80, 47] <+: s.sock.flatten ∨
      strstr (cstr (s.sock.flatten.take 255)) CRLF = none ∨
      ∃ p, strstr (cstr (s.sock.flatten.take 255)) CRLF = some p ∧
        scanStatusLine ((cstr (s.sock.flatten.take 255)).take p) = .noMatch) :
    ∃ s', connect streamTransport D fuel url method timeout s = .ret .NET_PROTOCOL s' ∧
      Quiet s s' ∧ sinkWrites s'.trace = sinkWrites s.trace ∧ getHTTPResponseCode s' = 0 := by
  obtain ⟨s1, hc, hg, hsock, hcode, -, hq⟩ := request_sent D fuel url method timeout s hfr hreq
  have hbad' : strstr (cstr (s1.sock.flatten.take 255)) CRLF = none ∨
      ∃ p, strstr (cstr (s1.sock.flatten.take 255)) CRLF = some p ∧
        scanStatusLine ((cstr (s1.sock.flatten.take 255)).take p) = .noMatch := by
    rw [hsock]
    rcases hbad with h | h | h
    · cases hs : strstr (cstr (s.sock.flatten.take 255)) CRLF with
      | none => exact Or.inl rfl
      | some p =>
        refine Or.inr ⟨p, rfl, ?_⟩
        unfold scanStatusLine
        have : startsWith ((cstr (s.sock.flatten.take 255)).take p) [72, 84, 84, 80, 47]
            = false := by
          rw [Bool.eq_false_iff]
          intro hsw
          rw [startsWith_iff] at hsw
          apply h
          exact ((hsw.trans (List.take_prefix _ _)).trans (cstr_isPre _)).trans
            (List.take_prefix _ _)
        simp [this]
    · exact Or.inl h
    · exact Or.inr h
  obtain ⟨s', h', hc', hq'⟩ := statusLine_rejects s1 hg hbad'
  refine ⟨s', ?_, hq.quiet_trans hq', (hq.quiet_trans hq').quiet_writes, ?_⟩
  · rw [hc]
    exact receiveResponse_of_statusLine_ret _ _ _ _ _ h'
  · show s'.code = 0
    rw [hc', hcode]

/-- C4. When the response starts with a status line `HTTP/<major>.<minor> <code>`
followed by anything that does not go on with a digit, free of NUL and CRLF and,
with its CRLF, inside the first read of 255 bytes, and the code is an `int` other
than 200, then `connect` returns `NET_PROTOCOL`, makes no call on the sink, and
`getHTTPResponseCode` gives the code. -/
theorem connect_rejects_other_status (D : Option (DataOut δ)) (fuel : Nat)
    (url : List Nat) (method : HTTP_METH) (timeout : Nat) (s : State (List (List Nat)) δ)
    (major minor code tail rest : List Nat)
    (hfr : ∀ f ∈ s.sock, f ≠ [])
    (hreq : (connectRequest streamTransport D fuel url method timeout s).isCont = true)
    (hstream : s.sock.flatten
      = [72, 84, 84, 80, 47] ++ major ++ [46] ++ minor ++ [32] ++ code ++ tail ++ CRLF ++ rest)
    (hmajor : major ≠ [] ∧ ∀ c ∈ major, isdigit c = true)
    (hminor : minor ≠ [] ∧ ∀ c ∈ minor, isdigit c = true)
    (hcode : code ≠ [] ∧ ∀ c ∈ code, isdigit c = true)
    (htail : ∀ c, tail.head? = some c → isdigit c = false)
    (h0 : (0 : Nat) ∉ [72, 84, 84, 80, 47] ++ major ++ [46] ++ minor ++ [32] ++ code ++ tail)
    (hcr : ¬ CRLF <:+: [72, 84, 84, 80, 47] ++ major ++ [46] ++ minor ++ [32] ++ code ++ tail)
    (hfit : ([72, 84, 84, 80, 47] ++ major ++ [46] ++ minor ++ [32] ++ code ++ tail).length + 2
      ≤ 255)
    (hval : decVal code < 2 ^ 31) (hne : decVal code ≠ 200) :
    ∃ s', connect streamTransport D fuel url method timeout s = .ret .NET_PROTOCOL s' ∧
      Quiet s s' ∧ sinkWrites s'.trace = sinkWrites s.trace ∧
      getHTTPResponseCode s' = decVal code := by
  obtain ⟨s1, hc, hg, hsock, -, -, hq⟩ := request_sent D fuel url method timeout s hfr hreq
  obtain ⟨s2, h2, hg2, hh2, -, -, -, hq2⟩ := statusLine_read s1 hg
  have hlen : min 255 s1.sock.flatten.length = (s1.sock.flatten.take 255).length := by
    rw [List.length_take]
  rw [hlen] at h2
  rw [hsock, hstream] at h2 hh2
  obtain ⟨hs, hline⟩ := first_line _ rest h0 hcr hfit
  have hscan : scanStatusLine
      ([72, 84, 84, 80, 47] ++ major ++ [46] ++ minor ++ [32] ++ code ++ tail)
      = .value (decVal code) tail := by
    unfold scanStatusLine
    have hsw : startsWith ([72, 84, 84, 80, 47] ++ major ++ [46] ++ minor ++ [32] ++ code ++ tail)
        [72, 84, 84, 80, 47] = true := by
      rw [startsWith_iff]
      simp only [List.append_assoc]
      exact List.prefix_append _ _
    have hd : ([72, 84, 84, 80, 47] ++ major ++ [46] ++ minor ++ [32] ++ code ++ tail).drop 5
        = major ++ (46 :: (minor ++ (32 :: (code ++ tail)))) := by
      simp
    have hk1 : skip_d (major ++ (46 :: (minor ++ (32 :: (code ++ tail)))))
        = some (46 :: (minor ++ (32 :: (code ++ tail)))) :=
      skip_d_digits major _ hmajor.1 hmajor.2 (by intro c hc; simp at hc; subst hc; decide)
    have hk2 : skip_d (minor ++ (32 :: (code ++ tail))) = some (32 :: (code ++ tail)) :=
      skip_d_digits minor _ hminor.1 hminor.2 (by intro c hc; simp at hc; subst hc; decide)
    obtain ⟨d, code', rfl⟩ := List.exists_cons_of_ne_nil hcode.1
    have hd0 : isdigit d = true := hcode.2 d (List.mem_cons_self _ _)
    have hsp : (32 :: ((d :: code') ++ tail)).dropWhile isspace = (d :: code') ++ tail := by
      rw [List.dropWhile_cons, if_pos (by decide), List.cons_append, List.dropWhile_cons,
        if_neg (by rw [isdigit_not_space hd0]; decide)]
    simp only [hsw, if_true, hd, hk1, hk2, hsp]
    exact scanDecimal_digits _ _ (d :: code') tail (by simp) hcode.2 htail
      (by have : (0 : Int) ≤ (decVal (d :: code') : Int) := Int.natCast_nonneg _
          omega)
      (by omega)
  rw [← hline] at hscan
  obtain ⟨s', h', hc', ht'⟩ :=
    (parseStatusLine_found streamTransport s2 _ _ hg2.buf hh2 hs).2.2.1 _ _ hscan
      (by exact_mod_cast hne)
  have hst : statusLine streamTransport s1 = .ret .NET_PROTOCOL s' := by rw [h2, h']
  have hq3 : Quiet s s' := (hq.quiet_trans hq2).quiet_trans ⟨[_], ht', by simp [isSinkEvent]⟩
  refine ⟨s', ?_, hq3, hq3.quiet_writes, hc'⟩
  rw [hc]
  exact receiveResponse_of_statusLine_ret _ _ _ _ _ hst

end StatusClaims

/-- C5, instance: a GET answered by `HTP/1.1 200 OK`, by a client whose previous call
left the code 7. -/
theorem connect_rejects_bad_status_line_witness :
    ¬ [72, 84, 84, 80, 47] <+: (exState exBadStart).sock.flatten ∧
    ∃ s', connect streamTransport none 10 exURL .HTTP_GET 1000 (exState exBadStart)
        = .ret .NET_PROTOCOL s' ∧
      Quiet (exState exBadStart) s' ∧
      sinkWrites s'.trace = sinkWrites (exState exBadStart).trace ∧
      getHTTPResponseCode s' = 0 :=
  ⟨by decide,
    connect_rejects_bad_status_line none 10 exURL .HTTP_GET 1000 (exState exBadStart)
      (by decide) (by decide!) (Or.inl (by decide))⟩

/-- C4, instance: a GET answered by `HTTP/1.1 404 Not Found`, delivered in two
fragments that cut the status code. -/
theorem connect_rejects_other_status_witness :
    (exState exNotFound).sock.flatten
      = [72, 84, 84, 80, 47] ++ [49] ++ [46] ++ [49] ++ [32] ++ [52, 48, 52]
        ++ [32, 78, 111, 116, 32, 70, 111, 117, 110, 100] ++ CRLF ++ [13, 10] ∧
    decVal [52, 48, 52] = 404 ∧
    ∃ s', connect streamTransport none 10 exURL .HTTP_GET 1000 (exState exNotFound)
        = .ret .NET_PROTOCOL s' ∧
      Quiet (exState exNotFound) s' ∧
      sinkWrites s'.trace = sinkWrites (exState exNotFound).trace ∧
      getHTTPResponseCode s' = decVal [52, 48, 52] :=
  ⟨by decide, by decide,
    connect_rejects_other_status none 10 exURL .HTTP_GET 1000 (exState exNotFound)
      [49] [49] [52, 48, 52] [32, 78, 111, 116, 32, 70, 111, 117, 110, 100] [13, 10]
      (by decide) (by decide!) (by decide) (by decide) (by decide) (by decide) (by decide)
      (by decide) (by decide) (by decide) (by decide) (by decide)⟩

/-! ## Claim C2 -/

section C2

variable {δ : Type}

theorem blockFraming_append (a b : List (List Nat)) (f : Nat × Bool) :
    blockFraming (a ++ b) f = blockFraming b (blockFraming a f) := by
  simp [blockFraming, List.foldl_append]

/-- C2, amended. A response that consists of a 200 status line (free of NUL and CRLF
and, with its CRLF, inside the first read), header lines that each conform to the
format the engine accepts, among them `Content-Length: <digits>` (at most 31 digits
with a value below `2 ^ 31`) and no other line that sets the framing, the blank
line, and at least that many body bytes: whatever the fragments it arrives in and
once the iteration budget covers the header lines and the body, `connect` returns
`OK`, the sink has received exactly the first `N` body bytes in order, and the
status code is 200. -/
theorem connect_content_length (D : Option (DataOut δ)) (fuel : Nat) (url : List Nat)
    (method : HTTP_METH) (timeout : Nat) (s : State (List (List Nat)) δ)
    (major minor tail : List Nat) (before after : List (List Nat)) (digits body : List Nat)
    (hfr : ∀ f ∈ s.sock, f ≠ [])
    (hreq : (connectRequest streamTransport D fuel url method timeout s).isCont = true)
    (hstream : s.sock.flatten = statusText major minor [50, 48, 48] tail ++ CRLF
      ++ (block (before ++ [txtContentLengthColon ++ digits] ++ after) ++ (CRLF ++ body)))
    (hmajor : major ≠ [] ∧ ∀ c ∈ major, isdigit c = true)
    (hminor : minor ≠ [] ∧ ∀ c ∈ minor, isdigit c = true)
    (htail : ∀ c, tail.head? = some c → isdigit c = false)
    (h0 : (0 : Nat) ∉ statusText major minor [50, 48, 48] tail)
    (hcr : ¬ CRLF <:+: statusText major minor [50, 48, 48] tail)
    (hfit : (statusText major minor [50, 48, 48] tail).length + 2 ≤ 255)
    (hlines : ∀ h ∈ before ++ after, Conforming h ∧ Neutral h)
    (hdigits : digits ≠ [] ∧ (∀ c ∈ digits, isdigit c = true) ∧ digits.length ≤ 31 ∧
      decVal digits < 2 ^ 31)
    (hbody : decVal digits ≤ body.length)
    (hfuel : 2 * (before.length + after.length) + 4 + 2 * decVal digits ≤ fuel) :
    ∃ s', connect streamTransport D fuel url method timeout s = .ret .OK s' ∧
      sinkBody s'.trace = sinkBody s.trace ++ body.take (decVal digits) ∧
      getHTTPResponseCode s' = 200 := by
  obtain ⟨s1, hc, hg, hsock, -, -, hq⟩ := request_sent D fuel url method timeout s hfr hreq
  obtain ⟨hd1, hd2, hd3, hd4⟩ := hdigits
  have hscan := scanStatusLine_statusText major minor [50, 48, 48] tail hmajor hminor
    ⟨by simp, by decide⟩ htail (by decide)
  have h200 : decVal [50, 48, 48] = 200 := by decide
  rw [h200] at hscan
  have hconf : ∀ h ∈ before ++ [txtContentLengthColon ++ digits] ++ after, Conforming h := by
    intro h hm
    simp only [List.mem_append, List.mem_singleton] at hm
    rcases hm with (hm | hm) | hm
    · exact (hlines h (by simp [hm])).1
    · subst hm; exact conforming_contentLength digits hd1 hd2 hd3 hd4
    · exact (hlines h (by simp [hm])).1
  have hframe : blockFraming (before ++ [txtContentLengthColon ++ digits] ++ after) (0, false)
      = (decVal digits, false) := by
    rw [blockFraming_append, blockFraming_append,
      blockFraming_neutral before _ (fun l hl => (hlines l (by simp [hl])).2),
      blockFraming_neutral after _ (fun l hl => (hlines l (by simp [hl])).2)]
    simp only [blockFraming, List.foldl_cons, List.foldl_nil]
    exact lineFraming_contentLength digits _ hd1 hd2 hd3 hd4
  obtain ⟨s', h', hb', hc'⟩ := receiveResponse_content_length fuel s1 _ _ body tail
    (decVal digits) hg (by rw [hsock]; exact hstream) h0 hcr hfit (by exact_mod_cast hscan)
    hconf hframe hbody
    (by simp only [List.length_append, List.length_singleton]; omega)
  refine ⟨s', by rw [hc, h'], ?_, hc'⟩
  rw [hb']
  unfold sinkBody
  rw [hq.quiet_writes]

end C2

/-- C2, instance of the amended claim: the response of the specification, in its two
fragments, gives the sink `hello` and the status code 200. -/
theorem connect_content_length_witness :
    (exState exHello).sock.flatten = statusText [49] [49] [50, 48, 48] [32, 79, 75] ++ CRLF
      ++ (block ([] ++ [txtContentLengthColon ++ [53]] ++ []) ++ (CRLF
        ++ [104, 101, 108, 108, 111])) ∧
    decVal [53] = 5 ∧
    ∃ s', connect streamTransport none 20 exURL .HTTP_GET 1000 (exState exHello) = .ret .OK s' ∧
      sinkBody s'.trace = sinkBody (exState exHello).trace
        ++ [104, 101, 108, 108, 111].take (decVal [53]) ∧
      getHTTPResponseCode s' = 200 :=
  ⟨by decide, by decide,
    connect_content_length none 20 exURL .HTTP_GET 1000 (exState exHello) [49] [49]
      [32, 79, 75] [] [] [53] [104, 101, 108, 108, 111] (by decide) (by decide!) (by decide)
      (by decide) (by decide) (by decide) (by decide) (by decide) (by decide)
      (by intro h hm; simp at hm) (by decide) (by decide) (by decide)⟩

/-- C2, counterexample. A 200 response with `Content-Length: 5`, a second header whose
key has 32 characters, and the five body bytes `hello`: `connect` returns
`NET_PROTOCOL` and the sink receives nothing. -/
theorem connect_content_length_long_key :
    (connect streamTransport none 50 exURL .HTTP_GET 1000 (exState exLongKey)).code?
      = some .NET_PROTOCOL ∧
    (connect streamTransport none 50 exURL .HTTP_GET 1000 (exState exLongKey)).state?.map
      (fun s => sinkBody s.trace) = some [] := by
  constructor <;> decide!
/-! ## Claims C6 and C10 -/

/-- C6, failing input. The response `HTTP/1.1 200 OK`, `Content-Length: 5` and then the
end of the stream, with no blank line: whatever the iteration budget, `connect` has
not returned when the budget is used up; it does not return `NET_PROTOCOL`. -/
theorem connect_headers_cut_short_never_returns (fuel : Nat) :
    connect streamTransport none fuel exURL .HTTP_GET 1000 (exState exNoBlankLine)
      = .outOfFuel := by
  obtain ⟨s1, hc, hg, hsock, -, -, -⟩ := request_sent none fuel exURL .HTTP_GET 1000
    (exState exNoBlankLine) (by decide) (by rw [connectRequest_get]; decide!)
  rw [hc]
  have hscan := scanStatusLine_statusText [49] [49] [50, 48, 48] [32, 79, 75] (by decide)
    (by decide) ⟨by simp, by decide⟩ (by decide) (by decide)
  have h200 : decVal [50, 48, 48] = 200 := by decide
  rw [h200] at hscan
  exact receiveResponse_headers_truncated fuel s1 (statusText [49] [49] [50, 48, 48] [32, 79, 75])
    [32, 79, 75] [txtContentLengthColon ++ [53]] [] hg
    (by rw [hsock]; decide) (by decide) (by decide) (by decide) (by exact_mod_cast hscan)
    (by
      intro h hm
      rw [List.mem_singleton] at hm
      subst hm
      exact conforming_contentLength [53] (by decide) (by decide) (by decide) (by decide))
    (by decide) (by decide)

/-- C10, failing input. The response `HTTP/1.1 200 OK`, `Content-Length: 5`, the blank
line, the three body bytes `hel` and then the end of the stream: whatever the
iteration budget, `connect` has not returned when the budget is used up. -/
theorem connect_body_cut_short_never_returns (fuel : Nat) :
    connect streamTransport none fuel exURL .HTTP_GET 1000 (exState exShortBody)
      = .outOfFuel := by
  by_cases hf : 4 ≤ fuel
  · obtain ⟨s1, hc, hg, hsock, -, -, -⟩ := request_sent none fuel exURL .HTTP_GET 1000
      (exState exShortBody) (by decide) (by rw [connectRequest_get]; decide!)
    rw [hc]
    have hscan := scanStatusLine_statusText [49] [49] [50, 48, 48] [32, 79, 75] (by decide)
      (by decide) ⟨by simp, by decide⟩ (by decide) (by decide)
    have h200 : decVal [50, 48, 48] = 200 := by decide
    rw [h200] at hscan
    exact receiveResponse_body_truncated fuel s1 (statusText [49] [49] [50, 48, 48] [32, 79, 75])
      [32, 79, 75] [txtContentLengthColon ++ [53]] [104, 101, 108] 5 hg
      (by rw [hsock]; decide) (by decide) (by decide) (by decide) (by exact_mod_cast hscan)
      (by
        intro h hm
        rw [List.mem_singleton] at hm
        subst hm
        exact conforming_contentLength [53] (by decide) (by decide) (by decide) (by decide))
      (by
        simp only [blockFraming, List.foldl_cons, List.foldl_nil]
        exact lineFraming_contentLength [53] _ (by decide) (by decide) (by decide) (by decide))
      (by decide) (by simpa using hf)
  · have h4 : fuel < 4 := by omega
    interval_cases fuel <;> exact (isOutOfFuel_iff _).mp (by decide!)
/-! ## Claim C1 -/

/-- C1, failing input. A chunked 200 response whose only data chunk has 204 bytes, so
that the chunk data ends exactly where the first read of 255 bytes ends: the sink
receives the 204 bytes, and `connect` then returns `NET_PROTOCOL`, not `OK`. -/
theorem connect_chunk_filling_buffer_rejected :
    (connect streamTransport none 50 exURL .HTTP_GET 1000 (exState exChunk204)).code?
      = some .NET_PROTOCOL ∧
    (connect streamTransport none 50 exURL .HTTP_GET 1000 (exState exChunk204)).state?.map
      (fun s => sinkBody s.trace) = some (List.replicate 204 120) := by
  constructor <;> decide!
/-! ## Claims C15, C17 and C20 -/

/-- C15, failing input. A POST from a non-chunked source that declares 4 bytes and
hands out the chunks `ab`, `cd`, `ef`: after `cd` the total written has reached the
declared length, yet the source is read again (four reads in all, the last one
empty) and the six bytes `abcdef` are sent as the body. -/
theorem connect_post_sends_past_declared_length :
    (connect streamTransport (some (listSource false 4 none)) 10 exURL .HTTP_POST 1000
      (exPostState exHello [[97, 98], [99, 100], [101, 102]])).code? = some .OK ∧
    (connect streamTransport (some (listSource false 4 none)) 10 exURL .HTTP_POST 1000
      (exPostState exHello [[97, 98], [99, 100], [101, 102]])).state?.map
        (fun s => (sentBytes s.trace, srcReads s.trace))
      = some (requestHead .HTTP_POST [47] [104] (some (listSource false 4 none))
          ++ [97, 98, 99, 100, 101, 102], 4) := by
  constructor <;> decide!

/-- C17, failing input. The URL `http://h/a:80` is well-formed (scheme `http`, host
`h`, no port, path `/a:80`), yet `parseURL` takes the `:` of the path for the port
separator: it returns `OK` with the host `h/a` and the port 80. -/
theorem parseURL_colon_in_path_taken_for_port :
    WellFormed [104, 116, 116, 112] [104] none [47, 97, 58, 56, 48] ∧
    parseURL (mkURL [104, 116, 116, 112] [104] none [47, 97, 58, 56, 48] none) 8 32 64
      = .ok { scheme := [104, 116, 116, 112], host := [104, 47, 97], port := 80,
              path := [47, 97, 58, 56, 48] } := by
  refine ⟨⟨by decide, by decide, by decide, by decide, by decide, ?_, ?_, ?_, by decide,
    by decide, by decide⟩, by decide⟩
  · intro d hd; cases hd
  · intro d hd; cases hd
  · intro d hd; cases hd

/-- C20, failing input. A chunked 200 response whose first 255 bytes end with the CRLF
of a chunk of 202 bytes, followed by the terminating chunk: once the chunk is
delivered `trfLen` is 0, the scan for the next chunk-size line runs over the bytes
the last chunk left in the buffer, and `connect` returns `NET_PROTOCOL` with the
terminating chunk still unread on the socket. -/
theorem connect_chunk_scan_reads_stale_bytes :
    (connect streamTransport none 50 exURL .HTTP_GET 1000 (exState exChunk202)).code?
      = some .NET_PROTOCOL ∧
    (connect streamTransport none 50 exURL .HTTP_GET 1000 (exState exChunk202)).state?.map
      (fun s => (sinkBody s.trace, s.sock))
      = some (List.replicate 202 120, [[48, 13, 10, 13, 10]]) := by
  constructor <;> decide!
/-! ## Claim C19 -/

theorem conforming_chunked : Conforming (keyTransferEncoding ++ [58, 32] ++ valChunkedLower) :=
  ⟨by decide, by decide, by decide, by decide, ⟨_, _, rfl, by decide⟩⟩

/-- C19, failing input. A chunked 200 response whose chunk-size line is 300 digits
with no CRLF: the buffer fills up to 255 bytes without a CRLF, and from then on
every round of the body loop asks for a read of zero bytes and repeats; whatever
the iteration budget, `connect` has not returned when the budget is used up. -/
theorem connect_chunk_line_too_long_never_returns (fuel : Nat) :
    connect streamTransport none fuel exURL .HTTP_GET 1000 (exState exLongChunkLine)
      = .outOfFuel := by
  by_cases hf : 2 ≤ fuel
  · obtain ⟨s1, hc, hg, hsock, -, -, -⟩ := request_sent none fuel exURL .HTTP_GET 1000
      (exState exLongChunkLine) (by decide) (by rw [connectRequest_get]; decide!)
    rw [hc]
    have hscan := scanStatusLine_statusText [49] [49] [50, 48, 48] [32, 79, 75] (by decide)
      (by decide) ⟨by simp, by decide⟩ (by decide) (by decide)
    have h200 : decVal [50, 48, 48] = 200 := by decide
    rw [h200] at hscan
    have hstream : s1.sock.flatten = statusText [49] [49] [50, 48, 48] [32, 79, 75] ++ CRLF
        ++ (block [keyTransferEncoding ++ [58, 32] ++ valChunkedLower]
          ++ (CRLF ++ List.replicate 300 49)) := by
      rw [hsock]; decide!
    obtain ⟨s3, h3, hg3, hh3, hs3, -, -, -⟩ := statusLine_first_read s1 _ [32, 79, 75] _ hg
      hstream (by decide) (by decide) (by decide) (by exact_mod_cast hscan)
    have hW : (s1.sock.flatten.take 255).drop
        ((statusText [49] [49] [50, 48, 48] [32, 79, 75]).length + 2)
        = block [keyTransferEncoding ++ [58, 32] ++ valChunkedLower]
          ++ (CRLF ++ List.replicate 208 49) := by
      rw [hsock]; decide!
    have hS : s1.sock.flatten.drop 255 = List.replicate 92 49 := by
      rw [hsock]; decide!
    rw [hW] at h3 hh3
    rw [hS] at hs3
    obtain ⟨s4, h4, hh4, hl4, hs4, -, -, -⟩ := headers_buffered streamTransport
      [keyTransferEncoding ++ [58, 32] ++ valChunkedLower] (List.replicate 208 49) s3
      (0, false) fuel hg3.buf hh3
      (by
        intro h hm
        rw [List.mem_singleton] at hm
        subst hm
        exact conforming_chunked)
      (by simpa using hf)
    have hfr : blockFraming [keyTransferEncoding ++ [58, 32] ++ valChunkedLower] (0, false)
        = (0, true) := by decide
    rw [hfr] at h4
    have hb := bodyLoop_no_cr 0 fuel fuel s4 (List.replicate 208 49)
      ⟨by rw [hs4]; exact hg3.frags, hl4⟩ hh4.has
      (by simp only [List.length_replicate]; omega) (by simp only [List.length_replicate]; omega)
      (by intro c hc; rw [List.eq_of_mem_replicate hc]; decide)
      (by intro c hc; rw [hs4, hs3] at hc; rw [List.eq_of_mem_replicate hc]; decide)
    unfold receiveResponse
    simp only [bind_apply, h3, h4, hb]
  · have h2 : fuel < 2 := by omega
    interval_cases fuel <;> exact (isOutOfFuel_iff _).mp (by decide!)
/-! ## Claim C18 -/

/-- C18, counterexample. On the URL `http:///x` (nothing between `://` and the first
`/`) `parseURL` returns `OK` with an empty host. -/
theorem parseURL_empty_host :
    parseURL [104, 116, 116, 112, 58, 47, 47, 47, 120] 8 32 64
      = .ok { scheme := [104, 116, 116, 112], host := [], port := 0, path := [47, 120] } := by
  decide

/-- C18, amended. For every URL (a string of the 32-bit target) on which `parseURL`
returns `OK`: the returned scheme is the text before the first `://`, the returned
path is non-empty and begins with `/`, and the returned host is non-empty unless
the text after the `://` begins with `/`. -/
theorem parseURL_ok_components (url : List Nat) (ms mh mp : Nat) (u : ParsedURL)
    (hlen : url.length < SIZE_MOD) (h : parseURL url ms mh mp = .ok u) :
    (∃ rest, url = u.scheme ++ [58, 47, 47] ++ rest ∧
      (∀ j, j < u.scheme.length → ¬ [58, 47, 47] <+: url.drop j) ∧
      (rest.head? ≠ some 47 → u.host ≠ [])) ∧
    u.path.head? = some 47 := by
  obtain ⟨k, H, pathOff, hostLen, pathLen, hs, hH, hpth, hhost, hpl, hsch, hho, hpa, -, -⟩ :=
    parseURL_ok_shape url ms mh mp u hlen h
  obtain ⟨hk, hpre⟩ := strstr_some_bound _ _ _ hs
  simp only [List.length_cons, List.length_nil] at hk
  have hfirst := strstr_some_first _ _ _ hs
  have htl : (url.take k).length = k := by rw [List.length_take]; omega
  obtain ⟨hpo, hpd⟩ := strchr_some _ _ _ hpth
  refine ⟨⟨H, ?_, ?_, ?_⟩, ?_⟩
  · obtain ⟨t, ht⟩ := hpre
    have : H = t := by
      rw [← hH, ← List.drop_drop, ← ht]
      simp
    rw [hsch, this, List.append_assoc, ht, List.take_append_drop]
  · rw [hsch, htl]
    exact hfirst
  · intro hne
    rw [hho]
    have hH0 : H ≠ [] := by
      intro he
      rw [he] at hpo
      simp at hpo
    have hl : hostLen ≠ 0 := by
      rcases hhost with he | ⟨hp, -⟩
      · intro h0
        apply hne
        rw [← strchr_zero_iff, hpth, ← he, h0]
      · omega
    intro he
    rcases List.take_eq_nil_iff.mp he with h0 | h0
    · exact hl h0
    · exact hH0 h0
  · rw [hpa, hpd]
    obtain ⟨n, hn⟩ : ∃ n, pathLen = n + 1 := ⟨pathLen - 1, by omega⟩
    rw [hn, List.take_succ_cons]
    rfl

/-- C18, instance of the amended claim: the URL `h://h/`. -/
theorem parseURL_ok_components_witness :
    (∃ rest, exURL = [104] ++ [58, 47, 47] ++ rest ∧
      (∀ j, j < [104].length → ¬ [58, 47, 47] <+: exURL.drop j) ∧
      (rest.head? ≠ some 47 → [104] ≠ [])) ∧
    [47].head? = some 47 :=
  parseURL_ok_components exURL 8 32 64
    { scheme := [104], host := [104], port := 0, path := [47] } (by decide) (by decide)
/-! ## Claim C11: `HTTPClient::send` over any transport -/

section SendAny

variable {σ δ : Type}

theorem getLast?_cons_ne {α : Type} (a : α) (l : List α) (h : l ≠ []) :
    (a :: l).getLast? = l.getLast? := by
  cases l with
  | nil => exact absurd rfl h
  | cons b t => rw [List.getLast?_cons_cons]

theorem sendLoop_run (T : Transport σ) (data : List Nat)
    (hT : ∀ s0 d t, (T.send s0 d t).1 ≤ d.length) (fuel : Nat) :
    ∀ (written : Nat) (s : State σ δ), written < data.length → data.length < fuel + written →
      ∃ rets e s', sendLoop T data fuel written s = .cont e s' ∧ rets ≠ [] ∧
        SendRun T s.timeout data written s.sock rets s'.sock ∧
        s'.trace = (sendCalls s.timeout data written rets).reverse ++ s.trace ∧
        (∀ r ∈ rets.dropLast, 0 < r) ∧
        written + posSum rets ≤ data.length ∧
        (e = .OK ↔ written + posSum rets = data.length) ∧
        (e = .NET_CLOSED ↔ rets.getLast? = some 0) ∧
        (e = .NET_CONN ↔ ∃ r, rets.getLast? = some r ∧ r < 0) ∧
        accepted data written rets = (data.drop written).take (posSum rets) ∧
        s'.buf = s.buf ∧ s'.src = s.src ∧ s'.code = s.code ∧ s'.timeout = s.timeout := by
  induction fuel with
  | zero => intro written s hw hf; omega
  | succ fuel ih =>
    intro written s hw hf
    have hle := hT s.sock (data.drop written) s.timeout
    rw [List.length_drop] at hle
    generalize hr : (T.send s.sock (data.drop written) s.timeout).1 = ret at hle
    generalize hs1 : (T.send s.sock (data.drop written) s.timeout).2 = sock1
    obtain ⟨s1, hstep, hq1, ht1, hb1, hsr1, hc1, hto1⟩ : ∃ s1 : State σ δ,
        sockSend T (data.drop written) s.timeout s = .cont ret s1 ∧ s1.sock = sock1 ∧
        s1.trace = .sockSend (data.drop written) s.timeout :: s.trace ∧ s1.buf = s.buf ∧
        s1.src = s.src ∧ s1.code = s.code ∧ s1.timeout = s.timeout :=
      ⟨{ sock := sock1, src := s.src, buf := s.buf, code := s.code, timeout := s.timeout,
         trace := .sockSend (data.drop written) s.timeout :: s.trace },
        by simp only [sockSend, hr, hs1], rfl, rfl, rfl, rfl, rfl, rfl⟩
    unfold sendLoop
    simp only [bind_apply, getTimeout, hstep]
    by_cases hpos : 0 < ret
    · have hnat : (ret.toNat : Int) = ret := Int.toNat_of_nonneg (le_of_lt hpos)
      have hn1 : 1 ≤ ret.toNat := by omega
      have hn2 : ret.toNat ≤ data.length - written := by omega
      simp only [hpos, if_true]
      by_cases hmore : written + ret.toNat < data.length
      · simp only [hmore, if_true]
        obtain ⟨rets, e, s', h1, hne, hrun, htr, hdl, hsum, hok, hcl, hco, hacc, hb, hsr, hc, hto⟩ :=
          ih (written + ret.toNat) s1 hmore (by omega)
        rw [hto1, hq1] at hrun
        rw [hto1, ht1] at htr
        refine ⟨ret :: rets, e, s', h1, by simp, ⟨hr, by rw [hs1]; exact hrun⟩, ?_, ?_, ?_, ?_,
          ?_, ?_, ?_, hb.trans hb1, hsr.trans hsr1, hc.trans hc1, hto.trans hto1⟩
        · rw [htr]
          simp [sendCalls]
        · intro r hm
          rw [List.dropLast_cons_of_ne_nil hne] at hm
          rcases List.mem_cons.mp hm with h | h
          · rw [h]; exact hpos
          · exact hdl r h
        · simp only [posSum, List.map_cons, List.sum_cons] at hsum ⊢
          omega
        · rw [hok]
          simp only [posSum, List.map_cons, List.sum_cons]
          omega
        · rw [hcl, getLast?_cons_ne _ _ hne]
        · rw [hco, getLast?_cons_ne _ _ hne]
        · simp only [accepted, hacc, posSum, List.map_cons, List.sum_cons]
          rw [List.take_add, List.drop_drop]
      · simp only [hmore, if_false, pure_apply]
        refine ⟨[ret], .OK, s1, rfl, by simp, ⟨hr, by rw [hs1, hq1]; rfl⟩,
          by rw [ht1]; simp [sendCalls], by simp, ?_, ?_, ?_, ?_, ?_, hb1, hsr1, hc1, hto1⟩
        · simp only [posSum, List.map_cons, List.map_nil, List.sum_cons, List.sum_nil]; omega
        · simp only [posSum, List.map_cons, List.map_nil, List.sum_cons, List.sum_nil]
          constructor
          · intro _; omega
          · intro _; trivial
        · simp only [List.getLast?_singleton, Option.some.injEq]
          constructor
          · intro h; cases h
          · intro h; omega
        · constructor
          · intro h; cases h
          · rintro ⟨r, h1, h2⟩
            simp only [List.getLast?_singleton, Option.some.injEq] at h1
            omega
        · simp [accepted, posSum]
    · simp only [hpos, if_false]
      have h0 : ret.toNat = 0 := by omega
      by_cases hz : ret = 0
      · simp only [hz, if_true, pure_apply]
        refine ⟨[0], .NET_CLOSED, s1, rfl, by simp, ⟨by rw [hr, hz], by rw [hs1, hq1]; rfl⟩,
          by rw [ht1]; simp [sendCalls], by simp, ?_, ?_, ?_, ?_, ?_, hb1, hsr1, hc1, hto1⟩
        · simp [posSum]; omega
        · simp only [posSum, List.map_cons, List.map_nil, List.sum_cons, List.sum_nil]
          constructor
          · intro h; cases h
          · intro h
            simp at h
            omega
        · simp
        · constructor
          · intro h; cases h
          · rintro ⟨r, h1, h2⟩
            simp only [List.getLast?_singleton, Option.some.injEq] at h1
            omega
        · simp [accepted, posSum]
      · simp only [hz, if_false, pure_apply]
        refine ⟨[ret], .NET_CONN, s1, rfl, by simp, ⟨hr, by rw [hs1, hq1]; rfl⟩,
          by rw [ht1]; simp [sendCalls], by simp, ?_, ?_, ?_, ?_, ?_, hb1, hsr1, hc1, hto1⟩
        · simp only [posSum, List.map_cons, List.map_nil, List.sum_cons, List.sum_nil]; omega
        · simp only [posSum, List.map_cons, List.map_nil, List.sum_cons, List.sum_nil]
          constructor
          · intro h; cases h
          · intro h; omega
        · simp only [List.getLast?_singleton, Option.some.injEq]
          constructor
          · intro h; cases h
          · intro h; exact absurd h hz
        · constructor
          · intro _; exact ⟨ret, by simp, by omega⟩
          · intro _; rfl
        · simp [accepted, posSum, h0]

/-- C11. For every transport whose `send` returns at most the count it is offered and
every non-empty `data`, `HTTPClient::send` ends after finitely many writes, each of
which offers the unsent suffix of `data`; every write but the last returns a
positive count; the result is `OK` exactly when the positive returns add up to the
length of `data`, in which case the bytes accepted are `data` itself, `NET_CLOSED`
exactly when the last write returned 0 and `NET_CONN` exactly when it returned a
negative value; nothing but the socket and the trace changes. -/
theorem send_contract (T : Transport σ) (data : List Nat) (s : State σ δ)
    (hne : data ≠ []) (hT : ∀ s0 d t, (T.send s0 d t).1 ≤ d.length) :
    ∃ rets e s', send T data s = .cont e s' ∧ rets ≠ [] ∧
      SendRun T s.timeout data 0 s.sock rets s'.sock ∧
      s'.trace = (sendCalls s.timeout data 0 rets).reverse ++ s.trace ∧
      (∀ r ∈ rets.dropLast, 0 < r) ∧
      (e = .OK ↔ posSum rets = data.length) ∧
      (e = .NET_CLOSED ↔ rets.getLast? = some 0) ∧
      (e = .NET_CONN ↔ ∃ r, rets.getLast? = some r ∧ r < 0) ∧
      accepted data 0 rets = data.take (posSum rets) ∧
      (e = .OK → accepted data 0 rets = data) ∧
      s'.buf = s.buf ∧ s'.src = s.src ∧ s'.code = s.code ∧ s'.timeout = s.timeout := by
  obtain ⟨rets, e, s', h1, hn, hrun, htr, hdl, -, hok, hcl, hco, hacc, hb, hsr, hc, hto⟩ :=
    sendLoop_run T data hT (data.length + 1) 0 s (List.length_pos.mpr hne) (by omega)
  rw [Nat.zero_add] at hok
  rw [List.drop_zero] at hacc
  refine ⟨rets, e, s', h1, hn, hrun, htr, hdl, hok, hcl, hco, hacc, ?_, hb, hsr, hc, hto⟩
  intro he
  rw [hacc, hok.mp he, List.take_length]

end SendAny

/-- C11, instance: three bytes sent over the fragment transport, which accepts every
write in full. -/
theorem send_contract_witness :
    ∃ rets e s', send streamTransport [1, 2, 3] (exState []) = .cont e s' ∧ rets ≠ [] ∧
      SendRun streamTransport (exState []).timeout [1, 2, 3] 0 (exState []).sock rets s'.sock ∧
      s'.trace = (sendCalls (exState []).timeout [1, 2, 3] 0 rets).reverse
        ++ (exState []).trace ∧
      (∀ r ∈ rets.dropLast, 0 < r) ∧
      (e = .OK ↔ posSum rets = [1, 2, 3].length) ∧
      (e = .NET_CLOSED ↔ rets.getLast? = some 0) ∧
      (e = .NET_CONN ↔ ∃ r, rets.getLast? = some r ∧ r < 0) ∧
      accepted [1, 2, 3] 0 rets = [1, 2, 3].take (posSum rets) ∧
      (e = .OK → accepted [1, 2, 3] 0 rets = [1, 2, 3]) ∧
      s'.buf = (exState []).buf ∧ s'.src = (exState []).src ∧ s'.code = (exState []).code ∧
      s'.timeout = (exState []).timeout :=
  send_contract streamTransport [1, 2, 3] (exState []) (by decide)
    (by intro s0 d t; simp [streamTransport])
/-! ## Claim C12: `HTTPClient::recv` over any transport -/

section RecvAny

variable {σ δ : Type}

theorem recvLoop_run (T : Transport σ) (off minLen maxLen : Nat) (hmin : minLen ≤ maxLen)
    (hoff : off + maxLen ≤ CHUNK_SIZE)
    (hT : ∀ s0 len t, (T.receive s0 len t).1.bytes.length ≤ len) (fuel : Nat) :
    ∀ (readLen : Nat) (s : State σ δ), s.buf.length = CHUNK_SIZE → readLen ≤ maxLen →
      maxLen ≤ fuel + readLen →
      ∃ rets e n s', recvLoop T off minLen maxLen fuel readLen s = .cont (e, n) s' ∧
        RecvRun T s.timeout minLen maxLen readLen s.sock rets s'.sock ∧
        s'.trace = (recvCalls s.timeout minLen maxLen readLen rets).reverse ++ s.trace ∧
        n = readLen + (received rets).length ∧ n ≤ maxLen ∧
        s'.buf = s.buf.take (off + readLen) ++ received rets ++ s.buf.drop (off + n) ∧
        (∀ r ∈ rets.dropLast, ∃ bs, r = .data bs ∧ bs ≠ []) ∧
        (e = .OK ∨ e = .NET_CONN) ∧
        (e = .NET_CONN ↔ rets.getLast? = some .error) ∧
        (e = .OK → n < maxLen → rets.getLast? = some (.data [])) ∧
        s'.src = s.src ∧ s'.code = s.code ∧ s'.timeout = s.timeout := by
  induction fuel with
  | zero =>
    intro readLen s hb hr hf
    refine ⟨[], .OK, readLen, s, rfl, rfl, by simp [recvCalls], by simp [received], hr, ?_,
      by simp, Or.inl rfl, by simp, ?_, rfl, rfl, rfl⟩
    · simp [received]
    · intro _ hlt; omega
  | succ fuel ih =>
    intro readLen s hb hr hf
    unfold recvLoop
    by_cases hlt : readLen < maxLen
    · have hask : (if readLen < minLen then minLen - readLen else maxLen - readLen)
          = recvAsk minLen maxLen readLen := rfl
      have hwait : (if readLen < minLen then s.timeout else 0)
          = recvWait s.timeout minLen readLen := rfl
      have hal : recvAsk minLen maxLen readLen ≤ maxLen - readLen := by
        unfold recvAsk; split <;> omega
      have hle := hT s.sock (recvAsk minLen maxLen readLen) (recvWait s.timeout minLen readLen)
      generalize hret : (T.receive s.sock (recvAsk minLen maxLen readLen)
        (recvWait s.timeout minLen readLen)).1 = ret at hle
      generalize hs1 : (T.receive s.sock (recvAsk minLen maxLen readLen)
        (recvWait s.timeout minLen readLen)).2 = sock1
      simp only [hlt, if_true, bind_apply, getTimeout, hask, hwait, sockReceive, hret, hs1]
      cases ret with
      | error =>
        simp only [pure_apply]
        refine ⟨[.error], .NET_CONN, readLen, _, rfl, ⟨hret, hs1.symm ▸ rfl⟩,
          by simp [recvCalls], by simp [received, RecvRet.bytes], hr, ?_, by simp,
          Or.inr rfl, by simp, ?_, rfl, rfl, rfl⟩
        · simp [received, RecvRet.bytes]
        · intro h; cases h
      | data bs =>
        simp only [RecvRet.bytes] at hle
        simp only [show ¬ recvAsk minLen maxLen readLen < bs.length by omega, if_false]
        by_cases hbs : bs = []
        · subst hbs
          simp only [if_true, pure_apply]
          refine ⟨[.data []], .OK, readLen, _, rfl, ⟨hret, hs1.symm ▸ rfl⟩,
            by simp [recvCalls], by simp [received, RecvRet.bytes], hr, ?_, by simp,
            Or.inl rfl, by simp, ?_, rfl, rfl, rfl⟩
          · simp [received, RecvRet.bytes]
          · intro _ _; simp
        · have hbpos : 0 < bs.length := List.length_pos.mpr hbs
          have hstore : off + readLen + bs.length ≤ CHUNK_SIZE := by omega
          simp only [hbs, if_false, bind_apply, storeBuf, hstore, if_true]
          obtain ⟨s1, hs1eq, hq1, ht1, hb1, hsr1, hc1, hto1⟩ : ∃ s1 : State σ δ,
              s1 = { sock := sock1, src := s.src,
                     buf := s.buf.take (off + readLen) ++ bs
                       ++ s.buf.drop (off + readLen + bs.length),
                     code := s.code, timeout := s.timeout,
                     trace := .sockReceive (recvAsk minLen maxLen readLen)
                       (recvWait s.timeout minLen readLen) :: s.trace } ∧
              s1.sock = sock1 ∧
              s1.trace = .sockReceive (recvAsk minLen maxLen readLen)
                (recvWait s.timeout minLen readLen) :: s.trace ∧
              s1.buf = s.buf.take (off + readLen) ++ bs
                ++ s.buf.drop (off + readLen + bs.length) ∧
              s1.src = s.src ∧ s1.code = s.code ∧ s1.timeout = s.timeout :=
            ⟨_, rfl, rfl, rfl, rfl, rfl, rfl, rfl⟩
          rw [← hs1eq]
          have hb1l : s1.buf.length = CHUNK_SIZE := by
            rw [hb1]
            simp only [List.length_append, List.length_take, List.length_drop]
            omega
          obtain ⟨rets, e, n, s', h1, hrun, htr, hn, hnm, hbuf, hdl, hor, hco, hok, hsr, hc, hto⟩ :=
            ih (readLen + bs.length) s1 hb1l (by omega) (by omega)
          rw [hto1, hq1] at hrun
          rw [hto1, ht1] at htr
          refine ⟨.data bs :: rets, e, n, s', h1, ⟨hret, by rw [hs1]; exact hrun⟩, ?_, ?_, hnm,
            ?_, ?_, hor, ?_, ?_, hsr.trans hsr1, hc.trans hc1, hto.trans hto1⟩
          · rw [htr]
            simp [recvCalls, RecvRet.bytes]
          · rw [hn]
            simp only [received, List.map_cons, List.flatten_cons, List.length_append,
              RecvRet.bytes]
            omega
          · rw [hbuf, hb1]
            have hy : (received rets).length = n - (readLen + bs.length) := by omega
            have := store_store s.buf bs (received rets) (off + readLen) (by omega)
            have e1 : off + (readLen + bs.length) = off + readLen + bs.length := by omega
            have e2 : off + n = off + readLen + bs.length + (received rets).length := by omega
            rw [e1, e2, this]
            simp only [received, List.map_cons, List.flatten_cons, RecvRet.bytes,
              List.length_append]
            rw [Nat.add_assoc (off + readLen)]
          · intro r hm
            cases rets with
            | nil => simp at hm
            | cons r0 rs =>
              rw [List.dropLast_cons_of_ne_nil (by simp)] at hm
              rcases List.mem_cons.mp hm with h | h
              · exact ⟨bs, h, hbs⟩
              · exact hdl r h
          · rw [hco]
            cases rets with
            | nil => simp
            | cons r0 rs => rw [List.getLast?_cons_cons]
          · intro he hl
            have := hok he hl
            cases rets with
            | nil => simp at this
            | cons r0 rs => rw [List.getLast?_cons_cons]; exact this
    · have : readLen = maxLen := by omega
      simp only [hlt, if_false, pure_apply]
      refine ⟨[], .OK, readLen, s, rfl, rfl, by simp [recvCalls], by simp [received], hr, ?_,
        by simp, Or.inl rfl, by simp, ?_, rfl, rfl, rfl⟩
      · simp [received]
      · intro _ hl; omega

/-- C12. For every transport whose `receive` returns at most the count requested, every
`minLen ≤ maxLen` and every position `off` that leaves room for `maxLen` bytes in
the buffer, `HTTPClient::recv` ends after finitely many reads with `OK` or
`NET_CONN`. The count it reports is the number of bytes received, at most
`maxLen`; the buffer holds the received fragments from `off` on, concatenated in
arrival order, and is otherwise unchanged; every read but the last stored at
least one byte. The result is `NET_CONN` exactly when the last read returned a
negative value, and when it is `OK` with fewer than `maxLen` bytes the last
read returned zero. -/
theorem recv_contract (T : Transport σ) (off minLen maxLen : Nat) (s : State σ δ)
    (hmin : minLen ≤ maxLen) (hoff : off + maxLen ≤ CHUNK_SIZE)
    (hbuf : s.buf.length = CHUNK_SIZE)
    (hT : ∀ s0 len t, (T.receive s0 len t).1.bytes.length ≤ len) :
    ∃ rets e n s', recv T off minLen maxLen s = .cont (e, n) s' ∧
      RecvRun T s.timeout minLen maxLen 0 s.sock rets s'.sock ∧
      s'.trace = (recvCalls s.timeout minLen maxLen 0 rets).reverse ++ s.trace ∧
      n = (received rets).length ∧ n ≤ maxLen ∧
      (s'.buf.drop off).take n = received rets ∧
      s'.buf.take off = s.buf.take off ∧ s'.buf.drop (off + n) = s.buf.drop (off + n) ∧
      (∀ r ∈ rets.dropLast, ∃ bs, r = .data bs ∧ bs ≠ []) ∧
      (e = .OK ∨ e = .NET_CONN) ∧
      (e = .NET_CONN ↔ rets.getLast? = some .error) ∧
      (e = .OK → n < maxLen → rets.getLast? = some (.data [])) ∧
      s'.src = s.src ∧ s'.code = s.code ∧ s'.timeout = s.timeout := by
  obtain ⟨rets, e, n, s', h1, hrun, htr, hn, hnm, hb, hdl, hor, hco, hok, hsr, hc, hto⟩ :=
    recvLoop_run T off minLen maxLen hmin hoff hT maxLen 0 s hbuf (Nat.zero_le _) (by omega)
  rw [Nat.zero_add] at hn
  rw [Nat.add_zero] at hb
  have hl : (s.buf.take off).length = off := by
    rw [List.length_take]; omega
  have hl2 : (s.buf.take off ++ received rets).length = off + n := by
    rw [List.length_append, hl, hn]
  refine ⟨rets, e, n, s', h1, hrun, htr, hn, hnm, ?_, ?_, ?_, hdl, hor, hco, hok, hsr, hc, hto⟩
  · rw [hb, List.append_assoc, drop_append_len _ _ _ hl, hn, List.take_left]
  · rw [hb, List.append_assoc, take_append_len _ _ _ hl]
  · rw [hb, drop_append_len _ _ _ hl2]

end RecvAny

/-- C12, instance: a read of one to three bytes at the start of the buffer, over the
fragment transport with the fragments `[1, 2]` and `[3]` pending. -/
theorem recv_contract_witness :
    ∃ rets e n s', recv streamTransport 0 1 3 exRecvState = .cont (e, n) s' ∧
      RecvRun streamTransport exRecvState.timeout 1 3 0 exRecvState.sock rets s'.sock ∧
      s'.trace = (recvCalls exRecvState.timeout 1 3 0 rets).reverse ++ exRecvState.trace ∧
      n = (received rets).length ∧ n ≤ 3 ∧
      (s'.buf.drop 0).take n = received rets ∧
      s'.buf.take 0 = exRecvState.buf.take 0 ∧
      s'.buf.drop (0 + n) = exRecvState.buf.drop (0 + n) ∧
      (∀ r ∈ rets.dropLast, ∃ bs, r = .data bs ∧ bs ≠ []) ∧
      (e = .OK ∨ e = .NET_CONN) ∧
      (e = .NET_CONN ↔ rets.getLast? = some .error) ∧
      (e = .OK → n < 3 → rets.getLast? = some (.data [])) ∧
      s'.src = exRecvState.src ∧ s'.code = exRecvState.code ∧
      s'.timeout = exRecvState.timeout :=
  recv_contract streamTransport 0 1 3 exRecvState (by decide) (by decide)
    (List.length_replicate _ _)
    (by
      intro s0 len t
      cases s0 with
      | nil => simp [streamTransport, RecvRet.bytes]
      | cons f fs =>
        simp only [streamTransport]
        split
        · simpa [RecvRet.bytes]
        · simp [RecvRet.bytes])
/-! ## Claim C13: the request over a transport that accepts every write -/

section RequestAny

variable {σ δ : Type}

theorem sentBytes_send (data : List Nat) (tmo : Nat) (t : List Event) :
    sentBytes (.sockSend data tmo :: t) = sentBytes t ++ data := by
  simp [sentBytes, sentData]

/-- A `send` over a transport that accepts every write: one write of the whole data. -/
theorem send_all (T : Transport σ) (hacc : AcceptsAll T) (data : List Nat) (s : State σ δ)
    (hne : data ≠ []) :
    ∃ s', send T data s = .cont .OK s' ∧
      s'.trace = .sockSend data s.timeout :: s.trace ∧ s'.buf = s.buf ∧ s'.src = s.src ∧
      s'.code = s.code ∧ s'.timeout = s.timeout := by
  have hr := hacc s.sock data s.timeout
  have hpos : 0 < data.length := List.length_pos.mpr hne
  refine ⟨{ s with sock := (T.send s.sock data s.timeout).2,
                   trace := .sockSend data s.timeout :: s.trace }, ?_, rfl, rfl, rfl, rfl, rfl⟩
  unfold send sendLoop
  simp only [bind_apply, getTimeout, sockSend, List.drop_zero, hr]
  have h1 : (0 : Int) < (data.length : Int) := by exact_mod_cast hpos
  simp only [h1, if_true, Int.toNat_ofNat, Nat.zero_add, Nat.lt_irrefl, if_false, pure_apply]

/-- A `send(buf)` after `snprintf` of a text without NUL that fits the buffer. -/
theorem sendText_all (T : Transport σ) (hacc : AcceptsAll T) (text : List Nat) (s : State σ δ)
    (hne : text ≠ []) (h0 : (0 : Nat) ∉ text) (hlen : text.length ≤ 255)
    (hb : s.buf.length = CHUNK_SIZE) :
    ∃ s', sendText T text s = .cont .OK s' ∧
      s'.trace = .sockSend text s.timeout :: s.trace ∧ s'.buf.length = CHUNK_SIZE ∧
      s'.src = s.src ∧ s'.code = s.code ∧ s'.timeout = s.timeout := by
  have htk : text.take (CHUNK_SIZE - 1) = text := List.take_of_length_le (by
    simp only [CHUNK_SIZE]; omega)
  have hst := storeBuf_eq 0 (text.take (CHUNK_SIZE - 1) ++ [0]) s (by
    rw [htk]; simp only [List.length_append, List.length_singleton, CHUNK_SIZE]; omega)
  rw [htk] at hst
  obtain ⟨s1, hs1, hb1, hq1, ht1, hsr1, hc1, hto1⟩ : ∃ s1 : State σ δ,
      storeBuf 0 (text ++ [0]) s = .cont () s1 ∧
      s1.buf = text ++ 0 :: s.buf.drop (text.length + 1) ∧ s1.sock = s.sock ∧
      s1.trace = s.trace ∧ s1.src = s.src ∧ s1.code = s.code ∧ s1.timeout = s.timeout :=
    ⟨_, hst, by simp, rfl, rfl, rfl, rfl, rfl⟩
  have hc : cstr s1.buf = text := by
    rw [hb1, cstr_append_zero, cstr_of_no_zero _ h0]
  obtain ⟨s2, h2, ht2, hb2, hsr2, hc2, hto2⟩ := send_all T hacc text s1 hne
  refine ⟨s2, ?_, by rw [ht2, hto1, ht1], ?_, hsr2.trans hsr1, hc2.trans hc1,
    hto2.trans hto1⟩
  · unfold sendText
    rw [htk]
    simp only [bind_apply, hs1, getBuf, hc, h2]
  · rw [hb2, hb1]
    simp only [List.length_append, List.length_cons, List.length_drop, hb, CHUNK_SIZE]
    omega

theorem srcReads_send (data : List Nat) (tmo : Nat) (t : List Event) :
    srcReads (.sockSend data tmo :: t) = srcReads t := rfl

theorem toBase_no_zero (b : Nat) (digit : Nat → Nat) (hd : ∀ d, digit d ≠ 0) (fuel : Nat) :
    ∀ (n : Nat) (acc : List Nat), (0 : Nat) ∉ acc → (0 : Nat) ∉ toBase b digit fuel n acc := by
  induction fuel with
  | zero => intro n acc h; exact h
  | succ fuel ih =>
    intro n acc h
    have hacc : (0 : Nat) ∉ digit (n % b) :: acc := by
      simp only [List.mem_cons, not_or]
      exact ⟨fun e => hd _ e.symm, h⟩
    unfold toBase
    split
    · exact hacc
    · exact ih _ _ hacc

theorem toBase_length (digit : Nat → Nat) (fuel : Nat) :
    ∀ (n : Nat) (acc : List Nat) (k : Nat), n < 10 ^ (k + 1) →
      (toBase 10 digit fuel n acc).length ≤ acc.length + (k + 1) := by
  induction fuel with
  | zero => intro n acc k _; simp [toBase]
  | succ fuel ih =>
    intro n acc k hn
    unfold toBase
    split
    · simp
    · rename_i hq
      cases k with
      | zero =>
        exfalso
        apply hq
        simp only [Nat.zero_add, Nat.pow_one] at hn
        omega
      | succ k =>
        have hdiv : n / 10 < 10 ^ (k + 1) := by
          rw [Nat.div_lt_iff_lt_mul (by decide)]
          rw [Nat.pow_succ] at hn
          exact hn
        have := ih (n / 10) (digit (n % 10) :: acc) k hdiv
        simp only [List.length_cons] at this
        omega

theorem toBase_ne_nil (b : Nat) (digit : Nat → Nat) (fuel n : Nat) (acc : List Nat)
    (h : acc ≠ [] ∨ fuel ≠ 0) : toBase b digit fuel n acc ≠ [] := by
  induction fuel generalizing n acc with
  | zero =>
    rcases h with h | h
    · exact h
    · exact absurd rfl h
  | succ fuel ih =>
    unfold toBase
    split
    · simp
    · exact ih _ _ (Or.inl (by simp))

theorem printNat_props (n : Nat) (hn : n < 2 ^ 31) :
    printInt n = printNat n ∧ (0 : Nat) ∉ printNat n ∧ (printNat n).length ≤ 10 ∧
    printNat n ≠ [] := by
  refine ⟨?_, ?_, ?_, ?_⟩
  · unfold printInt
    have hm : n % SIZE_MOD = n := Nat.mod_eq_of_lt (by simp only [SIZE_MOD]; omega)
    simp only [hm, hn, if_true]
  · exact toBase_no_zero 10 _ (fun d => by omega) _ _ _ (by simp)
  · have := toBase_length (fun d => 48 + d) (n + 1) n [] 9 (by omega)
    simpa [printNat] using this
  · exact toBase_ne_nil _ _ _ _ _ (Or.inr (by omega))

/-- The headers that describe the body of a POST, over a transport that accepts every
write. -/
theorem sendBodyHeaders_all (T : Transport σ) (hacc : AcceptsAll T) (D : DataOut δ)
    (s : State σ δ) (hb : s.buf.length = CHUNK_SIZE)
    (hlen : D.isChunked = false → D.dataLen < 2 ^ 31)
    (hty : ∀ ty, D.dataType = some ty → ty.length < 48 ∧ (0 : Nat) ∉ ty) :
    ∃ s', sendBodyHeaders T D s = .cont () s' ∧
      sentBytes s'.trace = sentBytes s.trace ++ bodyHeaderText D ∧
      srcReads s'.trace = srcReads s.trace ∧ s'.buf.length = CHUNK_SIZE ∧
      s'.src = s.src ∧ s'.code = s.code ∧ s'.timeout = s.timeout := by
  -- the framing header
  obtain ⟨s1, h1, ht1, hb1, hsr1, hc1, hto1⟩ : ∃ s1,
      (if D.isChunked then send T txtChunkedLine
        else sendText T (txtContentLengthColon ++ printInt D.dataLen ++ CRLF)
        : M σ δ NetErr) s = .cont .OK s1 ∧
      s1.trace = .sockSend (if D.isChunked then txtChunkedLine
        else txtContentLengthColon ++ printNat D.dataLen ++ CRLF) s.timeout :: s.trace ∧
      s1.buf.length = CHUNK_SIZE ∧ s1.src = s.src ∧ s1.code = s.code ∧
      s1.timeout = s.timeout := by
    by_cases hch : D.isChunked = true
    · simp only [hch, if_true]
      obtain ⟨s1, h1, ht1, hb1, hsr1, hc1, hto1⟩ := send_all T hacc txtChunkedLine s (by decide)
      exact ⟨s1, h1, ht1, by rw [hb1]; exact hb, hsr1, hc1, hto1⟩
    · simp only [hch, if_false]
      obtain ⟨hp1, hp2, hp3, -⟩ := printNat_props D.dataLen (hlen (by simpa using hch))
      rw [hp1]
      exact sendText_all T hacc _ s (by simp [txtContentLengthColon])
        (by
          simp only [List.mem_append, not_or]
          exact ⟨⟨by decide, hp2⟩, by decide⟩)
        (by
          simp only [List.length_append, txtContentLengthColon, CRLF, List.length_cons,
            List.length_nil]
          omega) hb
  unfold sendBodyHeaders
  simp only [bind_apply, h1, CHECK_CONN_ERR_OK]
  cases hdt : D.dataType with
  | none =>
    refine ⟨s1, rfl, ?_, ?_, hb1, hsr1, hc1, hto1⟩
    · rw [ht1, sentBytes_send]
      simp [bodyHeaderText, hdt]
    · rw [ht1, srcReads_send]
  | some ty =>
    obtain ⟨hl, h0⟩ := hty ty hdt
    simp only [show ¬ 48 ≤ ty.length by omega, if_false]
    obtain ⟨s2, h2, ht2, hb2, hsr2, hc2, hto2⟩ := sendText_all T hacc
      (txtContentTypeColon ++ ty ++ CRLF) s1 (by simp [txtContentTypeColon])
      (by
        simp only [List.mem_append, not_or]
        exact ⟨⟨by decide, h0⟩, by decide⟩)
      (by
        simp only [List.length_append, txtContentTypeColon, CRLF, List.length_cons,
          List.length_nil]
        omega) hb1
    refine ⟨s2, ?_, ?_, ?_, hb2, hsr2.trans hsr1, hc2.trans hc1, hto2.trans hto1⟩
    · simp only [bind_apply, h2, CHECK_CONN_ERR_OK]
    · rw [ht2, sentBytes_send, ht1, sentBytes_send]
      simp [bodyHeaderText, hdt, List.append_assoc]
    · rw [ht2, srcReads_send, ht1, srcReads_send]

theorem requestHead_eq (method : HTTP_METH) (path host : List Nat) (D : Option (DataOut δ)) :
    requestHead method path host D
      = methText method ++ [32] ++ path ++ txtHttpHost ++ host ++ CRLF
        ++ postHeaderText method D ++ CRLF := rfl

theorem sendRequest_headers (T : Transport σ) (hacc : AcceptsAll T) (D : Option (DataOut δ))
    (method : HTTP_METH) (s1 : State σ δ) (hb1 : s1.buf.length = CHUNK_SIZE)
    (hD : ∀ d, D = some d → (d.isChunked = false → d.dataLen < 2 ^ 31) ∧
      ∀ ty, d.dataType = some ty → ty.length < 48 ∧ (0 : Nat) ∉ ty) :
    ∃ s2, (match method, D with
        | .HTTP_POST, some d => sendBodyHeaders T d
        | _, _ => pure () : M σ δ Unit) s1 = .cont () s2 ∧
      sentBytes s2.trace = sentBytes s1.trace ++ postHeaderText method D ∧
      srcReads s2.trace = srcReads s1.trace ∧ s2.buf.length = CHUNK_SIZE ∧
      s2.src = s1.src ∧ s2.code = s1.code ∧ s2.timeout = s1.timeout := by
  cases method with
  | HTTP_GET => exact ⟨s1, rfl, by simp [postHeaderText], rfl, hb1, rfl, rfl, rfl⟩
  | HTTP_POST =>
    cases D with
    | none => exact ⟨s1, rfl, by simp [postHeaderText], rfl, hb1, rfl, rfl, rfl⟩
    | some d =>
      obtain ⟨hl, hty⟩ := hD d rfl
      exact sendBodyHeaders_all T hacc d s1 hb1 hl hty

/-- The request line, the headers and the blank line, over a transport that accepts
every write: the bytes sent are the request head, and what remains to run is the
loop that sends the body of a POST. -/
theorem sendRequest_head (T : Transport σ) (hacc : AcceptsAll T) (D : Option (DataOut δ))
    (method : HTTP_METH) (host path : List Nat) (fuel : Nat) (s : State σ δ)
    (hb : s.buf.length = CHUNK_SIZE) (hh : host.length < 32) (hp : path.length < 64)
    (hh0 : (0 : Nat) ∉ host) (hp0 : (0 : Nat) ∉ path)
    (hD : ∀ d, D = some d → (d.isChunked = false → d.dataLen < 2 ^ 31) ∧
      ∀ ty, d.dataType = some ty → ty.length < 48 ∧ (0 : Nat) ∉ ty) :
    ∃ s1, sendRequest T D method host path fuel s
        = sendBody T D method fuel s1 ∧
      sentBytes s1.trace = sentBytes s.trace ++ requestHead method path host D ∧
      srcReads s1.trace = srcReads s.trace ∧ s1.buf.length = CHUNK_SIZE ∧
      s1.src = s.src ∧ s1.code = s.code ∧ s1.timeout = s.timeout := by
  have hml : (methText method).length ≤ 4 ∧ (0 : Nat) ∉ methText method := by
    cases method <;> exact ⟨by decide, by decide⟩
  obtain ⟨s1, h1, ht1, hb1, hsr1, hc1, hto1⟩ := sendText_all T hacc
    (methText method ++ [32] ++ path ++ txtHttpHost ++ host ++ CRLF) s (by simp [CRLF])
    (by
      simp only [List.mem_append, not_or]
      exact ⟨⟨⟨⟨⟨hml.2, by decide⟩, hp0⟩, by decide⟩, hh0⟩, by decide⟩)
    (by
      simp only [List.length_append, txtHttpHost, CRLF, List.length_cons, List.length_nil]
      omega) hb
  -- the body headers of a POST
  obtain ⟨s2, h2, ht2, hr2, hb2, hsr2, hc2, hto2⟩ := sendRequest_headers T hacc D method s1
    hb1 hD
  obtain ⟨s3, h3, ht3, hb3, hsr3, hc3, hto3⟩ := send_all T hacc CRLF s2 (by decide)
  refine ⟨s3, ?_, ?_, ?_, by rw [hb3]; exact hb2, (hsr3.trans hsr2).trans hsr1,
    (hc3.trans hc2).trans hc1, (hto3.trans hto2).trans hto1⟩
  · unfold sendRequest sendBody
    simp only [bind_apply, h1, ne_eq, not_true_eq_false, if_false, h2, h3, CHECK_CONN_ERR_OK]
  · rw [ht3, sentBytes_send, ht2, ht1, sentBytes_send, requestHead_eq]
    simp only [List.append_assoc]
  · rw [ht3, srcReads_send, hr2, ht1, srcReads_send]

/-- The request part of `connect` up to the first `send`: the URL is parsed into a host
and a path that are C strings within their capacities, the socket is connected, and
what remains to run is `sendRequest`. -/
theorem connectRequest_parsed (T : Transport σ) (hconn : Connects T) (D : Option (DataOut δ))
    (fuel : Nat) (url : List Nat) (method : HTTP_METH) (timeout : Nat) (s : State σ δ)
    (u : ParsedURL) (hu : parseURL url 8 32 64 = .ok u) (hz : (0 : Nat) ∉ url)
    (hlen : url.length < SIZE_MOD) :
    u.host.length < 32 ∧ u.path.length < 64 ∧ (0 : Nat) ∉ u.host ∧ (0 : Nat) ∉ u.path ∧
    ∃ s0, connectRequest T D fuel url method timeout s
        = sendRequest T D method u.host u.path fuel s0 ∧
      s0.buf.length = CHUNK_SIZE ∧ s0.src = s.src ∧ s0.code = 0 ∧ s0.timeout = timeout ∧
      s0.trace = .sockConnect u.host (if u.port = 0 then 80 else u.port) :: s.trace := by
  obtain ⟨k, H, pathOff, hostLen, pathLen, -, hH, -, -, -, -, hho, hpa, hhl, hpl⟩ :=
    parseURL_ok_shape url 8 32 64 u hlen hu
  have hH0 : (0 : Nat) ∉ H := by
    rw [← hH]
    exact fun h => hz (List.mem_of_mem_drop h)
  have hh0 : (0 : Nat) ∉ u.host := by
    rw [hho]
    exact fun h => hH0 (List.mem_of_mem_take h)
  have hp0 : (0 : Nat) ∉ u.path := by
    rw [hpa]
    exact fun h => hH0 (List.mem_of_mem_drop (List.mem_of_mem_take h))
  have hhlen : u.host.length < 32 := by
    rw [hho, List.length_take]; omega
  have hplen : u.path.length < 64 := by
    rw [hpa, List.length_take]; omega
  refine ⟨hhlen, hplen, hh0, hp0, ?_⟩
  obtain ⟨s0, hs0, hb0, hsr0, hc0, hto0, htr0⟩ : ∃ s0 : State σ δ,
      sockConnect T u.host (if u.port = 0 then 80 else u.port)
        { s with code := 0, timeout := timeout,
                 buf := (s.buf ++ List.replicate CHUNK_SIZE 0).take CHUNK_SIZE }
        = .cont (T.connect s.sock u.host (if u.port = 0 then 80 else u.port)).1 s0 ∧
      s0.buf.length = CHUNK_SIZE ∧ s0.src = s.src ∧ s0.code = 0 ∧ s0.timeout = timeout ∧
      s0.trace = .sockConnect u.host (if u.port = 0 then 80 else u.port) :: s.trace := by
    refine ⟨_, rfl, ?_, rfl, rfl, rfl, rfl⟩
    simp only [List.length_take, List.length_append, List.length_replicate]
    omega
  refine ⟨s0, ?_, hb0, hsr0, hc0, hto0, htr0⟩
  unfold connectRequest
  simp only [hu, bind_apply, hs0]
  rw [if_neg (not_lt.mpr (hconn _ _ _))]

/-- The request head when the declared length is within the range of `int`. For every
URL (a C string) that `parseURL` accepts with the capacities of `connect`, every
transport on which `connect` succeeds and which accepts every write in full, and
every data source whose declared length is below `2 ^ 31` and whose type is a C
string of at most 47 bytes: the request part of `connect` sends exactly the request
head of the specification, `<METHOD> <path> HTTP/1.1`, `Host: <host>`, for a POST
with a data source `Content-Length: <n>` or `Transfer-Encoding: chunked` and then
`Content-Type: <type>` if there is one, and the blank line, without reading the
source; what remains to run is the loop that sends the body of a POST, and nothing
for a GET. -/
theorem connectRequest_sends_head (T : Transport σ) (hacc : AcceptsAll T)
    (hconn : Connects T) (D : Option (DataOut δ)) (fuel : Nat) (url : List Nat)
    (method : HTTP_METH) (timeout : Nat) (s : State σ δ) (u : ParsedURL)
    (hu : parseURL url 8 32 64 = .ok u) (hz : (0 : Nat) ∉ url) (hlen : url.length < SIZE_MOD)
    (hD : ∀ d, D = some d → (d.isChunked = false → d.dataLen < 2 ^ 31) ∧
      ∀ ty, d.dataType = some ty → ty.length < 48 ∧ (0 : Nat) ∉ ty) :
    u.host.length ≤ 31 ∧ u.path.length ≤ 63 ∧
    ∃ s1, connectRequest T D fuel url method timeout s = sendBody T D method fuel s1 ∧
      sentBytes s1.trace = sentBytes s.trace ++ requestHead method u.path u.host D ∧
      srcReads s1.trace = srcReads s.trace ∧ s1.buf.length = CHUNK_SIZE ∧
      s1.src = s.src ∧ s1.code = 0 ∧ s1.timeout = timeout := by
  obtain ⟨hhlen, hplen, hh0, hp0, s0, hs0, hb0, hsr0, hc0, hto0, htr0⟩ :=
    connectRequest_parsed T hconn D fuel url method timeout s u hu hz hlen
  refine ⟨by omega, by omega, ?_⟩
  obtain ⟨s1, h1, ht1, hr1, hb1, hsr1, hc1, hto1⟩ :=
    sendRequest_head T hacc D method u.host u.path fuel s0 hb0 hhlen hplen hh0 hp0 hD
  refine ⟨s1, by rw [hs0]; exact h1, ?_, ?_, hb1, hsr1.trans hsr0, hc1.trans hc0,
    hto1.trans hto0⟩
  · rw [ht1, htr0]
    simp [sentBytes, sentData]
  · rw [hr1, htr0]
    rfl

end RequestAny

/-- The request head of a POST to `h://h/` from a source that declares 4 bytes, over
the fragment transport. -/
theorem connectRequest_sends_head_witness :
    [104].length ≤ 31 ∧ [47].length ≤ 63 ∧
    ∃ s1, connectRequest streamTransport (some (listSource false 4 none)) 10 exURL .HTTP_POST
          1000 (exPostState [] [[97, 98], [99, 100]])
        = sendBody streamTransport (some (listSource false 4 none)) .HTTP_POST 10 s1 ∧
      sentBytes s1.trace = sentBytes (exPostState [] [[97, 98], [99, 100]]).trace
        ++ requestHead .HTTP_POST [47] [104] (some (listSource false 4 none)) ∧
      srcReads s1.trace = srcReads (exPostState [] [[97, 98], [99, 100]]).trace ∧
      s1.buf.length = CHUNK_SIZE ∧
      s1.src = (exPostState [] [[97, 98], [99, 100]]).src ∧ s1.code = 0 ∧ s1.timeout = 1000 :=
  connectRequest_sends_head streamTransport (fun _ _ _ => rfl) (fun _ _ _ => le_rfl)
    (some (listSource false 4 none)) 10 exURL .HTTP_POST 1000
    (exPostState [] [[97, 98], [99, 100]])
    { scheme := [104], host := [104], port := 0, path := [47] } (by decide) (by decide)
    (by decide)
    (by
      intro d hd
      cases hd
      exact ⟨fun _ => by decide, fun ty h => by cases h⟩)

/-- C13, failing input. A POST to `h://h/` from a non-chunked source that declares
`2 ^ 31` bytes: the header sent is `Content-Length: -2147483648`, not the declared
length in decimal (the whole of what `connect` sends is the request head with that
line, the source being empty). -/
theorem connect_content_length_header_negative :
    (connect streamTransport (some (listSource false 2147483648 none)) 10 exURL .HTTP_POST 1000
      (exPostState exHello [])).state?.map (fun s => sentBytes s.trace)
      = some (methText .HTTP_POST ++ [32, 47] ++ txtHttpHost ++ [104] ++ CRLF
          ++ txtContentLengthColon ++ [45, 50, 49, 52, 55, 52, 56, 51, 54, 52, 56] ++ CRLF
          ++ CRLF) := by
  decide!
/-! ## Claim C14: the body of a chunked POST -/

section ChunkedPost

variable {σ δ : Type}

theorem srcReads_read (len : Nat) (t : List Event) :
    srcReads (.srcRead len :: t) = srcReads t + 1 := rfl

theorem sentBytes_read (len : Nat) (t : List Event) :
    sentBytes (.srcRead len :: t) = sentBytes t := rfl

/-- One `read` of the data source that yields the chunk `c`. -/
theorem srcRead_chunk (D : DataOut δ) (s : State σ δ) (c : List Nat)
    (hb : s.buf.length = CHUNK_SIZE) (hc : (D.read s.src CHUNK_SIZE).1 = c)
    (hl : c.length ≤ CHUNK_SIZE) :
    ∃ s1, srcRead D CHUNK_SIZE s = .cont c.length s1 ∧ s1.buf.take c.length = c ∧
      s1.buf.length = CHUNK_SIZE ∧ s1.src = (D.read s.src CHUNK_SIZE).2 ∧
      s1.trace = .srcRead CHUNK_SIZE :: s.trace ∧ s1.sock = s.sock ∧ s1.code = s.code ∧
      s1.timeout = s.timeout := by
  refine ⟨{ s with src := (D.read s.src CHUNK_SIZE).2, buf := c ++ s.buf.drop c.length,
                   trace := .srcRead CHUNK_SIZE :: s.trace }, ?_, ?_, ?_, rfl, rfl, rfl, rfl, rfl⟩
  · unfold srcRead
    simp only [hc, hl, if_true]
  · simp
  · simp only [List.length_append, List.length_drop, hb]
    omega

/-- The loop that sends the body of a POST, for a chunked source that hands out the
given non-empty chunks and then nothing, over a transport that accepts every
write. -/
theorem postLoop_chunked (T : Transport σ) (hacc : AcceptsAll T) (D : DataOut δ)
    (hch : D.isChunked = true) (d1 : δ) (hend : (D.read d1 CHUNK_SIZE).1 = [])
    (chunks : List (List Nat)) :
    ∀ (fuel : Nat) (s : State σ δ), s.buf.length = CHUNK_SIZE → Produces D s.src chunks d1 →
      (∀ c ∈ chunks, c ≠ [] ∧ c.length ≤ CHUNK_SIZE) → chunks.length + 1 ≤ fuel →
      ∃ s', postLoop T D fuel s = .cont () s' ∧
        sentBytes s'.trace = sentBytes s.trace ++ chunkedBody chunks ∧
        srcReads s'.trace = srcReads s.trace + (chunks.length + 1) ∧
        s'.src = (D.read d1 CHUNK_SIZE).2 ∧ s'.code = s.code ∧ s'.timeout = s.timeout := by
  induction chunks with
  | nil =>
    intro fuel s hb hp _ hf
    obtain ⟨fuel', rfl⟩ : ∃ fuel', fuel = fuel' + 1 := ⟨fuel - 1, by omega⟩
    have hd : d1 = s.src := hp
    subst hd
    obtain ⟨s1, h1, -, hb1, hsr1, ht1, -, hc1, hto1⟩ := srcRead_chunk (σ := σ) D s [] hb hend
      (by simp)
    obtain ⟨s2, h2, ht2, hb2, hsr2, hc2, hto2⟩ := send_all T hacc (printHex 0 ++ CRLF) s1
      (by simp [CRLF])
    obtain ⟨s3, h3, ht3, hb3, hsr3, hc3, hto3⟩ := send_all T hacc CRLF s2 (by decide)
    refine ⟨s3, ?_, ?_, ?_, (hsr3.trans hsr2).trans hsr1, (hc3.trans hc2).trans hc1,
      (hto3.trans hto2).trans hto1⟩
    · unfold postLoop
      simp only [List.length_nil] at h1
      simp only [bind_apply, h1, hch, if_true, h2, CHECK_CONN_ERR_OK, ne_eq, not_true_eq_false,
        if_false, pure_apply, h3]
    · rw [ht3, sentBytes_send, ht2, sentBytes_send, ht1, sentBytes_read]
      simp [chunkedBody, printHex, toBase, CRLF]
    · rw [ht3, srcReads_send, ht2, srcReads_send, ht1, srcReads_read]
      rfl
  | cons c cs ih =>
    intro fuel s hb hp hcs hf
    obtain ⟨fuel', rfl⟩ : ∃ fuel', fuel = fuel' + 1 := ⟨fuel - 1, by omega⟩
    obtain ⟨hc, hp'⟩ := hp
    obtain ⟨hcne, hcl⟩ := hcs c (List.mem_cons_self _ _)
    obtain ⟨s1, h1, htk1, hb1, hsr1, ht1, -, hc1, hto1⟩ := srcRead_chunk (σ := σ) D s c hb hc hcl
    obtain ⟨s2, h2, ht2, hb2, hsr2, hc2, hto2⟩ := send_all T hacc (printHex c.length ++ CRLF) s1
      (by simp [CRLF])
    have hrb : readBuf c.length s2 = .cont c s2 := by
      unfold readBuf
      rw [if_pos hcl, hb2, htk1]
    obtain ⟨s3, h3, ht3, hb3, hsr3, hc3, hto3⟩ := send_all T hacc c s2 hcne
    obtain ⟨s4, h4, ht4, hb4, hsr4, hc4, hto4⟩ := send_all T hacc CRLF s3 (by decide)
    have hb4l : s4.buf.length = CHUNK_SIZE := by rw [hb4, hb3, hb2]; exact hb1
    have hp4 : Produces D s4.src cs d1 := by
      rw [hsr4, hsr3, hsr2, hsr1]; exact hp'
    simp only [List.length_cons] at hf
    obtain ⟨s5, h5, ht5, hr5, hsr5, hc5, hto5⟩ := ih fuel' s4 hb4l hp4
      (fun x hx => hcs x (List.mem_cons_of_mem _ hx)) (by omega)
    have hlen0 : c.length ≠ 0 := fun h => hcne (List.length_eq_zero.mp h)
    refine ⟨s5, ?_, ?_, ?_, hsr5, ?_, ?_⟩
    · conv => lhs; unfold postLoop
      simp only [bind_apply, h1, hch, if_true, h2, CHECK_CONN_ERR_OK, ne_eq, hlen0,
        not_false_eq_true, hrb, h3, h4, if_false]
      exact h5
    · rw [ht5, ht4, sentBytes_send, ht3, sentBytes_send, ht2, sentBytes_send, ht1,
        sentBytes_read]
      simp [chunkedBody, List.append_assoc]
    · rw [hr5, ht4, srcReads_send, ht3, srcReads_send, ht2, srcReads_send, ht1, srcReads_read,
        List.length_cons]
      omega
    · rw [hc5, hc4, hc3, hc2, hc1]
    · rw [hto5, hto4, hto3, hto2, hto1]

/-- C14. A POST from a chunked data source that hands out the non-empty chunks
`d_1 .. d_n` (each of at most `CHUNK_SIZE` bytes) and then a read of zero bytes,
over a transport on which `connect` succeeds and which accepts every write: the
request part of `connect` completes, the bytes sent are the request head followed
by `hex(|d_1|) CRLF d_1 CRLF ... hex(|d_n|) CRLF d_n CRLF` and `0 CRLF CRLF`, and
the source is read `n + 1` times, the last read being the empty one. -/
theorem connectRequest_chunked_post (T : Transport σ) (hacc : AcceptsAll T)
    (hconn : Connects T) (D : DataOut δ) (fuel : Nat) (url : List Nat) (timeout : Nat)
    (s : State σ δ) (u : ParsedURL) (chunks : List (List Nat)) (d1 : δ)
    (hu : parseURL url 8 32 64 = .ok u) (hz : (0 : Nat) ∉ url) (hlen : url.length < SIZE_MOD)
    (hch : D.isChunked = true)
    (hty : ∀ ty, D.dataType = some ty → ty.length < 48 ∧ (0 : Nat) ∉ ty)
    (hprod : Produces D s.src chunks d1) (hend : (D.read d1 CHUNK_SIZE).1 = [])
    (hchunks : ∀ c ∈ chunks, c ≠ [] ∧ c.length ≤ CHUNK_SIZE)
    (hfuel : chunks.length + 1 ≤ fuel) :
    ∃ s1, connectRequest T (some D) fuel url .HTTP_POST timeout s = .cont () s1 ∧
      sentBytes s1.trace = sentBytes s.trace
        ++ requestHead .HTTP_POST u.path u.host (some D) ++ chunkedBody chunks ∧
      srcReads s1.trace = srcReads s.trace + (chunks.length + 1) ∧
      s1.src = (D.read d1 CHUNK_SIZE).2 := by
  obtain ⟨hhlen, hplen, hh0, hp0, sc, hsc, hbc, hsrc, -, -, htrc⟩ :=
    connectRequest_parsed T hconn (some D) fuel url .HTTP_POST timeout s u hu hz hlen
  obtain ⟨s0, h0, ht0, hr0, hb0, hsr0, -, -⟩ := sendRequest_head T hacc (some D) .HTTP_POST
    u.host u.path fuel sc hbc hhlen hplen hh0 hp0 (by
      intro d hd
      cases hd
      exact ⟨fun h => absurd (hch.symm.trans h) (by decide), hty⟩)
  obtain ⟨s1, h1, ht1, hr1, hsr1, -, -⟩ := postLoop_chunked T hacc D hch d1 hend chunks fuel s0
    hb0 (by rw [hsr0, hsrc]; exact hprod) hchunks hfuel
  refine ⟨s1, ?_, ?_, ?_, hsr1⟩
  · rw [hsc, h0]
    exact h1
  · rw [ht1, ht0, htrc]
    simp [sentBytes, sentData]
  · rw [hr1, hr0, htrc]
    rfl

end ChunkedPost

/-- C14, instance: a chunked POST of the single chunk `abc` to `h://h/` over the
fragment transport sends `3 CRLF abc CRLF 0 CRLF CRLF` after the request head. -/
theorem connectRequest_chunked_post_witness :
    ∃ s1, connectRequest streamTransport (some (listSource true 0 none)) 5 exURL .HTTP_POST 1000
          (exPostState [] [[97, 98, 99]]) = .cont () s1 ∧
      sentBytes s1.trace = sentBytes (exPostState [] [[97, 98, 99]]).trace
        ++ requestHead .HTTP_POST [47] [104] (some (listSource true 0 none))
        ++ [51, 13, 10, 97, 98, 99, 13, 10, 48, 13, 10, 13, 10] ∧
      srcReads s1.trace = srcReads (exPostState [] [[97, 98, 99]]).trace + (1 + 1) ∧
      s1.src = [] :=
  connectRequest_chunked_post streamTransport (fun _ _ _ => rfl) (fun _ _ _ => le_rfl)
    (listSource true 0 none) 5 exURL 1000 (exPostState [] [[97, 98, 99]])
    { scheme := [104], host := [104], port := 0, path := [47] } [[97, 98, 99]] []
    (by decide) (by decide) (by decide) rfl (fun ty h => by cases h) ⟨rfl, rfl⟩ rfl
    (by decide) (by decide)
/-! ## Claim C16: the `Content-Type` value -/

section ContentType

variable {δ : Type}

/-- The header format on the line `Content-Type: v`: the value is cut to its first 31
bytes. -/
theorem scanHeader_contentType (v : List Nat) (hne : v ≠ []) (h13 : (13 : Nat) ∉ v)
    (h10 : (10 : Nat) ∉ v) (hsp : ∀ c, v.head? = some c → isspace c = false) :
    scanHeader (txtContentTypeColon ++ v) = some (keyContentType, v.take 31) := by
  have e : txtContentTypeColon ++ v = keyContentType ++ (58 :: 32 :: v) := by
    simp [txtContentTypeColon, keyContentType]
  obtain ⟨d, ds, rfl⟩ := List.exists_cons_of_ne_nil hne
  have hd0 : isspace d = false := hsp d rfl
  have h1 : scanSet31 (fun c => decide (c ≠ 58)) (keyContentType ++ (58 :: 32 :: d :: ds))
      = some (keyContentType, 58 :: 32 :: d :: ds) := by
    unfold scanSet31
    have htw : (keyContentType ++ (58 :: 32 :: d :: ds)).takeWhile
        (fun c => decide (c ≠ 58)) = keyContentType :=
      takeWhile_append_stop _ _ _ (by decide) (by intro c hc; simp at hc; subst hc; decide)
    simp only [htw]
    have : keyContentType.take 31 = keyContentType := by decide
    rw [this]
    simp [keyContentType]
  have h2 : (32 :: d :: ds).dropWhile isspace = d :: ds := by
    rw [List.dropWhile_cons, if_pos (by decide), List.dropWhile_cons,
      if_neg (by rw [hd0]; decide)]
  have h3 : scanSet31 (fun c => decide (c ≠ 13) && decide (c ≠ 10)) (d :: ds)
      = some ((d :: ds).take 31, (d :: ds).drop ((d :: ds).take 31).length) := by
    unfold scanSet31
    have htw : (d :: ds).takeWhile (fun c => decide (c ≠ 13) && decide (c ≠ 10)) = d :: ds := by
      rw [List.takeWhile_eq_self_iff]
      intro c hc
      have c13 : c ≠ 13 := fun e => h13 (e ▸ hc)
      have c10 : c ≠ 10 := fun e => h10 (e ▸ hc)
      simp [c13, c10]
    simp only [htw]
    rw [if_neg (by simp)]
  rw [e]
  unfold scanHeader
  simp only [h1, if_true, h2, h3]

theorem conforming_contentType (v : List Nat) (hne : v ≠ []) (h0 : (0 : Nat) ∉ v)
    (h13 : (13 : Nat) ∉ v) (h10 : (10 : Nat) ∉ v)
    (hsp : ∀ c, v.head? = some c → isspace c = false) (hlen : v.length + 16 ≤ 255) :
    Conforming (txtContentTypeColon ++ v) := by
  refine ⟨by simp [txtContentTypeColon], ?_, ?_, ?_, ?_⟩
  · intro hm
    rcases List.mem_append.mp hm with h | h
    · revert h; decide
    · exact h0 h
  · intro hi
    have : (13 : Nat) ∈ txtContentTypeColon ++ v := hi.subset (by simp [CRLF])
    rcases List.mem_append.mp this with h | h
    · revert h; decide
    · exact h13 h
  · simp only [List.length_append, txtContentTypeColon, List.length_cons, List.length_nil]
    omega
  · exact ⟨_, _, scanHeader_contentType v hne h13 h10 hsp, fun h => absurd h (by decide)⟩

/-- C16, amended. A 200 response whose status line lies in the first 255 bytes, with
header lines that each conform to the format the engine accepts and then the line
`Content-Type: v`, where `v` is non-empty, free of NUL, CR and LF, does not start
with white space, and is short enough for the line to fit the buffer; whatever
follows that line on the stream and whatever the fragments the response arrives
in. The run of `connect` reaches the end of the round of the header loop that
handles the line: the start of `connect` up to that round goes on, it leaves
exactly what follows the line still to be consumed, and the calls of
`setDataType` made by then are those of the `Content-Type` lines before, and
then, as the last one, the call for this line, with the first 31 bytes of `v` (all
of `v` when it has at most 31 bytes). `connect` goes on from that state with the
rest of the header loop and the body phase, and whenever it returns, these calls
are still the first calls of `setDataType`. -/
theorem connect_content_type (D : Option (DataOut δ)) (fuel : Nat) (url : List Nat)
    (method : HTTP_METH) (timeout : Nat) (s : State (List (List Nat)) δ)
    (major minor tail : List Nat) (before : List (List Nat)) (v rest : List Nat)
    (hfr : ∀ f ∈ s.sock, f ≠ [])
    (hreq : (connectRequest streamTransport D fuel url method timeout s).isCont = true)
    (hstream : s.sock.flatten = statusText major minor [50, 48, 48] tail ++ CRLF
      ++ (block (before ++ [txtContentTypeColon ++ v]) ++ rest))
    (hmajor : major ≠ [] ∧ ∀ c ∈ major, isdigit c = true)
    (hminor : minor ≠ [] ∧ ∀ c ∈ minor, isdigit c = true)
    (htail : ∀ c, tail.head? = some c → isdigit c = false)
    (h0 : (0 : Nat) ∉ statusText major minor [50, 48, 48] tail)
    (hcr : ¬ CRLF <:+: statusText major minor [50, 48, 48] tail)
    (hfit : (statusText major minor [50, 48, 48] tail).length + 2 ≤ 255)
    (hlines : ∀ h ∈ before, Conforming h)
    (hv : v ≠ [] ∧ (0 : Nat) ∉ v ∧ (13 : Nat) ∉ v ∧ (10 : Nat) ∉ v ∧
      (∀ c, v.head? = some c → isspace c = false) ∧ v.length + 16 ≤ 255)
    (hfuel : 2 * before.length + 2 ≤ fuel) :
    ∃ n s4 W cl ch, n ≤ fuel ∧
      connectRounds streamTransport D fuel url method timeout n s
        = .cont (.next W.length cl ch) s4 ∧
      Window s4 W rest ∧
      sinkTypes s4.trace = sinkTypes s.trace ++ (blockTypes before ++ [v.take 31]) ∧
      connect streamTransport D fuel url method timeout s
        = afterRounds streamTransport fuel (fuel - n) (.next W.length cl ch) s4 ∧
      ∀ e s', connect streamTransport D fuel url method timeout s = .ret e s' →
        ∃ more, sinkTypes s'.trace
          = sinkTypes s.trace ++ (blockTypes before ++ [v.take 31]) ++ more := by
  obtain ⟨u, s1, hc⟩ := (isCont_iff _).mp hreq
  cases u
  obtain ⟨hsock, -, -, hbuf, hq⟩ := connectRequest_stream D fuel url method timeout s s1 hc
  have hg : Good s1 := ⟨by rw [hsock]; exact hfr, hbuf⟩
  obtain ⟨hv1, hv0, hv13, hv10, hvsp, hvl⟩ := hv
  have hscan := scanStatusLine_statusText major minor [50, 48, 48] tail hmajor hminor
    ⟨by simp, by decide⟩ htail (by decide)
  have h200 : decVal [50, 48, 48] = 200 := by decide
  rw [h200] at hscan
  have hconf : ∀ h ∈ before ++ [txtContentTypeColon ++ v], Conforming h := by
    intro h hm
    simp only [List.mem_append, List.mem_singleton] at hm
    rcases hm with hm | hm
    · exact hlines h hm
    · subst hm; exact conforming_contentType v hv1 hv0 hv13 hv10 hvsp hvl
  have hstream1 : s1.sock.flatten = statusText major minor [50, 48, 48] tail ++ CRLF
      ++ (block (before ++ [txtContentTypeColon ++ v]) ++ rest) := by
    rw [hsock]; exact hstream
  obtain ⟨s3, W, h3, hw3, -, -, -⟩ := statusLine_ok s1 _ tail _ hg hstream1 h0 hcr hfit
    (by exact_mod_cast hscan)
  obtain ⟨s3', h3', -, -, -, -, -, hq3⟩ := statusLine_first_read s1 _ tail _ hg hstream1 h0 hcr
    hfit (by exact_mod_cast hscan)
  have hs3 : s3' = s3 := by
    have := h3'.symm.trans h3
    injection this
  rw [hs3] at hq3
  obtain ⟨n, s4, W4, hn, h4, hw4, -, -, -, hty4⟩ := headerRounds_block
    (before ++ [txtContentTypeColon ++ v]) rest s3 W (0, false) hw3 hconf
  have hnf : n ≤ fuel := by
    simp only [List.length_append, List.length_singleton] at hn
    omega
  have hty : sinkTypes s4.trace
      = sinkTypes s.trace ++ (blockTypes before ++ [v.take 31]) := by
    rw [hty4, hq3.quiet_types, hq.quiet_types, blockTypes_append]
    congr 2
    simp [blockTypes, lineTypes, scanHeader_contentType v hv1 hv13 hv10 hvsp]
  have hstart : connectRounds streamTransport D fuel url method timeout n s
      = .cont (.next W4.length
          (blockFraming (before ++ [txtContentTypeColon ++ v]) (0, false)).1
          (blockFraming (before ++ [txtContentTypeColon ++ v]) (0, false)).2) s4 := by
    unfold connectRounds
    simp only [bind_apply, hc, h3]
    exact h4
  have hrun : connect streamTransport D fuel url method timeout s
      = afterRounds streamTransport fuel (fuel - n) (.next W4.length
          (blockFraming (before ++ [txtContentTypeColon ++ v]) (0, false)).1
          (blockFraming (before ++ [txtContentTypeColon ++ v]) (0, false)).2) s4 := by
    rw [connect_rounds streamTransport D fuel url method timeout n hnf, bind_apply, hstart]
  refine ⟨n, s4, W4, _, _, hnf, hstart, hw4, hty, hrun, ?_⟩
  intro e s' hret
  rw [hrun] at hret
  have hsafe := (safe_afterRounds streamTransport fuel (fuel - n) (.next W4.length
    (blockFraming (before ++ [txtContentTypeColon ++ v]) (0, false)).1
    (blockFraming (before ++ [txtContentTypeColon ++ v]) (0, false)).2)).out s4
  rw [hret] at hsafe
  obtain ⟨⟨es, hes, -⟩, -⟩ := hsafe
  refine ⟨sinkTypes (Event.sockClose :: es), ?_⟩
  rw [← hty, hes, ← List.cons_append, sinkTypes_append]

end ContentType

/-- C16, instance of the amended claim: the response with `Content-Type: text/plain`
in two fragments, the line followed by `Content-Length: 5`, the blank line and the
body `hello`. -/
theorem connect_content_type_witness :
    ∃ n s4 W cl ch, n ≤ 20 ∧
      connectRounds streamTransport none 20 exURL .HTTP_GET 1000 n (exState exPlainType)
        = .cont (.next W.length cl ch) s4 ∧
      Window s4 W
        (txtContentLengthColon ++ [53] ++ CRLF ++ CRLF ++ [104, 101, 108, 108, 111]) ∧
      sinkTypes s4.trace = sinkTypes (exState exPlainType).trace
        ++ (blockTypes [] ++ [[116, 101, 120, 116, 47, 112, 108, 97, 105, 110].take 31]) ∧
      connect streamTransport none 20 exURL .HTTP_GET 1000 (exState exPlainType)
        = afterRounds streamTransport 20 (20 - n) (.next W.length cl ch) s4 ∧
      ∀ e s', connect streamTransport none 20 exURL .HTTP_GET 1000 (exState exPlainType)
          = .ret e s' →
        ∃ more, sinkTypes s'.trace = sinkTypes (exState exPlainType).trace
          ++ (blockTypes [] ++ [[116, 101, 120, 116, 47, 112, 108, 97, 105, 110].take 31])
          ++ more :=
  connect_content_type none 20 exURL .HTTP_GET 1000 (exState exPlainType) [49] [49]
    [32, 79, 75] [] [116, 101, 120, 116, 47, 112, 108, 97, 105, 110]
    (txtContentLengthColon ++ [53] ++ CRLF ++ CRLF ++ [104, 101, 108, 108, 111])
    (by decide) (by decide!) (by decide) (by decide) (by decide) (by decide) (by decide)
    (by decide) (by decide) (by simp) (by decide) (by decide)

/-- C16, counterexample. A 200 response with the header
`Content-Type: application/x-www-form-urlencoded`, whose value has 33 bytes:
`connect` returns `OK` and the only call of `setDataType` has the first 31 bytes,
`application/x-www-form-urlencod`. -/
theorem connect_content_type_truncated :
    (connect streamTransport none 20 exURL .HTTP_GET 1000 (exState exFormType)).code?
      = some .OK ∧
    (connect streamTransport none 20 exURL .HTTP_GET 1000 (exState exFormType)).state?.map
      (fun s => sinkTypes s.trace)
      = some [[97, 112, 112, 108, 105, 99, 97, 116, 105, 111, 110, 47, 120, 45, 119, 119, 119,
          45, 102, 111, 114, 109, 45, 117, 114, 108, 101, 110, 99, 111, 100]] := by
  constructor <;> decide!

end HTTPClient
